import Mathlib

/-!
Shallow embedding of the generalized tic-tac-toe engine in `src/index.js`,
together with theorems settling the specification claims.

Conventions of the embedding:
* JS cell values `''`, `'X'`, `'O'` become the enumeration `Mark`.
* The JS 2-dimensional array `gameBoard` becomes `Board := List (List Mark)`;
  in-place assignment `gameBoard[r][c] = v` becomes the functional `setCell`.
* JS numbers used as scores become `Int`, extended with the two infinities
  `-Infinity` / `Infinity` as `⊥` / `⊤` of `EInt := WithBot (WithTop Int)`;
  the only operations the source applies to scores are comparisons, `Math.max`
  and `Math.min`, which `EInt`'s linear order models exactly.
* JS `for` loops over index ranges become folds or recursions over explicit
  `List.range`-built lists in the same iteration order; an early `return`
  from a loop becomes a recursive helper that stops consuming its list.
* The globals `boardSize`, `winLength`, `aiPlayer` become the parameter
  record `Cfg`; the remaining globals become the state record `GState`.
-/

namespace TicTacToe

/-- Cell content: the source strings `''`, `'X'` and `'O'`. -/
inductive Mark where
  | empty : Mark
  | X : Mark
  | O : Mark
deriving DecidableEq

/-- The game board, `boardSize` rows of `boardSize` cells each. -/
abbrev Board := List (List Mark)

/-- Row `r` of a board, or `[]` out of range (helper for total cell access). -/
def rowAt (b : Board) (r : Nat) : List Mark := b.getD r []

/-- Cell `(r, c)` of a board, defaulting to `empty` out of range.  All uses in
the embedding of the source are at in-bounds coordinates (the source either
bounds-checks first or enumerates in-bounds coordinates); the out-of-bounds
behaviour of the source is modelled separately by the `Checked` variants. -/
def cellAt (b : Board) (r c : Nat) : Mark := (rowAt b r).getD c Mark.empty

/-- The assignment `board[r][c] = m` of the source, functionally. -/
def setCell (b : Board) (r c : Nat) (m : Mark) : Board :=
  b.set r ((rowAt b r).set c m)

/-- Well-formedness: the board really is an `N × N` grid. -/
def WF (N : Nat) (b : Board) : Prop :=
  b.length = N ∧ ∀ row ∈ b, row.length = N

/-- The per-game configuration globals of the source: `boardSize`,
`winLength` and `aiPlayer`. -/
structure Cfg where
  N : Nat
  L : Nat
  ai : Mark
deriving DecidableEq

/-- The expression `aiPlayer === 'X' ? 'O' : 'X'` of the source. -/
def oppOf (m : Mark) : Mark := if m = Mark.X then Mark.O else Mark.X

/-- Helper `checkSequence(r, c, dr, dc)` nested in `checkWinner`
(src/index.js lines 108-124): the run of `winLength` cells starting at
`(r, c)` in direction `(dr, dc)` is a win exactly when the first cell is
non-empty and every following cell is in bounds and holds the same mark;
on a win it also builds the list of the run's coordinates.  The source's
early-`return null` loop is rendered as the equivalent bounded `all`. -/
def checkSequence (N L : Nat) (b : Board) (r c : Nat) (dr dc : Int) :
    Option (Mark × List (Int × Int)) :=
  let first := cellAt b r c
  if first = Mark.empty then none
  else if (List.range (L - 1)).all (fun k0 =>
      let rr : Int := (r : Int) + dr * ((k0 : Int) + 1)
      let cc : Int := (c : Int) + dc * ((k0 : Int) + 1)
      decide (0 ≤ rr) && decide (rr < (N : Int)) && decide (0 ≤ cc) &&
        decide (cc < (N : Int)) && decide (cellAt b rr.toNat cc.toNat = first))
  then some (first, (List.range L).map (fun (k : Nat) =>
    ((r : Int) + dr * (k : Int), (c : Int) + dc * (k : Int))))
  else none

/-- Row-scan origins of `checkWinner`: `i` over `0 ≤ i < boardSize`,
`j` over `0 ≤ j ≤ boardSize - winLength`, direction `(0, 1)`.  The JS bound
`j <= boardSize - winLength` admits no iteration when `winLength > boardSize`,
which truncated subtraction in `List.range (N + 1 - L)` reproduces exactly
for `L ≥ 1` (and for `L = 0` the `Checked` variants model the source). -/
def rowCandidates (N L : Nat) : List (Nat × Nat × Int × Int) :=
  (List.range N).flatMap (fun i =>
    (List.range (N + 1 - L)).map (fun j => (i, j, (0 : Int), (1 : Int))))

/-- Column-scan origins of `checkWinner`, direction `(1, 0)`. -/
def colCandidates (N L : Nat) : List (Nat × Nat × Int × Int) :=
  (List.range (N + 1 - L)).flatMap (fun i =>
    (List.range N).map (fun j => (i, j, (1 : Int), (0 : Int))))

/-- Down-right diagonal origins of `checkWinner`, direction `(1, 1)`. -/
def diagCandidates (N L : Nat) : List (Nat × Nat × Int × Int) :=
  (List.range (N + 1 - L)).flatMap (fun i =>
    (List.range (N + 1 - L)).map (fun j => (i, j, (1 : Int), (1 : Int))))

/-- Down-left diagonal origins of `checkWinner`: `j` runs from
`winLength - 1` to `boardSize - 1`, direction `(1, -1)`. -/
def antiCandidates (N L : Nat) : List (Nat × Nat × Int × Int) :=
  (List.range (N + 1 - L)).flatMap (fun i =>
    ((List.range N).drop (L - 1)).map (fun j => (i, j, (1 : Int), (-1 : Int))))

/-- All scan origins of `checkWinner` in source order: rows, then columns,
then down-right diagonals, then down-left diagonals. -/
def candidates (N L : Nat) : List (Nat × Nat × Int × Int) :=
  rowCandidates N L ++ colCandidates N L ++ diagCandidates N L ++
    antiCandidates N L

/-- The full outcome `checkWinner` computes on a win: the winning symbol
together with the cell list it passes to `highlightWinningCells`.  The
four sequential scan loops with early `return` become a first-success
search over `candidates`. -/
def checkWinnerRes (N L : Nat) (b : Board) :
    Option (Mark × List (Int × Int)) :=
  (candidates N L).findSome? (fun q =>
    checkSequence N L b q.1 q.2.1 q.2.2.1 q.2.2.2)

/-- The value `checkWinner` actually returns to its caller
(src/index.js lines 106-171): only `res.winner`, the winning symbol —
the cell list goes to the highlighting side effect, not to the caller. -/
def checkWinner (N L : Nat) (b : Board) : Option Mark :=
  (checkWinnerRes N L b).map Prod.fst

/-- The UI-free detector `checkWinnerForMinimax` (src/index.js lines
362-409): same scan as `checkWinner`, its inner helper returning just the
winning symbol. -/
def checkWinnerForMinimax (N L : Nat) (b : Board) : Option Mark :=
  (candidates N L).findSome? (fun q =>
    (checkSequence N L b q.1 q.2.1 q.2.2.1 q.2.2.2).map Prod.fst)

/-- Function `isBoardFull` (and the identical `isBoardFullForMinimax`):
true when no cell is empty. -/
def isBoardFull (N : Nat) (b : Board) : Bool :=
  (List.range N).all (fun i =>
    (List.range N).all (fun j => decide (cellAt b i j ≠ Mark.empty)))

/-- Function `isBoardFullForMinimax` has the same body as `isBoardFull`. -/
def isBoardFullForMinimax (N : Nat) (b : Board) : Bool := isBoardFull N b

/-- Helper `scoreSequence(r, c, dr, dc)` nested in `evaluateBoard`
(src/index.js lines 318-331): counts the AI's and the opponent's marks in
the `winLength`-cell window starting at `(r, c)` in direction `(dr, dc)`,
returning `0` as soon as the window leaves the board, `10 ^ countAI` for a
window holding only AI marks, `-(10 ^ countOpp)` for a window holding only
opponent marks, and `0` otherwise.  The source's early `return 0` on an
out-of-bounds step yields the same value as the bounded `all` guard here,
since the score of any out-of-bounds window is 0. -/
def scoreSequence (cfg : Cfg) (b : Board) (r c : Nat) (dr dc : Int) : Int :=
  if (List.range cfg.L).all (fun (k : Nat) =>
      let rr : Int := (r : Int) + dr * (k : Int)
      let cc : Int := (c : Int) + dc * (k : Int)
      decide (0 ≤ rr) && decide (rr < (cfg.N : Int)) && decide (0 ≤ cc) &&
        decide (cc < (cfg.N : Int)))
  then
    let cellOf : Nat → Mark := fun k =>
      cellAt b ((r : Int) + dr * (k : Int)).toNat ((c : Int) + dc * (k : Int)).toNat
    let countAI := ((List.range cfg.L).filter (fun k => cellOf k = cfg.ai)).length
    let countOpp := ((List.range cfg.L).filter (fun k => cellOf k = oppOf cfg.ai)).length
    if 0 < countAI ∧ countOpp = 0 then (10 : Int) ^ countAI
    else if 0 < countOpp ∧ countAI = 0 then -((10 : Int) ^ countOpp)
    else 0
  else 0

/-- Function `evaluateBoard` (src/index.js lines 313-359): sums
`scoreSequence` over the same four origin families, in the same order, as
the win detection scan. -/
def evaluateBoard (cfg : Cfg) (b : Board) : Int :=
  ((candidates cfg.N cfg.L).map (fun q =>
    scoreSequence cfg b q.1 q.2.1 q.2.2.1 q.2.2.2)).sum

/-! ## Game session state and the human-move path -/

/-- The two values of the `gameMode` select control. -/
inductive GMode where
  | human : GMode
  | ai : GMode
deriving DecidableEq

/-- The mutable globals of the source that make up one game session:
`boardSize`, `gameMode`, `currentPlayer`, `gameBoard`, `gameActive`,
`aiPlayer` and `winLength`. -/
structure GState where
  boardSize : Nat
  gameMode : GMode
  currentPlayer : Mark
  gameBoard : Board
  gameActive : Bool
  aiPlayer : Mark
  winLength : Nat
deriving DecidableEq

/-- The `Cfg` record corresponding to a session's globals. -/
def cfgOf (s : GState) : Cfg := ⟨s.boardSize, s.winLength, s.aiPlayer⟩

/-- Function `initGame` (src/index.js lines 18-35): reads the requested
size and mode, resets `currentPlayer`, `gameActive` and `winLength`
(`boardSize > 6 ? 4 : 3`), and rebuilds `gameBoard` as a size × size grid
of `''`.  There is no validation of `size`.  (`createBoard` and
`updateStatus` touch only the DOM.) -/
def initGame (size : Nat) (mode : GMode) : GState :=
  { boardSize := size
    gameMode := mode
    currentPlayer := Mark.X
    gameBoard := List.replicate size (List.replicate size Mark.empty)
    gameActive := true
    aiPlayer := Mark.O
    winLength := if 6 < size then 4 else 3 }

/-- Function `makeMove` (src/index.js lines 85-90): writes
`currentPlayer` into the target cell (its remaining statements only
update the DOM). -/
def makeMove (s : GState) (r c : Nat) : GState :=
  { s with gameBoard := setCell s.gameBoard r c s.currentPlayer }

/-- Function `switchPlayer` (src/index.js lines 93-96). -/
def switchPlayer (s : GState) : GState :=
  { s with currentPlayer := if s.currentPlayer = Mark.X then Mark.O else Mark.X }

/-- Function `endGame` (src/index.js lines 194-201): clears `gameActive`;
the result text only reaches the DOM. -/
def endGame (s : GState) : GState := { s with gameActive := false }

/-- The winner / full-board / switch tail shared by every move application
(`handleCellClick` inlines it; `checkGameEnd`, src/index.js lines 527-540,
is the same sequence). -/
def checkGameEnd (s : GState) : GState :=
  match checkWinner s.boardSize s.winLength s.gameBoard with
  | some _ => endGame s
  | none =>
    if isBoardFull s.boardSize s.gameBoard then endGame s else switchPlayer s

/-- Function `handleCellClick` (src/index.js lines 56-82), synchronous
part.  The guard `!gameActive || gameBoard[row][col] !== ''` evaluates
left to right: an inactive game returns silently before any array access;
otherwise `gameBoard[row]` on an out-of-range row is `undefined` and the
subsequent `[col]` access throws a TypeError (modelled as `Except.error`,
raised before any mutation); an in-range row with an out-of-range column
reads `undefined`, which is `!== ''`, so the click is silently ignored, as
is a click on an occupied cell.  On an accepted move the board is mutated
and the winner / tie / switch tail runs.  The computer reply is dispatched
through `setTimeout` only from the fall-through path; that deferred call
is modelled separately in `clickStep`. -/
def handleCellClick (s : GState) (r c : Nat) : Except Unit GState :=
  if s.gameActive = false then Except.ok s
  else
    match s.gameBoard[r]? with
    | none => Except.error ()
    | some row =>
      match row[c]? with
      | none => Except.ok s
      | some m =>
        if m ≠ Mark.empty then Except.ok s
        else Except.ok (checkGameEnd (makeMove s r c))

/-! ## Minimax search with alpha-beta pruning

Scores are `EInt := WithBot (WithTop Int)`: `⊥` is `-Infinity`, `⊤` is
`Infinity`, and `toE n` embeds a finite score.  The recursion of the
source terminates because a recursive call happens only when
`depth < maxDepth`; the embedding makes that measure explicit as a `gas`
argument that is always exactly `maxDepth - depth` (truncated), so the
wrapper `minimax` has the source's signature while `minimaxAux` recurses
structurally on `gas`.  The source's in-place place / recurse / retract
mutation of the shared board is modelled by threading the board: every
search function returns its score together with the board it leaves
behind. -/

/-- JS numbers as used for scores: integers extended with `-Infinity` (`⊥`)
and `Infinity` (`⊤`). -/
abbrev EInt := WithBot (WithTop Int)

/-- Finite scores inside `EInt`. -/
def toE (n : Int) : EInt := ((n : WithTop Int) : EInt)

/-- Row-major list of all cell coordinates, the iteration order of every
`for (i) for (j)` cell loop of the source. -/
def allCells (N : Nat) : List (Nat × Nat) :=
  (List.range N).flatMap (fun i => (List.range N).map (fun j => (i, j)))

/-- The maximizing inner double loop of `minimax` (src/index.js lines
280-293), board-threading form.  For each empty cell: place the AI mark,
evaluate the child (`child` is the recursive call at `depth + 1`, taking
the mutated board and the current `alpha`), retract the mark, update
`bestScore` and `alpha`, and return early when `beta ≤ alpha`. -/
def abMaxLoop (ai : Mark) (beta : EInt) (child : Board → EInt → EInt × Board) :
    List (Nat × Nat) → Board → EInt → EInt → EInt × Board
  | [], b, _, best => (best, b)
  | (i, j) :: rest, b, alpha, best =>
    if cellAt b i j = Mark.empty then
      let p := child (setCell b i j ai) alpha
      let b2 := setCell p.2 i j Mark.empty
      let best1 := max p.1 best
      let alpha1 := max alpha p.1
      if beta ≤ alpha1 then (best1, b2)
      else abMaxLoop ai beta child rest b2 alpha1 best1
    else abMaxLoop ai beta child rest b alpha best

/-- The minimizing inner double loop of `minimax` (src/index.js lines
295-308), board-threading form; places the opponent's mark, updates
`bestScore` and `beta`, and returns early when `beta ≤ alpha`. -/
def abMinLoop (opp : Mark) (alpha : EInt) (child : Board → EInt → EInt × Board) :
    List (Nat × Nat) → Board → EInt → EInt → EInt × Board
  | [], b, _, best => (best, b)
  | (i, j) :: rest, b, beta, best =>
    if cellAt b i j = Mark.empty then
      let p := child (setCell b i j opp) beta
      let b2 := setCell p.2 i j Mark.empty
      let best1 := min p.1 best
      let beta1 := min beta p.1
      if beta1 ≤ alpha then (best1, b2)
      else abMinLoop opp alpha child rest b2 beta1 best1
    else abMinLoop opp alpha child rest b beta best

/-- Body of `minimax` (src/index.js lines 266-310) with the explicit
`gas = maxDepth - depth` measure: terminal checks first (AI win scores
`1000 - depth`, opponent win `depth - 1000`, full board `0`), then the
depth cutoff `depth >= maxDepth` — equivalently `gas = 0` — returns
`evaluateBoard`, and otherwise the maximizing or minimizing loop runs with
the recursion at `gas - 1`. -/
def minimaxAux (cfg : Cfg) : Nat → Board → Nat → Bool → EInt → EInt → EInt × Board
  | gas, b, depth, isMax, alpha, beta =>
    let w := checkWinnerForMinimax cfg.N cfg.L b
    if w = some cfg.ai then (toE (1000 - (depth : Int)), b)
    else if w = some (oppOf cfg.ai) then (toE ((depth : Int) - 1000), b)
    else if isBoardFullForMinimax cfg.N b then (toE 0, b)
    else
      match gas with
      | 0 => (toE (evaluateBoard cfg b), b)
      | g + 1 =>
        if isMax then
          abMaxLoop cfg.ai beta
            (fun b1 a1 => minimaxAux cfg g b1 (depth + 1) false a1 beta)
            (allCells cfg.N) b alpha ⊥
        else
          abMinLoop (oppOf cfg.ai) alpha
            (fun b1 b2 => minimaxAux cfg g b1 (depth + 1) true alpha b2)
            (allCells cfg.N) b beta ⊤

/-- Function `minimax(board, depth, isMaximizing, alpha, beta, maxDepth)`
(src/index.js lines 266-310).  A recursive call occurs only when
`depth < maxDepth`, so `maxDepth - depth` is the measure; the wrapper
instantiates `gas` with it.  Returns the score and the board left behind
(always the input board: the retract step restores it, see
`minimax_board_eq`). -/
def minimax (cfg : Cfg) (b : Board) (depth : Nat) (isMax : Bool)
    (alpha beta : EInt) (maxDepth : Nat) : EInt × Board :=
  minimaxAux cfg (maxDepth - depth) b depth isMax alpha beta

/-- Depth ceiling chosen by `findBestMove` per board size
(src/index.js lines 238-242). -/
def maxDepthFor (N : Nat) : Nat :=
  if N ≤ 3 then 9 else if N = 4 then 6 else if N = 5 then 4 else 3

/-- The candidate loop of `findBestMove` (src/index.js lines 244-260):
for each empty cell, place the AI mark, run `minimax` from depth 0 as the
minimizing player with the full window, retract, and keep the first cell
whose score strictly beats the best so far. -/
def fbLoop (cfg : Cfg) (maxDepth : Nat) :
    List (Nat × Nat) → Board → EInt → Option (Nat × Nat) →
      Option (Nat × Nat) × Board
  | [], b, _, bestMove => (bestMove, b)
  | (i, j) :: rest, b, bestScore, bestMove =>
    if cellAt b i j = Mark.empty then
      let p := minimax cfg (setCell b i j cfg.ai) 0 false ⊥ ⊤ maxDepth
      let b2 := setCell p.2 i j Mark.empty
      if bestScore < p.1 then fbLoop cfg maxDepth rest b2 p.1 (some (i, j))
      else fbLoop cfg maxDepth rest b2 bestScore bestMove
    else fbLoop cfg maxDepth rest b bestScore bestMove

/-- Function `findBestMove` (src/index.js lines 233-263): scans all cells
row-major with `bestScore = -Infinity` and no move selected, and returns
the selected move together with the board left behind. -/
def findBestMove (cfg : Cfg) (b : Board) : Option (Nat × Nat) × Board :=
  fbLoop cfg (maxDepthFor cfg.N) (allCells cfg.N) b ⊥ none

/-- The scan loop of `findWinningMove` (src/index.js lines 456-470):
for each empty cell, place `player`, ask `checkWinnerForMinimax`, retract,
and return the cell if it completed a win. -/
def fwLoop (cfg : Cfg) (player : Mark) :
    List (Nat × Nat) → Board → Option (Nat × Nat) × Board
  | [], b => (none, b)
  | (i, j) :: rest, b =>
    if cellAt b i j = Mark.empty then
      let b1 := setCell b i j player
      let w := checkWinnerForMinimax cfg.N cfg.L b1
      let b2 := setCell b1 i j Mark.empty
      if w = some player then (some (i, j), b2)
      else fwLoop cfg player rest b2
    else fwLoop cfg player rest b

/-- Function `findWinningMove(player)` (src/index.js lines 455-472). -/
def findWinningMove (cfg : Cfg) (player : Mark) (b : Board) :
    Option (Nat × Nat) × Board :=
  fwLoop cfg player (allCells cfg.N) b

/-- Corner cells in the order tried by `findStrategicMove`
(src/index.js lines 486-491): top-left, top-right, bottom-left,
bottom-right. -/
def corners (N : Nat) : List (Nat × Nat) :=
  [(0, 0), (0, N - 1), (N - 1, 0), (N - 1, N - 1)]

/-- Function `findStrategicMove` (src/index.js lines 475-503): the centre
cell `(⌊N/2⌋, ⌊N/2⌋)` if empty, else the first empty corner. -/
def findStrategicMove (N : Nat) (b : Board) : Option (Nat × Nat) :=
  if cellAt b (N / 2) (N / 2) = Mark.empty then some (N / 2, N / 2)
  else (corners N).find? (fun q => decide (cellAt b q.1 q.2 = Mark.empty))

/-- Row-major list of empty cells, as built by `makeRandomMove`
(src/index.js lines 506-524). -/
def emptyCellsList (N : Nat) (b : Board) : List (Nat × Nat) :=
  (allCells N).filter (fun q => decide (cellAt b q.1 q.2 = Mark.empty))

/-- The cell `makeRandomMove` picks: `emptyCells[randomIndex]` where
`randomIndex = Math.floor(Math.random() * emptyCells.length)`.  The random
draw is modelled by the parameter `randIdx`; the source's index is always
`< emptyCells.length`, and for such an index the access succeeds.  With no
empty cell the function does nothing (`none`). -/
def randomChoice (N : Nat) (b : Board) (randIdx : Nat) : Option (Nat × Nat) :=
  (emptyCellsList N b)[randIdx]?

/-- The cell selected by `makeHeuristicAIMove` (src/index.js lines
424-452): its four rules each end in `makeMove; checkGameEnd; return`, so
the function is the first-successful choice of: a winning cell for the AI,
a winning cell for the opponent (`currentPlayer === 'X' ? 'O' : 'X'`), the
strategic centre/corner cell, and the random fallback. -/
def heuristicChoice (cfg : Cfg) (b : Board) (currentPlayer : Mark)
    (randIdx : Nat) : Option (Nat × Nat) :=
  match (findWinningMove cfg cfg.ai b).1 with
  | some m => some m
  | none =>
    match (findWinningMove cfg (if currentPlayer = Mark.X then Mark.O else Mark.X) b).1 with
    | some m => some m
    | none =>
      match findStrategicMove cfg.N b with
      | some m => some m
      | none => randomChoice cfg.N b randIdx

/-- Function `makeHeuristicAIMove` as a state transformer: apply the
selected cell (if any) and run the winner / tie / switch tail; when even
the random fallback finds no cell, `checkGameEnd` still runs
(src/index.js lines 449-451). -/
def makeHeuristicAIMove (s : GState) (randIdx : Nat) : GState :=
  match heuristicChoice (cfgOf s) s.gameBoard s.currentPlayer randIdx with
  | some m => checkGameEnd (makeMove s m.1 m.2)
  | none => checkGameEnd s

/-- Function `makeAIMove` (src/index.js lines 204-230): nothing when the
game is over; the heuristic selector for `boardSize > 5`; otherwise the
`findBestMove` result is applied (when present) followed by the
winner / tie / switch tail, which the source writes out inline with the
same statements as `checkGameEnd`. -/
def makeAIMove (s : GState) (randIdx : Nat) : GState :=
  if s.gameActive = false then s
  else if 5 < s.boardSize then makeHeuristicAIMove s randIdx
  else
    match (findBestMove (cfgOf s) s.gameBoard).1 with
    | none => s
    | some m => checkGameEnd (makeMove s m.1 m.2)

/-! ### Pure-score forms of the search

The board-threading definitions above mirror the source's mutation; the
following pure forms return only the score.  `minimax_eq_pure` proves the
two agree and that the threaded board always comes back unchanged. -/

/-- Pure-score form of `abMaxLoop`. -/
def abMaxLoopP (ai : Mark) (beta : EInt) (child : Board → EInt → EInt) :
    List (Nat × Nat) → Board → EInt → EInt → EInt
  | [], _, _, best => best
  | (i, j) :: rest, b, alpha, best =>
    if cellAt b i j = Mark.empty then
      let s := child (setCell b i j ai) alpha
      let best1 := max s best
      let alpha1 := max alpha s
      if beta ≤ alpha1 then best1
      else abMaxLoopP ai beta child rest b alpha1 best1
    else abMaxLoopP ai beta child rest b alpha best

/-- Pure-score form of `abMinLoop`. -/
def abMinLoopP (opp : Mark) (alpha : EInt) (child : Board → EInt → EInt) :
    List (Nat × Nat) → Board → EInt → EInt → EInt
  | [], _, _, best => best
  | (i, j) :: rest, b, beta, best =>
    if cellAt b i j = Mark.empty then
      let s := child (setCell b i j opp) beta
      let best1 := min s best
      let beta1 := min beta s
      if beta1 ≤ alpha then best1
      else abMinLoopP opp alpha child rest b beta1 best1
    else abMinLoopP opp alpha child rest b beta best

/-- Pure-score form of `minimaxAux`. -/
def minimaxPAux (cfg : Cfg) : Nat → Board → Nat → Bool → EInt → EInt → EInt
  | gas, b, depth, isMax, alpha, beta =>
    let w := checkWinnerForMinimax cfg.N cfg.L b
    if w = some cfg.ai then toE (1000 - (depth : Int))
    else if w = some (oppOf cfg.ai) then toE ((depth : Int) - 1000)
    else if isBoardFullForMinimax cfg.N b then toE 0
    else
      match gas with
      | 0 => toE (evaluateBoard cfg b)
      | g + 1 =>
        if isMax then
          abMaxLoopP cfg.ai beta
            (fun b1 a1 => minimaxPAux cfg g b1 (depth + 1) false a1 beta)
            (allCells cfg.N) b alpha ⊥
        else
          abMinLoopP (oppOf cfg.ai) alpha
            (fun b1 b2 => minimaxPAux cfg g b1 (depth + 1) true alpha b2)
            (allCells cfg.N) b beta ⊤

/-- Pure-score form of `minimax`. -/
def minimaxP (cfg : Cfg) (b : Board) (depth : Nat) (isMax : Bool)
    (alpha beta : EInt) (maxDepth : Nat) : EInt :=
  minimaxPAux cfg (maxDepth - depth) b depth isMax alpha beta

/-- Modelled from the spec (claim C4's comparison point): the maximizing
layer of the same depth-limited minimax with the alpha-beta pruning
removed — a plain maximum over the children. -/
def npMaxLoop (ai : Mark) (child : Board → EInt) :
    List (Nat × Nat) → Board → EInt → EInt
  | [], _, best => best
  | (i, j) :: rest, b, best =>
    if cellAt b i j = Mark.empty then
      npMaxLoop ai child rest b (max (child (setCell b i j ai)) best)
    else npMaxLoop ai child rest b best

/-- Modelled from the spec: the minimizing layer without pruning. -/
def npMinLoop (opp : Mark) (child : Board → EInt) :
    List (Nat × Nat) → Board → EInt → EInt
  | [], _, best => best
  | (i, j) :: rest, b, best =>
    if cellAt b i j = Mark.empty then
      npMinLoop opp child rest b (min (child (setCell b i j opp)) best)
    else npMinLoop opp child rest b best

/-- Modelled from the spec: `minimax` with the pruning removed — same
terminal scores, same depth cutoff, but every child is evaluated. -/
def minimaxNPAux (cfg : Cfg) : Nat → Board → Nat → Bool → EInt
  | gas, b, depth, isMax =>
    let w := checkWinnerForMinimax cfg.N cfg.L b
    if w = some cfg.ai then toE (1000 - (depth : Int))
    else if w = some (oppOf cfg.ai) then toE ((depth : Int) - 1000)
    else if isBoardFullForMinimax cfg.N b then toE 0
    else
      match gas with
      | 0 => toE (evaluateBoard cfg b)
      | g + 1 =>
        if isMax then
          npMaxLoop cfg.ai
            (fun b1 => minimaxNPAux cfg g b1 (depth + 1) false)
            (allCells cfg.N) b ⊥
        else
          npMinLoop (oppOf cfg.ai)
            (fun b1 => minimaxNPAux cfg g b1 (depth + 1) true)
            (allCells cfg.N) b ⊤

/-- Modelled from the spec: depth-limited minimax without pruning. -/
def minimaxNoPrune (cfg : Cfg) (b : Board) (depth : Nat) (isMax : Bool)
    (maxDepth : Nat) : EInt :=
  minimaxNPAux cfg (maxDepth - depth) b depth isMax

/-- Pure-score form of `fbLoop`. -/
def fbLoopP (cfg : Cfg) (maxDepth : Nat) :
    List (Nat × Nat) → Board → EInt → Option (Nat × Nat) →
      Option (Nat × Nat)
  | [], _, _, bestMove => bestMove
  | (i, j) :: rest, b, bestScore, bestMove =>
    if cellAt b i j = Mark.empty then
      let s := minimaxP cfg (setCell b i j cfg.ai) 0 false ⊥ ⊤ maxDepth
      if bestScore < s then fbLoopP cfg maxDepth rest b s (some (i, j))
      else fbLoopP cfg maxDepth rest b bestScore bestMove
    else fbLoopP cfg maxDepth rest b bestScore bestMove

/-- Modelled from the spec: the root selection loop with the unpruned
scores — first cell whose score strictly beats the best so far. -/
def fbLoopNP (cfg : Cfg) (maxDepth : Nat) :
    List (Nat × Nat) → Board → EInt → Option (Nat × Nat) →
      Option (Nat × Nat)
  | [], _, _, bestMove => bestMove
  | (i, j) :: rest, b, bestScore, bestMove =>
    if cellAt b i j = Mark.empty then
      let s := minimaxNoPrune cfg (setCell b i j cfg.ai) 0 false maxDepth
      if bestScore < s then fbLoopNP cfg maxDepth rest b s (some (i, j))
      else fbLoopNP cfg maxDepth rest b bestScore bestMove
    else fbLoopNP cfg maxDepth rest b bestScore bestMove

/-- Modelled from the spec: `findBestMove` driven by minimax without
pruning. -/
def findBestMoveNoPrune (cfg : Cfg) (b : Board) : Option (Nat × Nat) :=
  fbLoopNP cfg (maxDepthFor cfg.N) (allCells cfg.N) b ⊥ none

/-- Whether a click is accepted by `handleCellClick`'s guard (the game is
active and the clicked cell reads as `''`). -/
def moveAccepted (s : GState) (r c : Nat) : Bool :=
  s.gameActive && decide ((s.gameBoard[r]?.bind (fun row => row[c]?)) = some Mark.empty)

/-- One full interaction step: the synchronous `handleCellClick` (a thrown
TypeError leaves the state as it was), followed by the computer reply that
`handleCellClick` schedules with `setTimeout(makeAIMove, 500)` when the
accepted move fell through to the dispatch point (src/index.js lines
79-81).  The spec's §5 states the 500 ms pacing delay is not part of the
computational contract, so the reply is composed directly. -/
def clickStep (s : GState) (r c : Nat) (randIdx : Nat) : GState :=
  match handleCellClick s r c with
  | Except.error _ => s
  | Except.ok s1 =>
    if moveAccepted s r c then
      if s1.gameMode = GMode.ai ∧ s1.currentPlayer = s1.aiPlayer ∧
          s1.gameActive = true then
        makeAIMove s1 randIdx
      else s1
    else s1

/-- A play sequence from the human side: each list entry is one attempted
click (the computer reply, when due, is part of the step).  Clicks after
the game ends, on occupied cells, or out of range change nothing, exactly
as in the source. -/
def playout (s : GState) : List (Nat × Nat) → GState
  | [] => s
  | m :: ms => playout (clickStep s m.1 m.2 0) ms

/-! ## Specification-side notions

These definitions formalise wording of the specification (a run of marks,
well-formedness) rather than source code; the theorems relate them to the
embedded source functions. -/

/-- The four scan directions of the specification: right, down, down-right,
down-left. -/
def dirs : List (Int × Int) := [(0, 1), (1, 0), (1, 1), (1, -1)]

/-- Spec §4.2 / §8: the board contains a fully populated run of `L`
identical marks `m` in one of the four directions: some in-bounds origin
from which `L` consecutive cells along the direction are all in bounds and
all hold `m`, with `m` non-empty.  (A populated run requires `L ≥ 1`; for
`L = 0` no run exists.) -/
def RunExists (N L : Nat) (b : Board) (m : Mark) : Prop :=
  m ≠ Mark.empty ∧ 1 ≤ L ∧ ∃ d ∈ dirs, ∃ r < N, ∃ c < N,
    ∀ k < L, 0 ≤ (r : Int) + d.1 * (k : Int) ∧
      (r : Int) + d.1 * (k : Int) < (N : Int) ∧
      0 ≤ (c : Int) + d.2 * (k : Int) ∧
      (c : Int) + d.2 * (k : Int) < (N : Int) ∧
      cellAt b ((r : Int) + d.1 * (k : Int)).toNat
        ((c : Int) + d.2 * (k : Int)).toNat = m

instance (N L : Nat) (b : Board) (m : Mark) : Decidable (RunExists N L b m) := by
  unfold RunExists
  infer_instance

/-- The marks in the `L`-cell window starting at origin `q` (spec §4.3:
"for every possible run-length window"). -/
def windowMarks (L : Nat) (b : Board) (q : Nat × Nat × Int × Int) :
    List Mark :=
  (List.range L).map (fun (k : Nat) =>
    cellAt b ((q.1 : Int) + q.2.2.1 * (k : Int)).toNat
      ((q.2.1 : Int) + q.2.2.2 * (k : Int)).toNat)

/-- Spec §4.3, the window score in the spec's words: count the marks of
each side in the window; a window mixing both sides scores 0, a window
with only the computing player's marks scores `10 ^ count`, a window with
only the opponent's marks `-(10 ^ count)`, anything else (only empty
cells) 0. -/
def specWindowScore (cfg : Cfg) (w : List Mark) : Int :=
  let a := w.count cfg.ai
  let o := w.count (oppOf cfg.ai)
  if 0 < a ∧ o = 0 then (10 : Int) ^ a
  else if 0 < o ∧ a = 0 then -((10 : Int) ^ o)
  else 0

/-- Spec §4.3, the evaluator in the spec's words: the sum of the window
scores over all windows, enumerated with the same origins as win
detection. -/
def specEvaluate (cfg : Cfg) (b : Board) : Int :=
  ((candidates cfg.N cfg.L).map (fun q =>
    specWindowScore cfg (windowMarks cfg.L b q))).sum

/-! ### Access-instrumented win detection

The main embedding is faithful for `winLength ≥ 1`, where every scan
origin is in bounds.  To settle the safety claim for arbitrary win
lengths the following variant models the source's loops over exact
JS `for`-ranges (Int bounds, so `boardSize - winLength` may be negative)
and instruments every unguarded array access: reading `board[r][c]` with
`r` out of range throws a TypeError in JS (`Fault.rowOOB`, since
`undefined[c]` throws), and reading an out-of-range column of a valid row
yields `undefined` (`Fault.colOOB`); the instrumented variant stops at
the first out-of-bounds access of either kind.  The bounds-checked reads
of the inner `checkSequence` loop (guarded by the source before the
access) stay uninstrumented — they can never be out of bounds. -/

/-- The two kinds of out-of-bounds array access. -/
inductive Fault where
  | rowOOB : Fault
  | colOOB : Fault
deriving DecidableEq

/-- The iteration values of `for (x = lo; x <= hi; x++)`. -/
def intRange (lo hi : Int) : List Int :=
  (List.range (hi + 1 - lo).toNat).map (fun (k : Nat) => lo + (k : Int))

/-- An unguarded read of `board[r][c]`. -/
def readCellChecked (b : Board) (r c : Int) : Except Fault Mark :=
  if r < 0 then Except.error Fault.rowOOB
  else
    match b[r.toNat]? with
    | none => Except.error Fault.rowOOB
    | some row =>
      if c < 0 then Except.error Fault.colOOB
      else
        match row[c.toNat]? with
        | none => Except.error Fault.colOOB
        | some m => Except.ok m

/-- `checkSequence` with the origin read instrumented; the inner loop's
reads happen only after the source's own bounds check. -/
def checkSequenceChecked (N L : Nat) (b : Board) (r c dr dc : Int) :
    Except Fault (Option (Mark × List (Int × Int))) := do
  let first ← readCellChecked b r c
  if first = Mark.empty then pure none
  else if (List.range (L - 1)).all (fun k0 =>
      let rr : Int := r + dr * ((k0 : Int) + 1)
      let cc : Int := c + dc * ((k0 : Int) + 1)
      decide (0 ≤ rr) && decide (rr < (N : Int)) && decide (0 ≤ cc) &&
        decide (cc < (N : Int)) && decide (cellAt b rr.toNat cc.toNat = first))
  then pure (some (first, (List.range L).map (fun (k : Nat) =>
    (r + dr * (k : Int), c + dc * (k : Int)))))
  else pure none

/-- The scan origins with JS `for`-loop bounds, valid for every
`winLength` including 0 and values above `boardSize`. -/
def candidatesChecked (N L : Nat) : List (Int × Int × Int × Int) :=
  (intRange 0 ((N : Int) - 1)).flatMap (fun i =>
    (intRange 0 ((N : Int) - (L : Int))).map (fun j => (i, j, (0 : Int), (1 : Int)))) ++
  (intRange 0 ((N : Int) - (L : Int))).flatMap (fun i =>
    (intRange 0 ((N : Int) - 1)).map (fun j => (i, j, (1 : Int), (0 : Int)))) ++
  (intRange 0 ((N : Int) - (L : Int))).flatMap (fun i =>
    (intRange 0 ((N : Int) - (L : Int))).map (fun j => (i, j, (1 : Int), (1 : Int)))) ++
  (intRange 0 ((N : Int) - (L : Int))).flatMap (fun i =>
    (intRange ((L : Int) - 1) ((N : Int) - 1)).map (fun j => (i, j, (1 : Int), (-1 : Int))))

/-- The sequential scan with early return, stopping at the first fault
or the first win. -/
def scanChecked (N L : Nat) (b : Board) :
    List (Int × Int × Int × Int) →
      Except Fault (Option (Mark × List (Int × Int)))
  | [] => Except.ok none
  | q :: rest => do
    let res ← checkSequenceChecked N L b q.1 q.2.1 q.2.2.1 q.2.2.2
    match res with
    | some w => pure (some w)
    | none => scanChecked N L b rest

/-- `checkWinner` over exact JS loop ranges with instrumented reads. -/
def checkWinnerChecked (N L : Nat) (b : Board) : Except Fault (Option Mark) :=
  (scanChecked N L b (candidatesChecked N L)).map (Option.map Prod.fst)

/-- `checkWinnerForMinimax` over exact JS loop ranges with instrumented
reads (it performs the same reads in the same order as
`checkWinnerChecked`). -/
def checkWinnerForMinimaxChecked (N L : Nat) (b : Board) :
    Except Fault (Option Mark) :=
  (scanChecked N L b (candidatesChecked N L)).map (Option.map Prod.fst)

/-! ## Concrete witness data -/

/-- A 3×3 board whose first row is a completed O run and whose second row
is a completed X run (not reachable in play, but `checkWinner` is a plain
function of the board). -/
def boardTwoRuns : Board :=
  [[Mark.O, Mark.O, Mark.O], [Mark.X, Mark.X, Mark.X],
   [Mark.empty, Mark.empty, Mark.empty]]

/-- A 3×3 board with an X run in the top row. -/
def boardTopRun : Board :=
  [[Mark.X, Mark.X, Mark.X], [Mark.empty, Mark.O, Mark.empty],
   [Mark.empty, Mark.empty, Mark.O]]

/-- A 3×3 board with an X run in the bottom row. -/
def boardBottomRun : Board :=
  [[Mark.empty, Mark.O, Mark.empty], [Mark.empty, Mark.O, Mark.empty],
   [Mark.X, Mark.X, Mark.X]]

/-- A sparse 3×3 board with no run of length 3. -/
def boardNoRun : Board :=
  [[Mark.X, Mark.empty, Mark.empty], [Mark.empty, Mark.O, Mark.empty],
   [Mark.empty, Mark.empty, Mark.empty]]

/-- A session in which X has already taken the corner cell (0,0). -/
def stateCorner : GState := makeMove (initGame 3 GMode.human) 0 0

/-- Number of empty cells on the board. -/
def emptiesCount (N : Nat) (b : Board) : Nat := (emptyCellsList N b).length

/-- Modelled from the spec (§8, the never-loses property): the depth-free
game value of a position for the computing player under perfect play —
`1` a forced computing-player win, `0` a forced draw (or better for
neither side), `-1` a forced opponent win.  Terminal tests are the
engine's own `checkWinnerForMinimax` / `isBoardFullForMinimax`; `isMax`
is true when the computing player moves.  `gas` bounds the recursion and
is irrelevant once it reaches the number of empty cells. -/
def WvAux (cfg : Cfg) : Nat → Board → Bool → EInt
  | gas, b, isMax =>
    let w := checkWinnerForMinimax cfg.N cfg.L b
    if w = some cfg.ai then toE 1
    else if w = some (oppOf cfg.ai) then toE (-1)
    else if isBoardFullForMinimax cfg.N b then toE 0
    else
      match gas with
      | 0 => toE 0
      | g + 1 =>
        if isMax then
          npMaxLoop cfg.ai (fun b1 => WvAux cfg g b1 false)
            (allCells cfg.N) b ⊥
        else
          npMinLoop (oppOf cfg.ai) (fun b1 => WvAux cfg g b1 true)
            (allCells cfg.N) b ⊤

/-- The configuration of a 3×3 session against the computer. -/
def cfg3 : Cfg := ⟨3, 3, Mark.O⟩

/-- The eight winning lines of a 3×3 board. -/
def lines3 : List (List (Nat × Nat)) :=
  [[(0, 0), (0, 1), (0, 2)], [(1, 0), (1, 1), (1, 2)],
   [(2, 0), (2, 1), (2, 2)], [(0, 0), (1, 0), (2, 0)],
   [(0, 1), (1, 1), (2, 1)], [(0, 2), (1, 2), (2, 2)],
   [(0, 0), (1, 1), (2, 2)], [(0, 2), (1, 1), (2, 0)]]

/-- Fast 3×3 line test used by the certificate checker; equivalent to
`RunExists 3 3` for non-empty marks (`hasLine3_iff_run`). -/
def hasLine3 (b : Board) (m : Mark) : Bool :=
  lines3.any (fun l => l.all (fun q => decide (cellAt b q.1 q.2 = m)))

/-- A drawing-strategy certificate for the second player on the 3×3
board: at an X-to-move position, for each legal X move it records O's
reply together with the certificate for the resulting position. -/
inductive STree where
  | node : List ((Nat × Nat) × (Nat × Nat) × STree) → STree

/-- Certificate checker: `stratOk fuel t b = true` certifies that from
the X-to-move position `b` (no winner yet), whatever X plays, following
the recorded O replies never lets X complete a line (`stratOk_sound`
turns this into a bound on the game value `WvAux`). -/
def stratOk : Nat → STree → Board → Bool
  | 0, _, _ => false
  | fuel + 1, STree.node children, b =>
    (allCells 3).all (fun xm =>
      if cellAt b xm.1 xm.2 = Mark.empty then
        let b1 := setCell b xm.1 xm.2 Mark.X
        if hasLine3 b1 Mark.X || hasLine3 b1 Mark.O then false
        else if isBoardFull 3 b1 then true
        else
          match children.find? (fun e => decide (e.1 = xm)) with
          | none => false
          | some e =>
            if e.2.1.1 < 3 ∧ e.2.1.2 < 3 ∧
                cellAt b1 e.2.1.1 e.2.1.2 = Mark.empty then
              let b2 := setCell b1 e.2.1.1 e.2.1.2 Mark.O
              if hasLine3 b2 Mark.X then false
              else if hasLine3 b2 Mark.O then true
              else if isBoardFull 3 b2 then true
              else stratOk fuel e.2.2 b2
            else false
      else true)

/-- Certificate data for the second player on the 3×3 board: O's replies,
computed by `findBestMove` itself, for every reachable X-to-move position
(checked by `stratOk`, exploited by `stratOk_sound`). -/
def stratOkData : STree := STree.node [((0, 0), (1, 1), STree.node [((0, 1), (0, 2), STree.node [((1, 0), (2, 0), STree.node []), ((1, 2), (2, 0), STree.node []), ((2, 0), (1, 0), STree.node [((1, 2), (2, 1), STree.node []), ((2, 1), (1, 2), STree.node []), ((2, 2), (1, 2), STree.node [])]), ((2, 1), (2, 0), STree.node []), ((2, 2), (2, 0), STree.node [])]), ((0, 2), (0, 1), STree.node [((1, 0), (2, 1), STree.node []), ((1, 2), (2, 1), STree.node []), ((2, 0), (2, 1), STree.node []), ((2, 1), (1, 0), STree.node [((1, 2), (2, 2), STree.node []), ((2, 0), (1, 2), STree.node []), ((2, 2), (1, 2), STree.node [])]), ((2, 2), (2, 1), STree.node [])]), ((1, 0), (2, 0), STree.node [((0, 1), (0, 2), STree.node []), ((0, 2), (0, 1), STree.node [((1, 2), (2, 1), STree.node []), ((2, 1), (1, 2), STree.node []), ((2, 2), (2, 1), STree.node [])]), ((1, 2), (0, 2), STree.node []), ((2, 1), (0, 2), STree.node []), ((2, 2), (0, 2), STree.node [])]), ((1, 2), (0, 1), STree.node [((0, 2), (2, 1), STree.node []), ((1, 0), (2, 1), STree.node []), ((2, 0), (2, 1), STree.node []), ((2, 1), (2, 0), STree.node [((0, 2), (2, 2), STree.node []), ((1, 0), (0, 2), STree.node []), ((2, 2), (0, 2), STree.node [])]), ((2, 2), (2, 1), STree.node [])]), ((2, 0), (1, 0), STree.node [((0, 1), (1, 2), STree.node []), ((0, 2), (1, 2), STree.node []), ((1, 2), (0, 1), STree.node [((0, 2), (2, 1), STree.node []), ((2, 1), (2, 2), STree.node []), ((2, 2), (2, 1), STree.node [])]), ((2, 1), (1, 2), STree.node []), ((2, 2), (1, 2), STree.node [])]), ((2, 1), (1, 0), STree.node [((0, 1), (1, 2), STree.node []), ((0, 2), (1, 2), STree.node []), ((1, 2), (0, 2), STree.node [((0, 1), (2, 0), STree.node []), ((2, 0), (2, 2), STree.node []), ((2, 2), (2, 0), STree.node [])]), ((2, 0), (1, 2), STree.node []), ((2, 2), (1, 2), STree.node [])]), ((2, 2), (0, 1), STree.node [((0, 2), (2, 1), STree.node []), ((1, 0), (2, 1), STree.node []), ((1, 2), (2, 1), STree.node []), ((2, 0), (2, 1), STree.node []), ((2, 1), (2, 0), STree.node [((0, 2), (1, 2), STree.node []), ((1, 0), (0, 2), STree.node []), ((1, 2), (0, 2), STree.node [])])])]), ((0, 1), (0, 0), STree.node [((0, 2), (1, 0), STree.node [((1, 1), (2, 0), STree.node []), ((1, 2), (2, 0), STree.node []), ((2, 0), (1, 1), STree.node [((1, 2), (2, 2), STree.node []), ((2, 1), (1, 2), STree.node []), ((2, 2), (1, 2), STree.node [])]), ((2, 1), (2, 0), STree.node []), ((2, 2), (2, 0), STree.node [])]), ((1, 0), (1, 1), STree.node [((0, 2), (2, 2), STree.node []), ((1, 2), (2, 2), STree.node []), ((2, 0), (2, 2), STree.node []), ((2, 1), (2, 2), STree.node []), ((2, 2), (0, 2), STree.node [((1, 2), (2, 0), STree.node []), ((2, 0), (2, 1), STree.node []), ((2, 1), (2, 0), STree.node [])])]), ((1, 1), (2, 1), STree.node [((0, 2), (2, 0), STree.node [((1, 0), (2, 2), STree.node []), ((1, 2), (1, 0), STree.node []), ((2, 2), (1, 0), STree.node [])]), ((1, 0), (1, 2), STree.node [((0, 2), (2, 0), STree.node []), ((2, 0), (0, 2), STree.node []), ((2, 2), (0, 2), STree.node [])]), ((1, 2), (1, 0), STree.node [((0, 2), (2, 0), STree.node []), ((2, 0), (0, 2), STree.node []), ((2, 2), (2, 0), STree.node [])]), ((2, 0), (0, 2), STree.node [((1, 0), (1, 2), STree.node []), ((1, 2), (1, 0), STree.node []), ((2, 2), (1, 0), STree.node [])]), ((2, 2), (0, 2), STree.node [((1, 0), (1, 2), STree.node []), ((1, 2), (1, 0), STree.node []), ((2, 0), (1, 0), STree.node [])])]), ((1, 2), (2, 0), STree.node [((0, 2), (1, 0), STree.node []), ((1, 0), (1, 1), STree.node [((0, 2), (2, 2), STree.node []), ((2, 1), (0, 2), STree.node []), ((2, 2), (0, 2), STree.node [])]), ((1, 1), (1, 0), STree.node []), ((2, 1), (1, 0), STree.node []), ((2, 2), (1, 0), STree.node [])]), ((2, 0), (1, 1), STree.node [((0, 2), (2, 2), STree.node []), ((1, 0), (2, 2), STree.node []), ((1, 2), (2, 2), STree.node []), ((2, 1), (2, 2), STree.node []), ((2, 2), (2, 1), STree.node [((0, 2), (1, 2), STree.node []), ((1, 0), (0, 2), STree.node []), ((1, 2), (0, 2), STree.node [])])]), ((2, 1), (1, 1), STree.node [((0, 2), (2, 2), STree.node []), ((1, 0), (2, 2), STree.node []), ((1, 2), (2, 2), STree.node []), ((2, 0), (2, 2), STree.node []), ((2, 2), (2, 0), STree.node [((0, 2), (1, 0), STree.node []), ((1, 0), (0, 2), STree.node []), ((1, 2), (0, 2), STree.node [])])]), ((2, 2), (1, 1), STree.node [((0, 2), (1, 2), STree.node [((1, 0), (2, 0), STree.node []), ((2, 0), (1, 0), STree.node []), ((2, 1), (1, 0), STree.node [])]), ((1, 0), (0, 2), STree.node [((1, 2), (2, 0), STree.node []), ((2, 0), (2, 1), STree.node []), ((2, 1), (2, 0), STree.node [])]), ((1, 2), (0, 2), STree.node [((1, 0), (2, 0), STree.node []), ((2, 0), (2, 1), STree.node []), ((2, 1), (2, 0), STree.node [])]), ((2, 0), (2, 1), STree.node [((0, 2), (1, 2), STree.node []), ((1, 0), (0, 2), STree.node []), ((1, 2), (0, 2), STree.node [])]), ((2, 1), (2, 0), STree.node [((0, 2), (1, 0), STree.node []), ((1, 0), (0, 2), STree.node []), ((1, 2), (0, 2), STree.node [])])])]), ((0, 2), (1, 1), STree.node [((0, 0), (0, 1), STree.node [((1, 0), (2, 1), STree.node []), ((1, 2), (2, 1), STree.node []), ((2, 0), (2, 1), STree.node []), ((2, 1), (1, 0), STree.node [((1, 2), (2, 2), STree.node []), ((2, 0), (1, 2), STree.node []), ((2, 2), (1, 2), STree.node [])]), ((2, 2), (2, 1), STree.node [])]), ((0, 1), (0, 0), STree.node [((1, 0), (2, 2), STree.node []), ((1, 2), (2, 2), STree.node []), ((2, 0), (2, 2), STree.node []), ((2, 1), (2, 2), STree.node []), ((2, 2), (1, 2), STree.node [((1, 0), (2, 0), STree.node []), ((2, 0), (1, 0), STree.node []), ((2, 1), (1, 0), STree.node [])])]), ((1, 0), (0, 0), STree.node [((0, 1), (2, 2), STree.node []), ((1, 2), (2, 2), STree.node []), ((2, 0), (2, 2), STree.node []), ((2, 1), (2, 2), STree.node []), ((2, 2), (1, 2), STree.node [((0, 1), (2, 0), STree.node []), ((2, 0), (2, 1), STree.node []), ((2, 1), (2, 0), STree.node [])])]), ((1, 2), (2, 2), STree.node [((0, 0), (0, 1), STree.node [((1, 0), (2, 1), STree.node []), ((2, 0), (2, 1), STree.node []), ((2, 1), (1, 0), STree.node [])]), ((0, 1), (0, 0), STree.node []), ((1, 0), (0, 0), STree.node []), ((2, 0), (0, 0), STree.node []), ((2, 1), (0, 0), STree.node [])]), ((2, 0), (0, 1), STree.node [((0, 0), (2, 1), STree.node []), ((1, 0), (2, 1), STree.node []), ((1, 2), (2, 1), STree.node []), ((2, 1), (2, 2), STree.node [((0, 0), (1, 0), STree.node []), ((1, 0), (0, 0), STree.node []), ((1, 2), (0, 0), STree.node [])]), ((2, 2), (2, 1), STree.node [])]), ((2, 1), (1, 0), STree.node [((0, 0), (1, 2), STree.node []), ((0, 1), (1, 2), STree.node []), ((1, 2), (2, 2), STree.node [((0, 0), (0, 1), STree.node []), ((0, 1), (0, 0), STree.node []), ((2, 0), (0, 0), STree.node [])]), ((2, 0), (1, 2), STree.node []), ((2, 2), (1, 2), STree.node [])]), ((2, 2), (1, 2), STree.node [((0, 0), (1, 0), STree.node []), ((0, 1), (1, 0), STree.node []), ((1, 0), (0, 0), STree.node [((0, 1), (2, 0), STree.node []), ((2, 0), (2, 1), STree.node []), ((2, 1), (2, 0), STree.node [])]), ((2, 0), (1, 0), STree.node []), ((2, 1), (1, 0), STree.node [])])]), ((1, 0), (0, 0), STree.node [((0, 1), (1, 1), STree.node [((0, 2), (2, 2), STree.node []), ((1, 2), (2, 2), STree.node []), ((2, 0), (2, 2), STree.node []), ((2, 1), (2, 2), STree.node []), ((2, 2), (0, 2), STree.node [((1, 2), (2, 0), STree.node []), ((2, 0), (2, 1), STree.node []), ((2, 1), (2, 0), STree.node [])])]), ((0, 2), (1, 1), STree.node [((0, 1), (2, 2), STree.node []), ((1, 2), (2, 2), STree.node []), ((2, 0), (2, 2), STree.node []), ((2, 1), (2, 2), STree.node []), ((2, 2), (1, 2), STree.node [((0, 1), (2, 0), STree.node []), ((2, 0), (2, 1), STree.node []), ((2, 1), (2, 0), STree.node [])])]), ((1, 1), (1, 2), STree.node [((0, 1), (2, 1), STree.node [((0, 2), (2, 0), STree.node []), ((2, 0), (0, 2), STree.node []), ((2, 2), (0, 2), STree.node [])]), ((0, 2), (2, 0), STree.node [((0, 1), (2, 1), STree.node []), ((2, 1), (0, 1), STree.node []), ((2, 2), (0, 1), STree.node [])]), ((2, 0), (0, 2), STree.node [((0, 1), (2, 2), STree.node []), ((2, 1), (0, 1), STree.node []), ((2, 2), (0, 1), STree.node [])]), ((2, 1), (0, 1), STree.node [((0, 2), (2, 0), STree.node []), ((2, 0), (0, 2), STree.node []), ((2, 2), (0, 2), STree.node [])]), ((2, 2), (0, 1), STree.node [((0, 2), (2, 0), STree.node []), ((2, 0), (0, 2), STree.node []), ((2, 1), (0, 2), STree.node [])])]), ((1, 2), (1, 1), STree.node [((0, 1), (2, 2), STree.node []), ((0, 2), (2, 2), STree.node []), ((2, 0), (2, 2), STree.node []), ((2, 1), (2, 2), STree.node []), ((2, 2), (0, 2), STree.node [((0, 1), (2, 0), STree.node []), ((2, 0), (0, 1), STree.node []), ((2, 1), (0, 1), STree.node [])])]), ((2, 0), (0, 1), STree.node [((0, 2), (1, 1), STree.node [((1, 2), (2, 1), STree.node []), ((2, 1), (2, 2), STree.node []), ((2, 2), (2, 1), STree.node [])]), ((1, 1), (0, 2), STree.node []), ((1, 2), (0, 2), STree.node []), ((2, 1), (0, 2), STree.node []), ((2, 2), (0, 2), STree.node [])]), ((2, 1), (0, 2), STree.node [((0, 1), (1, 1), STree.node [((1, 2), (2, 0), STree.node []), ((2, 0), (2, 2), STree.node []), ((2, 2), (2, 0), STree.node [])]), ((1, 1), (0, 1), STree.node []), ((1, 2), (0, 1), STree.node []), ((2, 0), (0, 1), STree.node []), ((2, 2), (0, 1), STree.node [])]), ((2, 2), (0, 2), STree.node [((0, 1), (1, 1), STree.node [((1, 2), (2, 0), STree.node []), ((2, 0), (2, 1), STree.node []), ((2, 1), (2, 0), STree.node [])]), ((1, 1), (0, 1), STree.node []), ((1, 2), (0, 1), STree.node []), ((2, 0), (0, 1), STree.node []), ((2, 1), (0, 1), STree.node [])])]), ((1, 1), (0, 0), STree.node [((0, 1), (2, 1), STree.node [((0, 2), (2, 0), STree.node [((1, 0), (2, 2), STree.node []), ((1, 2), (1, 0), STree.node []), ((2, 2), (1, 0), STree.node [])]), ((1, 0), (1, 2), STree.node [((0, 2), (2, 0), STree.node []), ((2, 0), (0, 2), STree.node []), ((2, 2), (0, 2), STree.node [])]), ((1, 2), (1, 0), STree.node [((0, 2), (2, 0), STree.node []), ((2, 0), (0, 2), STree.node []), ((2, 2), (2, 0), STree.node [])]), ((2, 0), (0, 2), STree.node [((1, 0), (1, 2), STree.node []), ((1, 2), (1, 0), STree.node []), ((2, 2), (1, 0), STree.node [])]), ((2, 2), (0, 2), STree.node [((1, 0), (1, 2), STree.node []), ((1, 2), (1, 0), STree.node []), ((2, 0), (1, 0), STree.node [])])]), ((0, 2), (2, 0), STree.node [((0, 1), (1, 0), STree.node []), ((1, 0), (1, 2), STree.node [((0, 1), (2, 1), STree.node []), ((2, 1), (0, 1), STree.node []), ((2, 2), (0, 1), STree.node [])]), ((1, 2), (1, 0), STree.node []), ((2, 1), (1, 0), STree.node []), ((2, 2), (1, 0), STree.node [])]), ((1, 0), (1, 2), STree.node [((0, 1), (2, 1), STree.node [((0, 2), (2, 0), STree.node []), ((2, 0), (0, 2), STree.node []), ((2, 2), (0, 2), STree.node [])]), ((0, 2), (2, 0), STree.node [((0, 1), (2, 1), STree.node []), ((2, 1), (0, 1), STree.node []), ((2, 2), (0, 1), STree.node [])]), ((2, 0), (0, 2), STree.node [((0, 1), (2, 2), STree.node []), ((2, 1), (0, 1), STree.node []), ((2, 2), (0, 1), STree.node [])]), ((2, 1), (0, 1), STree.node [((0, 2), (2, 0), STree.node []), ((2, 0), (0, 2), STree.node []), ((2, 2), (0, 2), STree.node [])]), ((2, 2), (0, 1), STree.node [((0, 2), (2, 0), STree.node []), ((2, 0), (0, 2), STree.node []), ((2, 1), (0, 2), STree.node [])])]), ((1, 2), (1, 0), STree.node [((0, 1), (2, 0), STree.node []), ((0, 2), (2, 0), STree.node []), ((2, 0), (0, 2), STree.node [((0, 1), (2, 1), STree.node []), ((2, 1), (0, 1), STree.node []), ((2, 2), (0, 1), STree.node [])]), ((2, 1), (2, 0), STree.node []), ((2, 2), (2, 0), STree.node [])]), ((2, 0), (0, 2), STree.node [((0, 1), (2, 1), STree.node [((1, 0), (1, 2), STree.node []), ((1, 2), (1, 0), STree.node []), ((2, 2), (1, 0), STree.node [])]), ((1, 0), (0, 1), STree.node []), ((1, 2), (0, 1), STree.node []), ((2, 1), (0, 1), STree.node []), ((2, 2), (0, 1), STree.node [])]), ((2, 1), (0, 1), STree.node [((0, 2), (2, 0), STree.node [((1, 0), (1, 2), STree.node []), ((1, 2), (1, 0), STree.node []), ((2, 2), (1, 0), STree.node [])]), ((1, 0), (0, 2), STree.node []), ((1, 2), (0, 2), STree.node []), ((2, 0), (0, 2), STree.node []), ((2, 2), (0, 2), STree.node [])]), ((2, 2), (0, 2), STree.node [((0, 1), (2, 1), STree.node [((1, 0), (1, 2), STree.node []), ((1, 2), (1, 0), STree.node []), ((2, 0), (1, 0), STree.node [])]), ((1, 0), (0, 1), STree.node []), ((1, 2), (0, 1), STree.node []), ((2, 0), (0, 1), STree.node []), ((2, 1), (0, 1), STree.node [])])]), ((1, 2), (0, 2), STree.node [((0, 0), (1, 0), STree.node [((0, 1), (1, 1), STree.node [((2, 0), (2, 1), STree.node []), ((2, 1), (2, 0), STree.node []), ((2, 2), (2, 0), STree.node [])]), ((1, 1), (2, 2), STree.node [((0, 1), (2, 1), STree.node []), ((2, 0), (0, 1), STree.node []), ((2, 1), (0, 1), STree.node [])]), ((2, 0), (1, 1), STree.node [((0, 1), (2, 1), STree.node []), ((2, 1), (2, 2), STree.node []), ((2, 2), (2, 1), STree.node [])]), ((2, 1), (1, 1), STree.node [((0, 1), (2, 0), STree.node []), ((2, 0), (2, 2), STree.node []), ((2, 2), (2, 0), STree.node [])]), ((2, 2), (1, 1), STree.node [((0, 1), (2, 0), STree.node []), ((2, 0), (2, 1), STree.node []), ((2, 1), (2, 0), STree.node [])])]), ((0, 1), (1, 0), STree.node [((0, 0), (1, 1), STree.node [((2, 0), (2, 1), STree.node []), ((2, 1), (2, 0), STree.node []), ((2, 2), (2, 0), STree.node [])]), ((1, 1), (2, 1), STree.node [((0, 0), (2, 2), STree.node []), ((2, 0), (0, 0), STree.node []), ((2, 2), (0, 0), STree.node [])]), ((2, 0), (1, 1), STree.node [((0, 0), (2, 1), STree.node []), ((2, 1), (2, 2), STree.node []), ((2, 2), (2, 1), STree.node [])]), ((2, 1), (1, 1), STree.node [((0, 0), (2, 0), STree.node []), ((2, 0), (2, 2), STree.node []), ((2, 2), (2, 0), STree.node [])]), ((2, 2), (2, 0), STree.node [((0, 0), (1, 1), STree.node []), ((1, 1), (0, 0), STree.node []), ((2, 1), (0, 0), STree.node [])])]), ((1, 0), (1, 1), STree.node [((0, 0), (2, 0), STree.node []), ((0, 1), (2, 0), STree.node []), ((2, 0), (0, 0), STree.node [((0, 1), (2, 2), STree.node []), ((2, 1), (0, 1), STree.node []), ((2, 2), (0, 1), STree.node [])]), ((2, 1), (2, 0), STree.node []), ((2, 2), (2, 0), STree.node [])]), ((1, 1), (1, 0), STree.node [((0, 0), (2, 2), STree.node [((0, 1), (2, 1), STree.node []), ((2, 0), (0, 1), STree.node []), ((2, 1), (0, 1), STree.node [])]), ((0, 1), (2, 1), STree.node [((0, 0), (2, 2), STree.node []), ((2, 0), (0, 0), STree.node []), ((2, 2), (0, 0), STree.node [])]), ((2, 0), (0, 0), STree.node [((0, 1), (2, 1), STree.node []), ((2, 1), (0, 1), STree.node []), ((2, 2), (0, 1), STree.node [])]), ((2, 1), (0, 1), STree.node [((0, 0), (2, 2), STree.node []), ((2, 0), (0, 0), STree.node []), ((2, 2), (0, 0), STree.node [])]), ((2, 2), (0, 0), STree.node [((0, 1), (2, 0), STree.node []), ((2, 0), (0, 1), STree.node []), ((2, 1), (0, 1), STree.node [])])]), ((2, 0), (0, 0), STree.node [((0, 1), (1, 1), STree.node [((1, 0), (2, 2), STree.node []), ((2, 1), (2, 2), STree.node []), ((2, 2), (2, 1), STree.node [])]), ((1, 0), (0, 1), STree.node []), ((1, 1), (0, 1), STree.node []), ((2, 1), (0, 1), STree.node []), ((2, 2), (0, 1), STree.node [])]), ((2, 1), (0, 0), STree.node [((0, 1), (1, 1), STree.node [((1, 0), (2, 0), STree.node []), ((2, 0), (2, 2), STree.node []), ((2, 2), (2, 0), STree.node [])]), ((1, 0), (0, 1), STree.node []), ((1, 1), (0, 1), STree.node []), ((2, 0), (0, 1), STree.node []), ((2, 2), (0, 1), STree.node [])]), ((2, 2), (0, 0), STree.node [((0, 1), (2, 0), STree.node [((1, 0), (1, 1), STree.node []), ((1, 1), (1, 0), STree.node []), ((2, 1), (1, 0), STree.node [])]), ((1, 0), (0, 1), STree.node []), ((1, 1), (0, 1), STree.node []), ((2, 0), (0, 1), STree.node []), ((2, 1), (0, 1), STree.node [])])]), ((2, 0), (1, 1), STree.node [((0, 0), (1, 0), STree.node [((0, 1), (1, 2), STree.node []), ((0, 2), (1, 2), STree.node []), ((1, 2), (0, 1), STree.node [((0, 2), (2, 1), STree.node []), ((2, 1), (2, 2), STree.node []), ((2, 2), (2, 1), STree.node [])]), ((2, 1), (1, 2), STree.node []), ((2, 2), (1, 2), STree.node [])]), ((0, 1), (0, 0), STree.node [((0, 2), (2, 2), STree.node []), ((1, 0), (2, 2), STree.node []), ((1, 2), (2, 2), STree.node []), ((2, 1), (2, 2), STree.node []), ((2, 2), (2, 1), STree.node [((0, 2), (1, 2), STree.node []), ((1, 0), (0, 2), STree.node []), ((1, 2), (0, 2), STree.node [])])]), ((0, 2), (0, 1), STree.node [((0, 0), (2, 1), STree.node []), ((1, 0), (2, 1), STree.node []), ((1, 2), (2, 1), STree.node []), ((2, 1), (2, 2), STree.node [((0, 0), (1, 0), STree.node []), ((1, 0), (0, 0), STree.node []), ((1, 2), (0, 0), STree.node [])]), ((2, 2), (2, 1), STree.node [])]), ((1, 0), (0, 0), STree.node [((0, 1), (2, 2), STree.node []), ((0, 2), (2, 2), STree.node []), ((1, 2), (2, 2), STree.node []), ((2, 1), (2, 2), STree.node []), ((2, 2), (2, 1), STree.node [((0, 1), (0, 2), STree.node []), ((0, 2), (0, 1), STree.node []), ((1, 2), (0, 1), STree.node [])])]), ((1, 2), (0, 1), STree.node [((0, 0), (2, 1), STree.node []), ((0, 2), (2, 1), STree.node []), ((1, 0), (2, 1), STree.node []), ((2, 1), (2, 2), STree.node [((0, 0), (1, 0), STree.node []), ((0, 2), (0, 0), STree.node []), ((1, 0), (0, 0), STree.node [])]), ((2, 2), (2, 1), STree.node [])]), ((2, 1), (2, 2), STree.node [((0, 0), (1, 0), STree.node [((0, 1), (1, 2), STree.node []), ((0, 2), (1, 2), STree.node []), ((1, 2), (0, 1), STree.node [])]), ((0, 1), (0, 0), STree.node []), ((0, 2), (0, 0), STree.node []), ((1, 0), (0, 0), STree.node []), ((1, 2), (0, 0), STree.node [])]), ((2, 2), (2, 1), STree.node [((0, 0), (0, 1), STree.node []), ((0, 1), (0, 0), STree.node [((0, 2), (1, 2), STree.node []), ((1, 0), (0, 2), STree.node []), ((1, 2), (0, 2), STree.node [])]), ((0, 2), (0, 1), STree.node []), ((1, 0), (0, 1), STree.node []), ((1, 2), (0, 1), STree.node [])])]), ((2, 1), (0, 1), STree.node [((0, 0), (2, 0), STree.node [((0, 2), (1, 1), STree.node [((1, 0), (1, 2), STree.node []), ((1, 2), (2, 2), STree.node []), ((2, 2), (1, 2), STree.node [])]), ((1, 0), (1, 1), STree.node [((0, 2), (1, 2), STree.node []), ((1, 2), (0, 2), STree.node []), ((2, 2), (0, 2), STree.node [])]), ((1, 1), (2, 2), STree.node [((0, 2), (1, 0), STree.node []), ((1, 0), (1, 2), STree.node []), ((1, 2), (1, 0), STree.node [])]), ((1, 2), (1, 1), STree.node [((0, 2), (2, 2), STree.node []), ((1, 0), (0, 2), STree.node []), ((2, 2), (0, 2), STree.node [])]), ((2, 2), (1, 1), STree.node [((0, 2), (1, 2), STree.node []), ((1, 0), (0, 2), STree.node []), ((1, 2), (0, 2), STree.node [])])]), ((0, 2), (2, 0), STree.node [((0, 0), (1, 1), STree.node [((1, 0), (1, 2), STree.node []), ((1, 2), (2, 2), STree.node []), ((2, 2), (1, 2), STree.node [])]), ((1, 0), (1, 1), STree.node [((0, 0), (1, 2), STree.node []), ((1, 2), (2, 2), STree.node []), ((2, 2), (1, 2), STree.node [])]), ((1, 1), (0, 0), STree.node [((1, 0), (1, 2), STree.node []), ((1, 2), (1, 0), STree.node []), ((2, 2), (1, 0), STree.node [])]), ((1, 2), (2, 2), STree.node [((0, 0), (1, 0), STree.node []), ((1, 0), (1, 1), STree.node []), ((1, 1), (1, 0), STree.node [])]), ((2, 2), (1, 2), STree.node [((0, 0), (1, 1), STree.node []), ((1, 0), (0, 0), STree.node []), ((1, 1), (0, 0), STree.node [])])]), ((1, 0), (2, 0), STree.node [((0, 0), (1, 1), STree.node [((0, 2), (1, 2), STree.node []), ((1, 2), (0, 2), STree.node []), ((2, 2), (0, 2), STree.node [])]), ((0, 2), (1, 1), STree.node [((0, 0), (1, 2), STree.node []), ((1, 2), (2, 2), STree.node []), ((2, 2), (1, 2), STree.node [])]), ((1, 1), (1, 2), STree.node [((0, 0), (2, 2), STree.node []), ((0, 2), (0, 0), STree.node []), ((2, 2), (0, 0), STree.node [])]), ((1, 2), (1, 1), STree.node [((0, 0), (0, 2), STree.node []), ((0, 2), (2, 2), STree.node []), ((2, 2), (0, 2), STree.node [])]), ((2, 2), (0, 2), STree.node [((0, 0), (1, 1), STree.node []), ((1, 1), (0, 0), STree.node []), ((1, 2), (0, 0), STree.node [])])]), ((1, 1), (0, 0), STree.node [((0, 2), (2, 0), STree.node [((1, 0), (1, 2), STree.node []), ((1, 2), (1, 0), STree.node []), ((2, 2), (1, 0), STree.node [])]), ((1, 0), (0, 2), STree.node []), ((1, 2), (0, 2), STree.node []), ((2, 0), (0, 2), STree.node []), ((2, 2), (0, 2), STree.node [])]), ((1, 2), (2, 0), STree.node [((0, 0), (1, 1), STree.node [((0, 2), (2, 2), STree.node []), ((1, 0), (0, 2), STree.node []), ((2, 2), (0, 2), STree.node [])]), ((0, 2), (2, 2), STree.node [((0, 0), (1, 0), STree.node []), ((1, 0), (1, 1), STree.node []), ((1, 1), (1, 0), STree.node [])]), ((1, 0), (1, 1), STree.node [((0, 0), (0, 2), STree.node []), ((0, 2), (2, 2), STree.node []), ((2, 2), (0, 2), STree.node [])]), ((1, 1), (1, 0), STree.node [((0, 0), (2, 2), STree.node []), ((0, 2), (0, 0), STree.node []), ((2, 2), (0, 0), STree.node [])]), ((2, 2), (0, 2), STree.node [((0, 0), (1, 1), STree.node []), ((1, 0), (0, 0), STree.node []), ((1, 1), (0, 0), STree.node [])])]), ((2, 0), (2, 2), STree.node [((0, 0), (1, 0), STree.node [((0, 2), (1, 1), STree.node []), ((1, 1), (0, 2), STree.node []), ((1, 2), (0, 2), STree.node [])]), ((0, 2), (1, 1), STree.node [((0, 0), (1, 0), STree.node []), ((1, 0), (0, 0), STree.node []), ((1, 2), (0, 0), STree.node [])]), ((1, 0), (0, 0), STree.node [((0, 2), (1, 1), STree.node []), ((1, 1), (0, 2), STree.node []), ((1, 2), (0, 2), STree.node [])]), ((1, 1), (0, 2), STree.node [((0, 0), (1, 2), STree.node []), ((1, 0), (0, 0), STree.node []), ((1, 2), (0, 0), STree.node [])]), ((1, 2), (0, 0), STree.node [((0, 2), (1, 1), STree.node []), ((1, 0), (0, 2), STree.node []), ((1, 1), (0, 2), STree.node [])])]), ((2, 2), (2, 0), STree.node [((0, 0), (1, 1), STree.node [((0, 2), (1, 2), STree.node []), ((1, 0), (0, 2), STree.node []), ((1, 2), (0, 2), STree.node [])]), ((0, 2), (1, 2), STree.node [((0, 0), (1, 1), STree.node []), ((1, 0), (0, 0), STree.node []), ((1, 1), (0, 0), STree.node [])]), ((1, 0), (0, 2), STree.node [((0, 0), (1, 1), STree.node []), ((1, 1), (0, 0), STree.node []), ((1, 2), (0, 0), STree.node [])]), ((1, 1), (0, 0), STree.node [((0, 2), (1, 0), STree.node []), ((1, 0), (0, 2), STree.node []), ((1, 2), (0, 2), STree.node [])]), ((1, 2), (0, 2), STree.node [((0, 0), (1, 1), STree.node []), ((1, 0), (0, 0), STree.node []), ((1, 1), (0, 0), STree.node [])])])]), ((2, 2), (1, 1), STree.node [((0, 0), (0, 1), STree.node [((0, 2), (2, 1), STree.node []), ((1, 0), (2, 1), STree.node []), ((1, 2), (2, 1), STree.node []), ((2, 0), (2, 1), STree.node []), ((2, 1), (2, 0), STree.node [((0, 2), (1, 2), STree.node []), ((1, 0), (0, 2), STree.node []), ((1, 2), (0, 2), STree.node [])])]), ((0, 1), (0, 0), STree.node [((0, 2), (1, 2), STree.node [((1, 0), (2, 0), STree.node []), ((2, 0), (1, 0), STree.node []), ((2, 1), (1, 0), STree.node [])]), ((1, 0), (0, 2), STree.node [((1, 2), (2, 0), STree.node []), ((2, 0), (2, 1), STree.node []), ((2, 1), (2, 0), STree.node [])]), ((1, 2), (0, 2), STree.node [((1, 0), (2, 0), STree.node []), ((2, 0), (2, 1), STree.node []), ((2, 1), (2, 0), STree.node [])]), ((2, 0), (2, 1), STree.node [((0, 2), (1, 2), STree.node []), ((1, 0), (0, 2), STree.node []), ((1, 2), (0, 2), STree.node [])]), ((2, 1), (2, 0), STree.node [((0, 2), (1, 0), STree.node []), ((1, 0), (0, 2), STree.node []), ((1, 2), (0, 2), STree.node [])])]), ((0, 2), (1, 2), STree.node [((0, 0), (1, 0), STree.node []), ((0, 1), (1, 0), STree.node []), ((1, 0), (0, 0), STree.node [((0, 1), (2, 0), STree.node []), ((2, 0), (2, 1), STree.node []), ((2, 1), (2, 0), STree.node [])]), ((2, 0), (1, 0), STree.node []), ((2, 1), (1, 0), STree.node [])]), ((1, 0), (0, 0), STree.node [((0, 1), (0, 2), STree.node [((1, 2), (2, 0), STree.node []), ((2, 0), (2, 1), STree.node []), ((2, 1), (2, 0), STree.node [])]), ((0, 2), (1, 2), STree.node [((0, 1), (2, 0), STree.node []), ((2, 0), (2, 1), STree.node []), ((2, 1), (2, 0), STree.node [])]), ((1, 2), (0, 2), STree.node [((0, 1), (2, 0), STree.node []), ((2, 0), (0, 1), STree.node []), ((2, 1), (0, 1), STree.node [])]), ((2, 0), (2, 1), STree.node [((0, 1), (0, 2), STree.node []), ((0, 2), (0, 1), STree.node []), ((1, 2), (0, 1), STree.node [])]), ((2, 1), (2, 0), STree.node [((0, 1), (0, 2), STree.node []), ((0, 2), (1, 2), STree.node []), ((1, 2), (0, 2), STree.node [])])]), ((1, 2), (0, 2), STree.node [((0, 0), (2, 0), STree.node []), ((0, 1), (2, 0), STree.node []), ((1, 0), (2, 0), STree.node []), ((2, 0), (2, 1), STree.node [((0, 0), (0, 1), STree.node []), ((0, 1), (0, 0), STree.node []), ((1, 0), (0, 1), STree.node [])]), ((2, 1), (2, 0), STree.node [])]), ((2, 0), (2, 1), STree.node [((0, 0), (0, 1), STree.node []), ((0, 1), (0, 0), STree.node [((0, 2), (1, 2), STree.node []), ((1, 0), (0, 2), STree.node []), ((1, 2), (0, 2), STree.node [])]), ((0, 2), (0, 1), STree.node []), ((1, 0), (0, 1), STree.node []), ((1, 2), (0, 1), STree.node [])]), ((2, 1), (2, 0), STree.node [((0, 0), (0, 2), STree.node []), ((0, 1), (0, 2), STree.node []), ((0, 2), (1, 2), STree.node [((0, 0), (1, 0), STree.node []), ((0, 1), (1, 0), STree.node []), ((1, 0), (0, 0), STree.node [])]), ((1, 0), (0, 2), STree.node []), ((1, 2), (0, 2), STree.node [])])])]

/-- The playout invariant for claim C5: a 3×3 session against the
computer in which the human plays X, the board stays well-formed, X has
never completed a line, and — while the game is running — it is X's turn
at a position with no winner whose game value says the computer cannot be
forced to lose. -/
def Inv (s : GState) : Prop :=
  s.boardSize = 3 ∧ s.winLength = 3 ∧ s.gameMode = GMode.ai ∧
  s.aiPlayer = Mark.O ∧ WF 3 s.gameBoard ∧
  checkWinner 3 3 s.gameBoard ≠ some Mark.X ∧
  (s.gameActive = true → s.currentPlayer = Mark.X ∧
    checkWinner 3 3 s.gameBoard = none ∧
    toE 0 ≤ WvAux cfg3 9 s.gameBoard false)

/-- Spec §4.5 rule 1/2: some empty cell such that placing `p`'s mark there
yields an immediate win for `p`. -/
def WinningCell (cfg : Cfg) (p : Mark) (b : Board) : Prop :=
  ∃ i < cfg.N, ∃ j < cfg.N, cellAt b i j = Mark.empty ∧
    checkWinnerForMinimax cfg.N cfg.L (setCell b i j p) = some p

instance (cfg : Cfg) (p : Mark) (b : Board) :
    Decidable (WinningCell cfg p b) := by
  unfold WinningCell
  infer_instance

/-- The spec's §8 end-to-end heuristic scenario: an 8×8 board (run-length
4) where the computing player O holds three in a row at (0,1)–(0,3) with
the open fourth cell (0,4); (0,0) is blocked by X so (0,4) is the only
winning completion. -/
def board8 : Board :=
  [[Mark.X, Mark.O, Mark.O, Mark.O, Mark.empty, Mark.empty, Mark.empty, Mark.empty],
   [Mark.X, Mark.X, Mark.empty, Mark.empty, Mark.empty, Mark.empty, Mark.empty, Mark.empty],
   [Mark.empty, Mark.empty, Mark.empty, Mark.empty, Mark.empty, Mark.empty, Mark.empty, Mark.empty],
   [Mark.empty, Mark.empty, Mark.empty, Mark.empty, Mark.empty, Mark.empty, Mark.empty, Mark.empty],
   [Mark.empty, Mark.empty, Mark.empty, Mark.empty, Mark.empty, Mark.empty, Mark.empty, Mark.empty],
   [Mark.empty, Mark.empty, Mark.empty, Mark.empty, Mark.empty, Mark.empty, Mark.empty, Mark.empty],
   [Mark.empty, Mark.empty, Mark.empty, Mark.empty, Mark.empty, Mark.empty, Mark.empty, Mark.empty],
   [Mark.empty, Mark.empty, Mark.empty, Mark.empty, Mark.empty, Mark.empty, Mark.empty, Mark.empty]]

/-! ## Theorems -/

/-- Claim C9, counterexample.  `initGame` does not fail for sizes below 3:
called with size 2 it creates a full session — a 2×2 all-empty board, an
active game, player X to move — rather than failing with
`InvalidConfiguration` (no such failure path exists anywhere in the
source). -/
theorem c9_counterexample :
    (initGame 2 GMode.human).gameBoard =
        [[Mark.empty, Mark.empty], [Mark.empty, Mark.empty]] ∧
      (initGame 2 GMode.human).gameActive = true ∧
      (initGame 2 GMode.human).currentPlayer = Mark.X ∧
      (initGame 2 GMode.human).winLength = 3 := by
  refine ⟨rfl, rfl, rfl, rfl⟩

/-- Claim C9, amended.  Session creation performs no size validation and
never fails: for every requested size it creates a fresh session — a
size × size all-empty board, game active, player X to move — and derives
the run-length as 3 when size ≤ 6 and 4 otherwise. -/
theorem c9_theorem (size : Nat) (mode : GMode) :
    WF size (initGame size mode).gameBoard ∧
      (∀ r c, cellAt (initGame size mode).gameBoard r c = Mark.empty) ∧
      (initGame size mode).gameActive = true ∧
      (initGame size mode).currentPlayer = Mark.X ∧
      (initGame size mode).winLength = (if size ≤ 6 then 3 else 4) := by
  refine ⟨⟨?_, ?_⟩, ?_, rfl, rfl, ?_⟩
  · simp [initGame]
  · intro row hrow
    simp only [initGame] at hrow
    simpa using List.eq_of_mem_replicate hrow ▸ List.length_replicate size _
  · intro r c
    simp only [initGame, cellAt, rowAt, List.getD_eq_getElem?_getD,
      List.getElem?_replicate]
    rcases Nat.lt_or_ge r size with h | h
    · simp only [if_pos h, Option.getD_some, List.getD_eq_getElem?_getD,
        List.getElem?_replicate]
      split <;> rfl
    · simp [Nat.not_lt.mpr h]
  · simp only [initGame]
    rcases le_or_lt size 6 with h | h
    · simp [Nat.not_lt.mpr h, h]
    · simp [h, Nat.not_le.mpr h]

/-- Claim C6, counterexample.  A click on the occupied cell (0,0) does not
fail with `IllegalMove`: `handleCellClick` returns normally (`Except.ok`)
with the session exactly unchanged — the rejection is silent.  A click
after the game has ended is likewise silently ignored, and a click with an
out-of-range row index throws a TypeError (`Except.error`) from the array
access `undefined[col]`, not an `IllegalMove`. -/
theorem c6_counterexample :
    handleCellClick stateCorner 0 0 = Except.ok stateCorner ∧
      handleCellClick (endGame stateCorner) 1 1 =
        Except.ok (endGame stateCorner) ∧
      handleCellClick stateCorner 5 0 = Except.error () := by
  refine ⟨?_, ?_, ?_⟩ <;> rfl

/-- Claim C6, amended.  Every attempted human move on an occupied cell, on
out-of-range coordinates, or after the game has reached a terminal state
leaves the session (board, active player, game-active flag) exactly
unchanged, and the rejection happens before any mutation; but no
`IllegalMove` error exists: a click after game end, on an occupied cell,
or on an out-of-range column returns silently with the unchanged state,
while an out-of-range row raises a TypeError from the `undefined[col]`
array access (modelled as `Except.error`, raised before any mutation). -/
theorem c6_theorem (s : GState) (r c : Nat) :
    (s.gameActive = false → handleCellClick s r c = Except.ok s) ∧
      (s.gameActive = true → s.gameBoard.length ≤ r →
        handleCellClick s r c = Except.error ()) ∧
      (s.gameActive = true → ∀ row, s.gameBoard[r]? = some row →
        (c ≥ row.length → handleCellClick s r c = Except.ok s) ∧
        (∀ m, row[c]? = some m → m ≠ Mark.empty →
          handleCellClick s r c = Except.ok s)) := by
  refine ⟨?_, ?_, ?_⟩
  · intro h
    simp [handleCellClick, h]
  · intro h hr
    have : s.gameBoard[r]? = none := by simpa using List.getElem?_eq_none hr
    simp [handleCellClick, h, this]
  · intro h row hrow
    constructor
    · intro hc
      have : row[c]? = none := by simpa using List.getElem?_eq_none hc
      simp [handleCellClick, h, hrow, this]
    · intro m hm hne
      simp [handleCellClick, h, hrow, hm, hne]

/-- Witness for `c6_theorem` at a concrete rejected move: the occupied
corner of `stateCorner`. -/
theorem c6_witness :
    handleCellClick stateCorner 0 0 = Except.ok stateCorner := by
  have h := c6_theorem stateCorner 0 0
  exact ((h.2.2 rfl [Mark.X, Mark.empty, Mark.empty] rfl).2 Mark.X rfl
    (by simp))

/-! ## Win detection: soundness and completeness -/

theorem mem_drop_range {N k x : Nat} :
    x ∈ (List.range N).drop k ↔ k ≤ x ∧ x < N := by
  constructor
  · intro h
    rcases List.mem_iff_getElem.mp h with ⟨i, hi, hx⟩
    rw [List.getElem_drop, List.getElem_range] at hx
    simp only [List.length_drop, List.length_range] at hi
    omega
  · intro ⟨h1, h2⟩
    rw [List.mem_iff_getElem]
    refine ⟨x - k, ?_, ?_⟩
    · simp only [List.length_drop, List.length_range]; omega
    · rw [List.getElem_drop, List.getElem_range]; omega

theorem findSome?_map_comp {α β γ : Type} (f : α → Option β) (g : β → γ)
    (l : List α) :
    l.findSome? (fun a => (f a).map g) = (l.findSome? f).map g := by
  induction l with
  | nil => rfl
  | cons x xs ih =>
    rw [List.findSome?_cons, List.findSome?_cons]
    cases f x <;> simp [ih]

/-- The two detectors agree: `checkWinnerForMinimax` returns exactly the
winner component of `checkWinner`'s scan. -/
theorem checkWinnerForMinimax_eq (N L : Nat) (b : Board) :
    checkWinnerForMinimax N L b = checkWinner N L b := by
  unfold checkWinnerForMinimax checkWinner checkWinnerRes
  exact findSome?_map_comp _ _ _

theorem mem_rowCandidates_iff {N L r c : Nat} {dr dc : Int} :
    (r, c, dr, dc) ∈ rowCandidates N L ↔
      r < N ∧ c < N + 1 - L ∧ dr = 0 ∧ dc = 1 := by
  simp only [rowCandidates, List.mem_flatMap, List.mem_map, List.mem_range,
    Prod.mk.injEq]
  constructor
  · rintro ⟨i, hi, j, hj, h1, h2, h3, h4⟩
    exact ⟨h1 ▸ hi, h2 ▸ hj, h3.symm, h4.symm⟩
  · rintro ⟨h1, h2, h3, h4⟩
    exact ⟨r, h1, c, h2, rfl, rfl, h3.symm, h4.symm⟩

theorem mem_colCandidates_iff {N L r c : Nat} {dr dc : Int} :
    (r, c, dr, dc) ∈ colCandidates N L ↔
      r < N + 1 - L ∧ c < N ∧ dr = 1 ∧ dc = 0 := by
  simp only [colCandidates, List.mem_flatMap, List.mem_map, List.mem_range,
    Prod.mk.injEq]
  constructor
  · rintro ⟨i, hi, j, hj, h1, h2, h3, h4⟩
    exact ⟨h1 ▸ hi, h2 ▸ hj, h3.symm, h4.symm⟩
  · rintro ⟨h1, h2, h3, h4⟩
    exact ⟨r, h1, c, h2, rfl, rfl, h3.symm, h4.symm⟩

theorem mem_diagCandidates_iff {N L r c : Nat} {dr dc : Int} :
    (r, c, dr, dc) ∈ diagCandidates N L ↔
      r < N + 1 - L ∧ c < N + 1 - L ∧ dr = 1 ∧ dc = 1 := by
  simp only [diagCandidates, List.mem_flatMap, List.mem_map, List.mem_range,
    Prod.mk.injEq]
  constructor
  · rintro ⟨i, hi, j, hj, h1, h2, h3, h4⟩
    exact ⟨h1 ▸ hi, h2 ▸ hj, h3.symm, h4.symm⟩
  · rintro ⟨h1, h2, h3, h4⟩
    exact ⟨r, h1, c, h2, rfl, rfl, h3.symm, h4.symm⟩

theorem mem_antiCandidates_iff {N L r c : Nat} {dr dc : Int} :
    (r, c, dr, dc) ∈ antiCandidates N L ↔
      r < N + 1 - L ∧ (L - 1 ≤ c ∧ c < N) ∧ dr = 1 ∧ dc = -1 := by
  simp only [antiCandidates, List.mem_flatMap, List.mem_map, Prod.mk.injEq,
    List.mem_range]
  constructor
  · rintro ⟨i, hi, j, hj, h1, h2, h3, h4⟩
    exact ⟨h1 ▸ hi, h2 ▸ mem_drop_range.mp hj, h3.symm, h4.symm⟩
  · rintro ⟨h1, h2, h3, h4⟩
    exact ⟨r, h1, c, mem_drop_range.mpr h2, rfl, rfl, h3.symm, h4.symm⟩

theorem mem_candidates_iff {N L r c : Nat} {dr dc : Int} :
    (r, c, dr, dc) ∈ candidates N L ↔
      (r, c, dr, dc) ∈ rowCandidates N L ∨
      (r, c, dr, dc) ∈ colCandidates N L ∨
      (r, c, dr, dc) ∈ diagCandidates N L ∨
      (r, c, dr, dc) ∈ antiCandidates N L := by
  simp [candidates, List.mem_append, or_assoc]

/-- Every scan origin is an in-bounds cell, with a direction from `dirs`,
provided the run length is at least 1. -/
theorem candidates_origin_bounds {N L r c : Nat} {dr dc : Int} (hL : 1 ≤ L)
    (h : (r, c, dr, dc) ∈ candidates N L) :
    r < N ∧ c < N ∧ (dr, dc) ∈ dirs := by
  rw [mem_candidates_iff] at h
  rcases h with h | h | h | h
  · rw [mem_rowCandidates_iff] at h
    refine ⟨h.1, by omega, ?_⟩
    simp [dirs, h.2.2.1, h.2.2.2]
  · rw [mem_colCandidates_iff] at h
    refine ⟨by omega, h.2.1, ?_⟩
    simp [dirs, h.2.2.1, h.2.2.2]
  · rw [mem_diagCandidates_iff] at h
    refine ⟨by omega, by omega, ?_⟩
    simp [dirs, h.2.2.1, h.2.2.2]
  · rw [mem_antiCandidates_iff] at h
    refine ⟨by omega, h.2.1.2, ?_⟩
    simp [dirs, h.2.2.1, h.2.2.2]

/-- Characterization of a successful `checkSequence`. -/
theorem checkSequence_eq_some_iff {N L : Nat} {b : Board} {r c : Nat}
    {dr dc : Int} {p : Mark × List (Int × Int)} :
    checkSequence N L b r c dr dc = some p ↔
      cellAt b r c ≠ Mark.empty ∧
      (∀ k0 < L - 1,
        0 ≤ (r : Int) + dr * ((k0 : Int) + 1) ∧
        (r : Int) + dr * ((k0 : Int) + 1) < (N : Int) ∧
        0 ≤ (c : Int) + dc * ((k0 : Int) + 1) ∧
        (c : Int) + dc * ((k0 : Int) + 1) < (N : Int) ∧
        cellAt b ((r : Int) + dr * ((k0 : Int) + 1)).toNat
          ((c : Int) + dc * ((k0 : Int) + 1)).toNat = cellAt b r c) ∧
      p = (cellAt b r c, (List.range L).map (fun (k : Nat) =>
        ((r : Int) + dr * (k : Int), (c : Int) + dc * (k : Int)))) := by
  unfold checkSequence
  dsimp only
  split_ifs with h1 h2
  · simp [h1]
  · rw [List.all_eq_true] at h2
    simp only [List.mem_range, Bool.and_eq_true, decide_eq_true_eq] at h2
    simp only [ne_eq, h1, not_false_eq_true, true_and]
    constructor
    · rintro h
      refine ⟨fun k0 hk0 => ?_, (Option.some.inj h).symm⟩
      have h3 := h2 k0 hk0
      tauto
    · rintro ⟨_, hp⟩
      rw [hp]
  · rw [List.all_eq_true] at h2
    simp only [List.mem_range, Bool.and_eq_true, decide_eq_true_eq] at h2
    push_neg at h2
    simp only [ne_eq, h1, not_false_eq_true, true_and]
    constructor
    · rintro h
      exact absurd h (by simp)
    · rintro ⟨hall, _⟩
      rcases h2 with ⟨k0, hk0, hbad⟩
      have h4 := hall k0 hk0
      tauto

/-- Soundness of the scan: a reported win really is a populated run of the
reported mark, and the reported cell list has length exactly `L`. -/
theorem run_of_checkWinnerRes {N L : Nat} {b : Board} {m : Mark}
    {cells : List (Int × Int)} (hL : 1 ≤ L)
    (h : checkWinnerRes N L b = some (m, cells)) :
    RunExists N L b m ∧ cells.length = L := by
  obtain ⟨q, hqmem, hq⟩ := List.exists_of_findSome?_eq_some h
  obtain ⟨r, c, dr, dc⟩ := q
  rw [checkSequence_eq_some_iff] at hq
  obtain ⟨hne, hall, hp⟩ := hq
  obtain ⟨hm, hcells⟩ : m = cellAt b r c ∧ cells = (List.range L).map
      (fun (k : Nat) => ((r : Int) + dr * (k : Int), (c : Int) + dc * (k : Int))) := by
    have := hp
    rw [Prod.ext_iff] at this
    exact ⟨this.1, this.2⟩
  obtain ⟨hrN, hcN, hdir⟩ := candidates_origin_bounds hL hqmem
  subst hm hcells
  refine ⟨⟨hne, hL, (dr, dc), hdir, r, hrN, c, hcN, ?_⟩, by simp⟩
  intro k hk
  rcases Nat.eq_zero_or_pos k with hk0 | hk1
  · subst hk0
    simp only [Nat.cast_zero, mul_zero, add_zero, Int.toNat_natCast]
    refine ⟨by positivity, by exact_mod_cast hrN, by positivity,
      by exact_mod_cast hcN, by trivial⟩
  · have h4 := hall (k - 1) (by omega)
    have hcast : ((k - 1 : Nat) : Int) + 1 = (k : Int) := by
      push_cast [Nat.cast_sub hk1]
      ring
    rw [hcast] at h4
    exact h4

/-- Completeness of the scan: whenever a populated run exists (and the run
length fits the board), the scan finds some win. -/
theorem checkWinnerRes_isSome_of_run {N L : Nat} {b : Board} {m : Mark}
    (hLN : L ≤ N) (h : RunExists N L b m) :
    ∃ p, checkWinnerRes N L b = some p := by
  obtain ⟨hne, hL, d, hd, r, hr, c, hc, hall⟩ := h
  obtain ⟨dr, dc⟩ := d
  have hfirst : cellAt b r c = m := by
    have h0 := hall 0 (by omega)
    simpa using h0.2.2.2.2
  have hlast := hall (L - 1) (by omega)
  have hcastL : ((L - 1 : Nat) : Int) = (L : Int) - 1 := by
    push_cast [Nat.cast_sub hL]
    ring
  have hseq : checkSequence N L b r c dr dc =
      some (cellAt b r c, (List.range L).map (fun (k : Nat) =>
        ((r : Int) + dr * (k : Int), (c : Int) + dc * (k : Int)))) := by
    rw [checkSequence_eq_some_iff]
    refine ⟨hfirst ▸ hne, ?_, rfl⟩
    intro k0 hk0
    have h4 := hall (k0 + 1) (by omega)
    have hcast : ((k0 + 1 : Nat) : Int) = (k0 : Int) + 1 := by push_cast; ring
    rw [hcast] at h4
    exact ⟨h4.1, h4.2.1, h4.2.2.1, h4.2.2.2.1, h4.2.2.2.2.trans hfirst.symm⟩
  have hmem : (r, c, dr, dc) ∈ candidates N L := by
    rw [mem_candidates_iff]
    simp only [dirs, List.mem_cons, Prod.mk.injEq, List.not_mem_nil] at hd
    rcases hd with ⟨h1, h2⟩ | ⟨h1, h2⟩ | ⟨h1, h2⟩ | ⟨h1, h2⟩ | hfalse
    · left
      rw [mem_rowCandidates_iff]
      subst h1 h2
      refine ⟨hr, ?_, rfl, rfl⟩
      have := hlast.2.2.2.1
      rw [hcastL] at this
      omega
    · right; left
      rw [mem_colCandidates_iff]
      subst h1 h2
      refine ⟨?_, hc, rfl, rfl⟩
      have := hlast.2.1
      rw [hcastL] at this
      omega
    · right; right; left
      rw [mem_diagCandidates_iff]
      subst h1 h2
      have hr2 := hlast.2.1
      have hc2 := hlast.2.2.2.1
      rw [hcastL] at hr2 hc2
      exact ⟨by omega, by omega, rfl, rfl⟩
    · right; right; right
      rw [mem_antiCandidates_iff]
      subst h1 h2
      have hr2 := hlast.2.1
      have hc2 := hlast.2.2.1
      rw [hcastL] at hr2 hc2
      refine ⟨by omega, ⟨by omega, hc⟩, rfl, rfl⟩
    · exact absurd hfalse (by simp)
  cases hres : checkWinnerRes N L b with
  | some p => exact ⟨p, rfl⟩
  | none =>
    have := List.findSome?_eq_none_iff.mp hres _ hmem
    simp only at this
    rw [this] at hseq
    exact absurd hseq (by simp)

/-- Claim C2.  On every board with no contiguous run of `L` identical
non-empty marks in any of the four directions, both win detectors report
no win (`null`), for every run length `L ≥ 1`. -/
theorem c2_theorem (N L : Nat) (b : Board) (hL : 1 ≤ L)
    (h : ∀ m, ¬ RunExists N L b m) :
    checkWinner N L b = none ∧ checkWinnerForMinimax N L b = none := by
  have hres : checkWinnerRes N L b = none := by
    cases hres : checkWinnerRes N L b with
    | none => rfl
    | some p =>
      obtain ⟨m, cells⟩ := p
      exact absurd (run_of_checkWinnerRes hL hres).1 (h m)
  rw [checkWinnerForMinimax_eq]
  unfold checkWinner
  rw [hres]
  exact ⟨rfl, rfl⟩

/-- Witness for `c2_theorem`: a sparse 3×3 board with no run. -/
theorem c2_witness :
    checkWinner 3 3 boardNoRun = none ∧
      checkWinnerForMinimax 3 3 boardNoRun = none :=
  c2_theorem 3 3 boardNoRun (by decide) (fun m => by cases m <;> decide)

/-- Claim C1, counterexample.  On a board holding both an O run (row 0)
and an X run (row 1), `checkWinner` instantiated at the X run does not
report a win for X: it returns O, the first run found in scan order.
Moreover the value `checkWinner` returns to its caller is only the
winning symbol, not the coordinate sequence: two boards whose winning
runs lie in different rows give the same return value even though the
computed (highlighted) cell sequences differ. -/
theorem c1_counterexample :
    (RunExists 3 3 boardTwoRuns Mark.X ∧
      checkWinner 3 3 boardTwoRuns = some Mark.O) ∧
    (checkWinner 3 3 boardTopRun = checkWinner 3 3 boardBottomRun ∧
      (checkWinnerRes 3 3 boardTopRun).map Prod.snd ≠
        (checkWinnerRes 3 3 boardBottomRun).map Prod.snd) := by
  refine ⟨⟨by decide, by decide⟩, ⟨by decide, by decide⟩⟩

/-- Claim C1, amended.  For every board size `N` and run length
`1 ≤ L ≤ N`, if the board contains a fully populated run of `L` identical
marks along any of the four directions, then `checkWinner` reports a win:
it computes, for the first completed run in scan order, the winning
symbol `w` (itself the mark of such a run, though not necessarily the
given mark when both players hold runs) together with the winning
coordinate sequence of length exactly `L`; the sequence is passed to the
highlighting routine, while the value returned to the caller is the
symbol `w` alone (as is `checkWinnerForMinimax`'s). -/
theorem c1_theorem (N L : Nat) (b : Board) (m : Mark) (hLN : L ≤ N)
    (h : RunExists N L b m) :
    ∃ w cells, checkWinnerRes N L b = some (w, cells) ∧
      cells.length = L ∧ RunExists N L b w ∧
      checkWinner N L b = some w ∧
      checkWinnerForMinimax N L b = some w := by
  have hL : 1 ≤ L := h.2.1
  obtain ⟨p, hp⟩ := checkWinnerRes_isSome_of_run hLN h
  obtain ⟨w, cells⟩ := p
  obtain ⟨hrun, hlen⟩ := run_of_checkWinnerRes hL hp
  refine ⟨w, cells, hp, hlen, hrun, ?_, ?_⟩
  · unfold checkWinner
    rw [hp]
    rfl
  · rw [checkWinnerForMinimax_eq]
    unfold checkWinner
    rw [hp]
    rfl

/-- Witness for `c1_theorem`: the top-row X run of `boardTopRun` is
detected with a 3-cell winning sequence. -/
theorem c1_witness :
    ∃ w cells, checkWinnerRes 3 3 boardTopRun = some (w, cells) ∧
      cells.length = 3 ∧ RunExists 3 3 boardTopRun w ∧
      checkWinner 3 3 boardTopRun = some w ∧
      checkWinnerForMinimax 3 3 boardTopRun = some w :=
  c1_theorem 3 3 boardTopRun Mark.X (by decide) (by decide)

/-! ## The heuristic evaluator -/

/-- Every cell of a scan window is in bounds (run length at least 1). -/
theorem candidates_window_bounds {N L r c : Nat} {dr dc : Int} (hL : 1 ≤ L)
    (h : (r, c, dr, dc) ∈ candidates N L) :
    ∀ k < L, 0 ≤ (r : Int) + dr * (k : Int) ∧
      (r : Int) + dr * (k : Int) < (N : Int) ∧
      0 ≤ (c : Int) + dc * (k : Int) ∧
      (c : Int) + dc * (k : Int) < (N : Int) := by
  intro k hk
  rw [mem_candidates_iff] at h
  rcases h with h | h | h | h
  · rw [mem_rowCandidates_iff] at h
    obtain ⟨h1, h2, h3, h4⟩ := h
    subst h3 h4
    refine ⟨by omega, by omega, by omega, by omega⟩
  · rw [mem_colCandidates_iff] at h
    obtain ⟨h1, h2, h3, h4⟩ := h
    subst h3 h4
    refine ⟨by omega, by omega, by omega, by omega⟩
  · rw [mem_diagCandidates_iff] at h
    obtain ⟨h1, h2, h3, h4⟩ := h
    subst h3 h4
    refine ⟨by omega, by omega, by omega, by omega⟩
  · rw [mem_antiCandidates_iff] at h
    obtain ⟨h1, ⟨h2a, h2b⟩, h3, h4⟩ := h
    subst h3 h4
    refine ⟨by omega, by omega, by omega, by omega⟩

/-- On every scan window, the source's `scoreSequence` computes exactly
the spec's window score of the window's marks. -/
theorem scoreSequence_eq_spec {cfg : Cfg} {b : Board} {r c : Nat}
    {dr dc : Int} (hL : 1 ≤ cfg.L)
    (h : (r, c, dr, dc) ∈ candidates cfg.N cfg.L) :
    scoreSequence cfg b r c dr dc =
      specWindowScore cfg (windowMarks cfg.L b (r, c, dr, dc)) := by
  have hb := candidates_window_bounds hL h
  have hcnt : ∀ m : Mark, ((List.range cfg.L).map (fun (k : Nat) =>
      cellAt b ((r : Int) + dr * (k : Int)).toNat
        ((c : Int) + dc * (k : Int)).toNat)).count m =
      ((List.range cfg.L).filter (fun (k : Nat) =>
        decide (cellAt b ((r : Int) + dr * (k : Int)).toNat
          ((c : Int) + dc * (k : Int)).toNat = m))).length := by
    intro m
    rw [List.count_eq_countP, List.countP_map, List.countP_eq_length_filter]
    congr 1
  have hcond : ((List.range cfg.L).all fun (k : Nat) =>
      decide (0 ≤ (r : Int) + dr * (k : Int)) &&
        decide ((r : Int) + dr * (k : Int) < (cfg.N : Int)) &&
        decide (0 ≤ (c : Int) + dc * (k : Int)) &&
        decide ((c : Int) + dc * (k : Int) < (cfg.N : Int))) = true := by
    rw [List.all_eq_true]
    intro k hkmem
    rw [List.mem_range] at hkmem
    have h4 := hb k hkmem
    simp only [Bool.and_eq_true, decide_eq_true_eq]
    exact ⟨⟨⟨h4.1, h4.2.1⟩, h4.2.2.1⟩, h4.2.2.2⟩
  unfold scoreSequence specWindowScore windowMarks
  dsimp only
  rw [hcnt, hcnt, if_pos hcond]

/-- Claim C8.  For every configuration with run length at least 1 and
every board, `evaluateBoard` equals the spec's evaluator: the sum, over
all run-length windows enumerated with the same origins as win detection,
of the window score (0 for a mixed or all-empty window, `10 ^ count` for
a window with only the computing player's marks, `-(10 ^ count)` for a
window with only the opponent's marks). -/
theorem c8_theorem (cfg : Cfg) (b : Board) (hL : 1 ≤ cfg.L) :
    evaluateBoard cfg b = specEvaluate cfg b := by
  unfold evaluateBoard specEvaluate
  congr 1
  apply List.map_congr_left
  intro q hq
  obtain ⟨r, c, dr, dc⟩ := q
  exact scoreSequence_eq_spec hL hq

/-- Witness for `c8_theorem` on a concrete 3×3 configuration and board. -/
theorem c8_witness :
    evaluateBoard ⟨3, 3, Mark.O⟩ boardNoRun =
      specEvaluate ⟨3, 3, Mark.O⟩ boardNoRun :=
  c8_theorem ⟨3, 3, Mark.O⟩ boardNoRun (by decide)

/-! ## Board update lemmas -/

theorem list_set_getD {α : Type} (l : List α) (i : Nat) (d : α)
    (h : i < l.length) : l.set i (l.getD i d) = l := by
  induction l generalizing i with
  | nil => simp at h
  | cons x xs ih =>
    cases i with
    | zero => simp [List.getD]
    | succ n =>
      simp only [List.set, List.getD_cons_succ]
      rw [ih n (by simpa using h)]

theorem list_set_same {α : Type} (l : List α) (j : Nat) (d : α)
    (h : l.getD j d = d) : l.set j d = l := by
  rcases Nat.lt_or_ge j l.length with hj | hj
  · conv_lhs => rw [← h]
    exact list_set_getD l j d hj
  · exact List.set_eq_of_length_le hj

/-- The rows of `setCell` are those of the board, with row `i` updated. -/
theorem rowAt_setCell_self {b : Board} {i j : Nat} {m : Mark}
    (hi : i < b.length) :
    rowAt (setCell b i j m) i = (rowAt b i).set j m := by
  unfold setCell rowAt
  rw [List.getD_eq_getElem?_getD, List.getElem?_set_self (by simpa using hi)]
  rfl

/-- Placing a mark on an empty cell and then clearing that cell restores
the board exactly — the source's place / recurse / retract discipline. -/
theorem setCell_restore {b : Board} {i j : Nat} {m : Mark}
    (h : cellAt b i j = Mark.empty) :
    setCell (setCell b i j m) i j Mark.empty = b := by
  rcases Nat.lt_or_ge i b.length with hi | hi
  · show (setCell b i j m).set i
      ((rowAt (setCell b i j m) i).set j Mark.empty) = b
    rw [rowAt_setCell_self hi, List.set_set,
      list_set_same (rowAt b i) j Mark.empty h]
    show (b.set i ((rowAt b i).set j m)).set i (rowAt b i) = b
    rw [List.set_set]
    exact list_set_getD b i [] hi
  · have h1 : setCell b i j m = b := by
      unfold setCell
      exact List.set_eq_of_length_le hi
    rw [h1]
    unfold setCell
    exact List.set_eq_of_length_le hi

theorem length_setCell (b : Board) (i j : Nat) (m : Mark) :
    (setCell b i j m).length = b.length := by
  unfold setCell
  exact List.length_set b _ _

theorem mem_allCells {N i j : Nat} :
    (i, j) ∈ allCells N ↔ i < N ∧ j < N := by
  simp only [allCells, List.mem_flatMap, List.mem_map, List.mem_range,
    Prod.mk.injEq]
  constructor
  · rintro ⟨a, ha, b, hb, h1, h2⟩
    exact ⟨h1 ▸ ha, h2 ▸ hb⟩
  · rintro ⟨h1, h2⟩
    exact ⟨i, h1, j, h2, rfl, rfl⟩

/-! ## The heuristic move selector -/

/-- The win/block probe loop restores the board after every probe. -/
theorem fwLoop_board_eq (cfg : Cfg) (p : Mark) (cells : List (Nat × Nat))
    (b : Board) : (fwLoop cfg p cells b).2 = b := by
  induction cells generalizing b with
  | nil => rfl
  | cons q rest ih =>
    obtain ⟨i, j⟩ := q
    by_cases hc : cellAt b i j = Mark.empty
    · simp only [fwLoop, hc, if_true]
      rw [setCell_restore hc]
      split
      · rfl
      · exact ih b
    · simp only [fwLoop, hc, if_false]
      exact ih b

theorem fwLoop_none_iff (cfg : Cfg) (p : Mark) (cells : List (Nat × Nat))
    (b : Board) :
    (fwLoop cfg p cells b).1 = none ↔
      ∀ q ∈ cells, ¬(cellAt b q.1 q.2 = Mark.empty ∧
        checkWinnerForMinimax cfg.N cfg.L (setCell b q.1 q.2 p) = some p) := by
  induction cells generalizing b with
  | nil => simp [fwLoop]
  | cons q rest ih =>
    obtain ⟨i, j⟩ := q
    by_cases hc : cellAt b i j = Mark.empty
    · simp only [fwLoop, hc, if_true]
      rw [setCell_restore hc]
      by_cases hw : checkWinnerForMinimax cfg.N cfg.L (setCell b i j p) =
          some p
      · simp only [hw, if_pos rfl]
        constructor
        · intro hfalse
          exact absurd hfalse (by simp)
        · intro hall
          exact absurd ⟨hc, hw⟩ (hall (i, j) (List.mem_cons_self _ _))
      · rw [if_neg hw, ih b]
        constructor
        · intro hall q hq
          rcases List.mem_cons.mp hq with hq1 | hq2
          · subst hq1
            rintro ⟨_, hw2⟩
            exact hw hw2
          · exact hall q hq2
        · intro hall q hq
          exact hall q (List.mem_cons_of_mem _ hq)
    · simp only [fwLoop, hc, if_false]
      rw [ih b]
      constructor
      · intro hall q hq
        rcases List.mem_cons.mp hq with hq1 | hq2
        · subst hq1
          rintro ⟨hcell, _⟩
          exact hc hcell
        · exact hall q hq2
      · intro hall q hq
        exact hall q (List.mem_cons_of_mem _ hq)

theorem fwLoop_some (cfg : Cfg) (p : Mark) (cells : List (Nat × Nat))
    (b : Board) (m : Nat × Nat) (h : (fwLoop cfg p cells b).1 = some m) :
    m ∈ cells ∧ cellAt b m.1 m.2 = Mark.empty ∧
      checkWinnerForMinimax cfg.N cfg.L (setCell b m.1 m.2 p) = some p := by
  induction cells generalizing b with
  | nil => exact absurd h (by simp [fwLoop])
  | cons q rest ih =>
    obtain ⟨i, j⟩ := q
    by_cases hc : cellAt b i j = Mark.empty
    · simp only [fwLoop, hc, if_true] at h
      rw [setCell_restore hc] at h
      by_cases hw : checkWinnerForMinimax cfg.N cfg.L (setCell b i j p) =
          some p
      · rw [if_pos hw] at h
        obtain hm : (i, j) = m := Option.some.inj h
        subst hm
        exact ⟨List.mem_cons_self _ _, hc, hw⟩
      · rw [if_neg hw] at h
        obtain ⟨h1, h2⟩ := ih b h
        exact ⟨List.mem_cons_of_mem _ h1, h2⟩
    · simp only [fwLoop, hc, if_false] at h
      obtain ⟨h1, h2⟩ := ih b h
      exact ⟨List.mem_cons_of_mem _ h1, h2⟩

/-- `findWinningMove` finds nothing exactly when no empty cell completes
a win for the probed player. -/
theorem findWinningMove_none_iff (cfg : Cfg) (p : Mark) (b : Board) :
    (findWinningMove cfg p b).1 = none ↔ ¬ WinningCell cfg p b := by
  unfold findWinningMove WinningCell
  rw [fwLoop_none_iff]
  constructor
  · intro hall ⟨i, hi, j, hj, hcell, hwin⟩
    exact hall (i, j) (mem_allCells.mpr ⟨hi, hj⟩) ⟨hcell, hwin⟩
  · intro hno q hq hqq
    obtain ⟨i, j⟩ := q
    obtain ⟨hi, hj⟩ := mem_allCells.mp hq
    exact hno ⟨i, hi, j, hj, hqq.1, hqq.2⟩

theorem findWinningMove_some (cfg : Cfg) (p : Mark) (b : Board)
    (m : Nat × Nat) (h : (findWinningMove cfg p b).1 = some m) :
    cellAt b m.1 m.2 = Mark.empty ∧
      checkWinnerForMinimax cfg.N cfg.L (setCell b m.1 m.2 p) = some p :=
  (fwLoop_some cfg p (allCells cfg.N) b m h).2

/-- Claim C7.  The heuristic move selector is a strict priority cascade
(first satisfied rule wins): (1) if some empty cell gives the computing
player an immediate win, a cell that wins immediately is selected; (2)
otherwise, if the opponent (the mark the source computes as
`currentPlayer === 'X' ? 'O' : 'X'`) would win by playing some cell, such
a cell is occupied; (3) otherwise the centre cell `(⌊N/2⌋, ⌊N/2⌋)` if
empty, else the first empty corner in the order top-left, top-right,
bottom-left, bottom-right; (4) otherwise the cell of the random draw
among the remaining empty cells.  And in the spec's 8×8 end-to-end
scenario (run-length 4, O holding (0,1)–(0,3) with (0,4) open), rule 1
selects exactly the completing cell (0,4). -/
theorem c7_theorem (cfg : Cfg) (b : Board) (cp : Mark) (idx : Nat) :
    ((WinningCell cfg cfg.ai b →
      ∃ m, heuristicChoice cfg b cp idx = some m ∧
        cellAt b m.1 m.2 = Mark.empty ∧
        checkWinnerForMinimax cfg.N cfg.L (setCell b m.1 m.2 cfg.ai) =
          some cfg.ai) ∧
    (¬ WinningCell cfg cfg.ai b →
      WinningCell cfg (if cp = Mark.X then Mark.O else Mark.X) b →
      ∃ m, heuristicChoice cfg b cp idx = some m ∧
        cellAt b m.1 m.2 = Mark.empty ∧
        checkWinnerForMinimax cfg.N cfg.L
          (setCell b m.1 m.2 (if cp = Mark.X then Mark.O else Mark.X)) =
          some (if cp = Mark.X then Mark.O else Mark.X)) ∧
    (¬ WinningCell cfg cfg.ai b →
      ¬ WinningCell cfg (if cp = Mark.X then Mark.O else Mark.X) b →
      (cellAt b (cfg.N / 2) (cfg.N / 2) = Mark.empty →
        heuristicChoice cfg b cp idx = some (cfg.N / 2, cfg.N / 2)) ∧
      (cellAt b (cfg.N / 2) (cfg.N / 2) ≠ Mark.empty →
        (∀ q, (corners cfg.N).find?
            (fun q => decide (cellAt b q.1 q.2 = Mark.empty)) = some q →
          heuristicChoice cfg b cp idx = some q) ∧
        ((corners cfg.N).find?
            (fun q => decide (cellAt b q.1 q.2 = Mark.empty)) = none →
          heuristicChoice cfg b cp idx =
            (emptyCellsList cfg.N b)[idx]?))) ∧
    heuristicChoice ⟨8, 4, Mark.O⟩ board8 Mark.O 0 = some (0, 4)) := by
  refine ⟨?_, ?_, ?_, by decide⟩
  · intro hwin
    unfold heuristicChoice
    cases hfw : (findWinningMove cfg cfg.ai b).1 with
    | none => exact absurd hwin ((findWinningMove_none_iff cfg cfg.ai b).mp hfw)
    | some m =>
      obtain ⟨h1, h2⟩ := findWinningMove_some cfg cfg.ai b m hfw
      exact ⟨m, rfl, h1, h2⟩
  · intro hno hwin
    unfold heuristicChoice
    rw [(findWinningMove_none_iff cfg cfg.ai b).mpr hno]
    cases hfw : (findWinningMove cfg
        (if cp = Mark.X then Mark.O else Mark.X) b).1 with
    | none =>
      exact absurd hwin ((findWinningMove_none_iff cfg _ b).mp hfw)
    | some m =>
      obtain ⟨h1, h2⟩ := findWinningMove_some cfg _ b m hfw
      exact ⟨m, rfl, h1, h2⟩
  · intro hno1 hno2
    unfold heuristicChoice
    rw [(findWinningMove_none_iff cfg cfg.ai b).mpr hno1,
      (findWinningMove_none_iff cfg _ b).mpr hno2]
    constructor
    · intro hcenter
      unfold findStrategicMove
      rw [if_pos hcenter]
    · intro hcenter
      constructor
      · intro q hq
        unfold findStrategicMove
        rw [if_neg hcenter, hq]
      · intro hq
        unfold findStrategicMove
        rw [if_neg hcenter, hq]
        rfl

/-- Witness for `c7_theorem`: in the 8×8 scenario, rule 1 fires and the
selected cell is an immediately winning cell for O. -/
theorem c7_witness :
    ∃ m, heuristicChoice ⟨8, 4, Mark.O⟩ board8 Mark.O 0 = some m ∧
      cellAt board8 m.1 m.2 = Mark.empty ∧
      checkWinnerForMinimax 8 4 (setCell board8 m.1 m.2 Mark.O) =
        some Mark.O :=
  (c7_theorem ⟨8, 4, Mark.O⟩ board8 Mark.O 0).1 (by decide)

/-! ## Search: board restoration and score bridging -/

theorem abMaxLoop_eq_pure (ai : Mark) (beta : EInt)
    (child : Board → EInt → EInt × Board) (childP : Board → EInt → EInt)
    (hchild : ∀ b1 a1, child b1 a1 = (childP b1 a1, b1)) :
    ∀ (cells : List (Nat × Nat)) (b : Board) (alpha best : EInt),
      abMaxLoop ai beta child cells b alpha best =
        (abMaxLoopP ai beta childP cells b alpha best, b) := by
  intro cells
  induction cells with
  | nil => intro b alpha best; rfl
  | cons q rest ih =>
    intro b alpha best
    obtain ⟨i, j⟩ := q
    by_cases hc : cellAt b i j = Mark.empty
    · simp only [abMaxLoop, abMaxLoopP, hc, if_true, hchild]
      rw [setCell_restore hc]
      split
      · rfl
      · exact ih b _ _
    · simp only [abMaxLoop, abMaxLoopP, hc, if_false]
      exact ih b alpha best

theorem abMinLoop_eq_pure (opp : Mark) (alpha : EInt)
    (child : Board → EInt → EInt × Board) (childP : Board → EInt → EInt)
    (hchild : ∀ b1 b2, child b1 b2 = (childP b1 b2, b1)) :
    ∀ (cells : List (Nat × Nat)) (b : Board) (beta best : EInt),
      abMinLoop opp alpha child cells b beta best =
        (abMinLoopP opp alpha childP cells b beta best, b) := by
  intro cells
  induction cells with
  | nil => intro b beta best; rfl
  | cons q rest ih =>
    intro b beta best
    obtain ⟨i, j⟩ := q
    by_cases hc : cellAt b i j = Mark.empty
    · simp only [abMinLoop, abMinLoopP, hc, if_true, hchild]
      rw [setCell_restore hc]
      split
      · rfl
      · exact ih b _ _
    · simp only [abMinLoop, abMinLoopP, hc, if_false]
      exact ih b beta best

/-- The search returns the board it was handed: the retract step undoes
every speculative placement on every return path, including the pruning
early exits. -/
theorem minimaxAux_eq_pure (cfg : Cfg) :
    ∀ (gas : Nat) (b : Board) (depth : Nat) (isMax : Bool)
      (alpha beta : EInt),
      minimaxAux cfg gas b depth isMax alpha beta =
        (minimaxPAux cfg gas b depth isMax alpha beta, b) := by
  intro gas
  induction gas with
  | zero =>
    intro b depth isMax alpha beta
    simp only [minimaxAux, minimaxPAux]
    split_ifs <;> rfl
  | succ g ih =>
    intro b depth isMax alpha beta
    simp only [minimaxAux, minimaxPAux]
    split_ifs with h1 h2 h3 h4 <;> try rfl
    · exact abMaxLoop_eq_pure cfg.ai beta _ _
        (fun b1 a1 => ih b1 (depth + 1) false a1 beta) (allCells cfg.N) b
        alpha ⊥
    · exact abMinLoop_eq_pure (oppOf cfg.ai) alpha _ _
        (fun b1 b2 => ih b1 (depth + 1) true alpha b2) (allCells cfg.N) b
        beta ⊤

theorem minimax_eq_pure (cfg : Cfg) (b : Board) (depth : Nat)
    (isMax : Bool) (alpha beta : EInt) (maxDepth : Nat) :
    minimax cfg b depth isMax alpha beta maxDepth =
      (minimaxP cfg b depth isMax alpha beta maxDepth, b) :=
  minimaxAux_eq_pure cfg (maxDepth - depth) b depth isMax alpha beta

theorem fbLoop_eq_pure (cfg : Cfg) (maxDepth : Nat) :
    ∀ (cells : List (Nat × Nat)) (b : Board) (bestScore : EInt)
      (bestMove : Option (Nat × Nat)),
      fbLoop cfg maxDepth cells b bestScore bestMove =
        (fbLoopP cfg maxDepth cells b bestScore bestMove, b) := by
  intro cells
  induction cells with
  | nil => intro b bs bm; rfl
  | cons q rest ih =>
    intro b bs bm
    obtain ⟨i, j⟩ := q
    by_cases hc : cellAt b i j = Mark.empty
    · simp only [fbLoop, fbLoopP, hc, if_true, minimax_eq_pure]
      rw [setCell_restore hc]
      split
      · exact ih b _ _
      · exact ih b _ _
    · simp only [fbLoop, fbLoopP, hc, if_false]
      exact ih b bs bm

theorem findBestMove_eq_pure (cfg : Cfg) (b : Board) :
    findBestMove cfg b =
      (fbLoopP cfg (maxDepthFor cfg.N) (allCells cfg.N) b ⊥ none, b) :=
  fbLoop_eq_pure cfg (maxDepthFor cfg.N) (allCells cfg.N) b ⊥ none

/-- Claim C3.  Every speculative evaluation leaves the board exactly as it
was: each `minimax` call (any window, any depth, on every return path
including the alpha-beta pruning exits), each candidate probe of
`findBestMove`, and each win/block probe of `findWinningMove` returns the
board it was given. -/
theorem c3_theorem (cfg : Cfg) (b : Board) (depth : Nat) (isMax : Bool)
    (alpha beta : EInt) (maxDepth : Nat) (p : Mark) :
    (minimax cfg b depth isMax alpha beta maxDepth).2 = b ∧
      (findBestMove cfg b).2 = b ∧
      (findWinningMove cfg p b).2 = b := by
  refine ⟨?_, ?_, fwLoop_board_eq cfg p (allCells cfg.N) b⟩
  · rw [minimax_eq_pure]
  · rw [findBestMove_eq_pure]

/-! ## Alpha-beta pruning equals plain minimax

The core is the classical fail-soft property: a value returned by the
pruned search inside the open window is exact; a value at or below alpha
is an upper bound on the exact value; a value at or above beta is a lower
bound.  At the root window `(-Infinity, Infinity)` the value is always
exact because the unpruned value is always finite. -/

theorem toE_ne_bot (n : Int) : toE n ≠ ⊥ := WithBot.coe_ne_bot

theorem toE_ne_top (n : Int) : toE n ≠ ⊤ := by
  simp only [toE]
  intro h
  exact WithTop.coe_ne_top (WithBot.coe_inj.mp h)

theorem npMaxLoop_init_le (ai : Mark) (child : Board → EInt) :
    ∀ (cells : List (Nat × Nat)) (b : Board) (best : EInt),
      best ≤ npMaxLoop ai child cells b best := by
  intro cells
  induction cells with
  | nil => intro b best; exact le_refl best
  | cons q rest ih =>
    intro b best
    obtain ⟨i, j⟩ := q
    by_cases hc : cellAt b i j = Mark.empty
    · simp only [npMaxLoop, hc, if_true]
      exact le_trans (le_max_right _ best) (ih b _)
    · simp only [npMaxLoop, hc, if_false]
      exact ih b best

theorem npMinLoop_le_init (opp : Mark) (child : Board → EInt) :
    ∀ (cells : List (Nat × Nat)) (b : Board) (best : EInt),
      npMinLoop opp child cells b best ≤ best := by
  intro cells
  induction cells with
  | nil => intro b best; exact le_refl best
  | cons q rest ih =>
    intro b best
    obtain ⟨i, j⟩ := q
    by_cases hc : cellAt b i j = Mark.empty
    · simp only [npMinLoop, hc, if_true]
      exact le_trans (ih b _) (min_le_right _ best)
    · simp only [npMinLoop, hc, if_false]
      exact ih b best

theorem npMaxLoop_decomp (ai : Mark) (child : Board → EInt) :
    ∀ (cells : List (Nat × Nat)) (b : Board) (x best : EInt),
      npMaxLoop ai child cells b (max x best) =
        max x (npMaxLoop ai child cells b best) := by
  intro cells
  induction cells with
  | nil => intro b x best; rfl
  | cons q rest ih =>
    intro b x best
    obtain ⟨i, j⟩ := q
    by_cases hc : cellAt b i j = Mark.empty
    · simp only [npMaxLoop, hc, if_true]
      rw [← ih b x]
      congr 1
      simp only [max_comm, max_assoc, max_left_comm]
    · simp only [npMaxLoop, hc, if_false]
      exact ih b x best

theorem npMinLoop_decomp (opp : Mark) (child : Board → EInt) :
    ∀ (cells : List (Nat × Nat)) (b : Board) (x best : EInt),
      npMinLoop opp child cells b (min x best) =
        min x (npMinLoop opp child cells b best) := by
  intro cells
  induction cells with
  | nil => intro b x best; rfl
  | cons q rest ih =>
    intro b x best
    obtain ⟨i, j⟩ := q
    by_cases hc : cellAt b i j = Mark.empty
    · simp only [npMinLoop, hc, if_true]
      rw [← ih b x]
      congr 1
      simp only [min_comm, min_assoc, min_left_comm]
    · simp only [npMinLoop, hc, if_false]
      exact ih b x best

theorem npMaxLoop_cases (ai : Mark) (child : Board → EInt) :
    ∀ (cells : List (Nat × Nat)) (b : Board) (best : EInt),
      npMaxLoop ai child cells b best = best ∨
        ∃ q ∈ cells, cellAt b q.1 q.2 = Mark.empty ∧
          npMaxLoop ai child cells b best =
            child (setCell b q.1 q.2 ai) := by
  intro cells
  induction cells with
  | nil => intro b best; exact Or.inl rfl
  | cons q rest ih =>
    intro b best
    obtain ⟨i, j⟩ := q
    by_cases hc : cellAt b i j = Mark.empty
    · simp only [npMaxLoop, hc, if_true]
      rcases ih b (max (child (setCell b i j ai)) best) with h | ⟨q2, hq2, hc2, he⟩
      · rw [h]
        rcases max_choice (child (setCell b i j ai)) best with h2 | h2
        · right
          exact ⟨(i, j), List.mem_cons_self _ _, hc, h2⟩
        · left
          exact h2
      · right
        exact ⟨q2, List.mem_cons_of_mem _ hq2, hc2, he⟩
    · simp only [npMaxLoop, hc, if_false]
      rcases ih b best with h | ⟨q2, hq2, hc2, he⟩
      · exact Or.inl h
      · exact Or.inr ⟨q2, List.mem_cons_of_mem _ hq2, hc2, he⟩

theorem npMinLoop_cases (opp : Mark) (child : Board → EInt) :
    ∀ (cells : List (Nat × Nat)) (b : Board) (best : EInt),
      npMinLoop opp child cells b best = best ∨
        ∃ q ∈ cells, cellAt b q.1 q.2 = Mark.empty ∧
          npMinLoop opp child cells b best =
            child (setCell b q.1 q.2 opp) := by
  intro cells
  induction cells with
  | nil => intro b best; exact Or.inl rfl
  | cons q rest ih =>
    intro b best
    obtain ⟨i, j⟩ := q
    by_cases hc : cellAt b i j = Mark.empty
    · simp only [npMinLoop, hc, if_true]
      rcases ih b (min (child (setCell b i j opp)) best) with h | ⟨q2, hq2, hc2, he⟩
      · rw [h]
        rcases min_choice (child (setCell b i j opp)) best with h2 | h2
        · right
          exact ⟨(i, j), List.mem_cons_self _ _, hc, h2⟩
        · left
          exact h2
      · right
        exact ⟨q2, List.mem_cons_of_mem _ hq2, hc2, he⟩
    · simp only [npMinLoop, hc, if_false]
      rcases ih b best with h | ⟨q2, hq2, hc2, he⟩
      · exact Or.inl h
      · exact Or.inr ⟨q2, List.mem_cons_of_mem _ hq2, hc2, he⟩

theorem npMaxLoop_ge_elem (ai : Mark) (child : Board → EInt) :
    ∀ (cells : List (Nat × Nat)) (b : Board) (best : EInt) (q : Nat × Nat),
      q ∈ cells → cellAt b q.1 q.2 = Mark.empty →
      child (setCell b q.1 q.2 ai) ≤ npMaxLoop ai child cells b best := by
  intro cells
  induction cells with
  | nil => intro b best q hq; exact absurd hq (by simp)
  | cons q0 rest ih =>
    intro b best q hq hcell
    obtain ⟨i, j⟩ := q0
    rcases List.mem_cons.mp hq with h | h
    · subst h
      simp only [npMaxLoop, hcell, if_true]
      exact le_trans (le_max_left _ best) (npMaxLoop_init_le ai child rest b _)
    · by_cases hc : cellAt b i j = Mark.empty
      · simp only [npMaxLoop, hc, if_true]
        exact ih b _ q h hcell
      · simp only [npMaxLoop, hc, if_false]
        exact ih b best q h hcell

theorem npMinLoop_le_elem (opp : Mark) (child : Board → EInt) :
    ∀ (cells : List (Nat × Nat)) (b : Board) (best : EInt) (q : Nat × Nat),
      q ∈ cells → cellAt b q.1 q.2 = Mark.empty →
      npMinLoop opp child cells b best ≤ child (setCell b q.1 q.2 opp) := by
  intro cells
  induction cells with
  | nil => intro b best q hq; exact absurd hq (by simp)
  | cons q0 rest ih =>
    intro b best q hq hcell
    obtain ⟨i, j⟩ := q0
    rcases List.mem_cons.mp hq with h | h
    · subst h
      simp only [npMinLoop, hcell, if_true]
      exact le_trans (npMinLoop_le_init opp child rest b _)
        (min_le_left _ best)
    · by_cases hc : cellAt b i j = Mark.empty
      · simp only [npMinLoop, hc, if_true]
        exact ih b _ q h hcell
      · simp only [npMinLoop, hc, if_false]
        exact ih b best q h hcell

theorem abMaxLoopP_ge_best (ai : Mark) (beta : EInt)
    (child : Board → EInt → EInt) :
    ∀ (cells : List (Nat × Nat)) (b : Board) (alpha best : EInt),
      best ≤ abMaxLoopP ai beta child cells b alpha best := by
  intro cells
  induction cells with
  | nil => intro b alpha best; exact le_refl best
  | cons q rest ih =>
    intro b alpha best
    obtain ⟨i, j⟩ := q
    by_cases hc : cellAt b i j = Mark.empty
    · simp only [abMaxLoopP, hc, if_true]
      split
      · exact le_max_right _ best
      · exact le_trans (le_max_right _ best) (ih b _ _)
    · simp only [abMaxLoopP, hc, if_false]
      exact ih b alpha best

theorem abMinLoopP_le_best (opp : Mark) (alpha : EInt)
    (child : Board → EInt → EInt) :
    ∀ (cells : List (Nat × Nat)) (b : Board) (beta best : EInt),
      abMinLoopP opp alpha child cells b beta best ≤ best := by
  intro cells
  induction cells with
  | nil => intro b beta best; exact le_refl best
  | cons q rest ih =>
    intro b beta best
    obtain ⟨i, j⟩ := q
    by_cases hc : cellAt b i j = Mark.empty
    · simp only [abMinLoopP, hc, if_true]
      split
      · exact min_le_right _ best
      · exact le_trans (ih b _ _) (min_le_right _ best)
    · simp only [abMinLoopP, hc, if_false]
      exact ih b beta best

/-- A board that is not full has an empty cell among the scanned cells. -/
theorem exists_empty_of_not_full {N : Nat} {b : Board}
    (h : ¬ isBoardFullForMinimax N b = true) :
    ∃ q ∈ allCells N, cellAt b q.1 q.2 = Mark.empty := by
  by_contra hno
  push_neg at hno
  apply h
  unfold isBoardFullForMinimax isBoardFull
  rw [List.all_eq_true]
  intro i hi
  rw [List.all_eq_true]
  intro j hj
  rw [decide_eq_true_eq]
  exact hno (i, j) (mem_allCells.mpr ⟨List.mem_range.mp hi,
    List.mem_range.mp hj⟩)

/-- The unpruned minimax value is always a finite score: never
`-Infinity`, never `Infinity`. -/
theorem minimaxNPAux_finite (cfg : Cfg) :
    ∀ (gas : Nat) (b : Board) (depth : Nat) (isMax : Bool),
      minimaxNPAux cfg gas b depth isMax ≠ ⊥ ∧
      minimaxNPAux cfg gas b depth isMax ≠ ⊤ := by
  intro gas
  induction gas with
  | zero =>
    intro b depth isMax
    simp only [minimaxNPAux]
    split_ifs <;> exact ⟨toE_ne_bot _, toE_ne_top _⟩
  | succ g ih =>
    intro b depth isMax
    simp only [minimaxNPAux]
    split_ifs with h1 h2 h3 h4
    · exact ⟨toE_ne_bot _, toE_ne_top _⟩
    · exact ⟨toE_ne_bot _, toE_ne_top _⟩
    · exact ⟨toE_ne_bot _, toE_ne_top _⟩
    · obtain ⟨q, hq, hcell⟩ := exists_empty_of_not_full h3
      constructor
      · intro hbot
        have hge := npMaxLoop_ge_elem cfg.ai
          (fun b1 => minimaxNPAux cfg g b1 (depth + 1) false)
          (allCells cfg.N) b ⊥ q hq hcell
        rw [hbot] at hge
        exact (ih _ (depth + 1) false).1 (le_bot_iff.mp hge)
      · intro htop
        rcases npMaxLoop_cases cfg.ai
            (fun b1 => minimaxNPAux cfg g b1 (depth + 1) false)
            (allCells cfg.N) b ⊥ with h | ⟨q2, _, _, he⟩
        · rw [h] at htop
          exact absurd htop (by decide)
        · rw [he] at htop
          exact (ih _ (depth + 1) false).2 htop
    · obtain ⟨q, hq, hcell⟩ := exists_empty_of_not_full h3
      constructor
      · intro hbot
        rcases npMinLoop_cases (oppOf cfg.ai)
            (fun b1 => minimaxNPAux cfg g b1 (depth + 1) true)
            (allCells cfg.N) b ⊤ with h | ⟨q2, _, _, he⟩
        · rw [h] at hbot
          exact absurd hbot (by decide)
        · rw [he] at hbot
          exact (ih _ (depth + 1) true).1 hbot
      · intro htop
        have hle := npMinLoop_le_elem (oppOf cfg.ai)
          (fun b1 => minimaxNPAux cfg g b1 (depth + 1) true)
          (allCells cfg.N) b ⊤ q hq hcell
        rw [htop] at hle
        exact (ih _ (depth + 1) true).2 (top_le_iff.mp hle)

/-- Fail-soft property of the maximizing loop: relative to the unpruned
maximum over the same cells, a result inside the window is exact, a
result at or below alpha is an upper bound, a result at or above beta is
a lower bound. -/
theorem abMaxLoopP_failSoft (ai : Mark) (beta : EInt)
    (childAB : Board → EInt → EInt) (childNP : Board → EInt)
    (hchild : ∀ b1 a1, a1 < beta →
      (childAB b1 a1 ≤ a1 → childNP b1 ≤ childAB b1 a1) ∧
      (beta ≤ childAB b1 a1 → childAB b1 a1 ≤ childNP b1) ∧
      (a1 < childAB b1 a1 → childAB b1 a1 < beta →
        childAB b1 a1 = childNP b1)) :
    ∀ (cells : List (Nat × Nat)) (b : Board) (alpha best : EInt),
      best ≤ alpha → alpha < beta →
      (abMaxLoopP ai beta childAB cells b alpha best ≤ alpha →
        npMaxLoop ai childNP cells b best ≤
          abMaxLoopP ai beta childAB cells b alpha best) ∧
      (beta ≤ abMaxLoopP ai beta childAB cells b alpha best →
        abMaxLoopP ai beta childAB cells b alpha best ≤
          npMaxLoop ai childNP cells b best) ∧
      (alpha < abMaxLoopP ai beta childAB cells b alpha best →
        abMaxLoopP ai beta childAB cells b alpha best < beta →
        abMaxLoopP ai beta childAB cells b alpha best =
          npMaxLoop ai childNP cells b best) := by
  intro cells
  induction cells with
  | nil =>
    intro b alpha best hba hab
    exact ⟨fun _ => le_refl best, fun _ => le_refl best, fun _ _ => rfl⟩
  | cons q rest ih =>
    intro b alpha best hba hab
    obtain ⟨i, j⟩ := q
    by_cases hc : cellAt b i j = Mark.empty
    case neg =>
      simp only [abMaxLoopP, npMaxLoop, hc, if_false]
      exact ih b alpha best hba hab
    case pos =>
      simp only [abMaxLoopP, npMaxLoop, hc, if_true]
      obtain ⟨hC1, hC2, hC3⟩ := hchild (setCell b i j ai) alpha hab
      set s := childAB (setCell b i j ai) alpha with hs
      set v := childNP (setCell b i j ai) with hv
      by_cases hp : beta ≤ max alpha s
      · rw [if_pos hp]
        have hbs : beta ≤ s := by
          rcases le_max_iff.mp hp with h | h
          · exact absurd h (not_le.mpr hab)
          · exact h
        have hsv : s ≤ v := hC2 hbs
        have hbig : beta ≤ max s best := le_trans hbs (le_max_left s best)
        refine ⟨?_, ?_, ?_⟩
        · intro hra
          exact absurd (lt_of_le_of_lt hra hab) (not_lt.mpr hbig)
        · intro _
          calc max s best ≤ max v best := max_le_max hsv (le_refl best)
            _ ≤ npMaxLoop ai childNP rest b (max v best) :=
              npMaxLoop_init_le ai childNP rest b _
        · intro _ hrb
          exact absurd hrb (not_lt.mpr hbig)
      · rw [if_neg hp]
        have hab1 : max alpha s < beta := not_le.mp hp
        have hba1 : max s best ≤ max alpha s :=
          max_le (le_max_right alpha s) (le_trans hba (le_max_left alpha s))
        have hsb : s < beta := lt_of_le_of_lt (le_max_right alpha s) hab1
        obtain ⟨ih1, ih2, ih3⟩ := ih b (max alpha s) (max s best) hba1 hab1
        by_cases hsa : s ≤ alpha
        · have hvs : v ≤ s := hC1 hsa
          have hmax : max alpha s = alpha := max_eq_left hsa
          rw [hmax] at ih1 ih2 ih3 ⊢
          have hA : max s best ≤ alpha := max_le hsa hba
          have hd1 : npMaxLoop ai childNP rest b (max s best) =
              max (max s best) (npMaxLoop ai childNP rest b ⊥) := by
            calc npMaxLoop ai childNP rest b (max s best)
                = npMaxLoop ai childNP rest b (max (max s best) ⊥) := by
                  rw [max_eq_left bot_le]
              _ = max (max s best) (npMaxLoop ai childNP rest b ⊥) :=
                  npMaxLoop_decomp ai childNP rest b _ ⊥
          have hd2 : npMaxLoop ai childNP rest b (max v best) =
              max (max v best) (npMaxLoop ai childNP rest b ⊥) := by
            calc npMaxLoop ai childNP rest b (max v best)
                = npMaxLoop ai childNP rest b (max (max v best) ⊥) := by
                  rw [max_eq_left bot_le]
              _ = max (max v best) (npMaxLoop ai childNP rest b ⊥) :=
                  npMaxLoop_decomp ai childNP rest b _ ⊥
          refine ⟨?_, ?_, ?_⟩
          · intro hra
            have h1 := ih1 hra
            rw [hd1] at h1
            rw [hd2]
            have hsr : max s best ≤
                abMaxLoopP ai beta childAB rest b alpha (max s best) :=
              le_trans (le_max_left _ _) h1
            have hSr : npMaxLoop ai childNP rest b ⊥ ≤
                abMaxLoopP ai beta childAB rest b alpha (max s best) :=
              le_trans (le_max_right _ _) h1
            apply max_le _ hSr
            exact max_le (le_trans hvs (le_trans (le_max_left s best) hsr))
              (le_trans (le_max_right s best) hsr)
          · intro hbr
            have h1 := ih2 hbr
            rw [hd1] at h1
            rw [hd2]
            have hAr : max s best <
                abMaxLoopP ai beta childAB rest b alpha (max s best) :=
              lt_of_le_of_lt hA (lt_of_lt_of_le hab hbr)
            have hrS : abMaxLoopP ai beta childAB rest b alpha (max s best) ≤
                npMaxLoop ai childNP rest b ⊥ := by
              rcases max_cases (max s best) (npMaxLoop ai childNP rest b ⊥)
                with ⟨he, _⟩ | ⟨he, _⟩
              · rw [he] at h1
                exact absurd hAr (not_lt.mpr h1)
              · rw [he] at h1
                exact h1
            exact le_trans hrS (le_max_right _ _)
          · intro har hrb
            have h1 := ih3 har hrb
            rw [hd1] at h1
            rw [hd2]
            have hrS : abMaxLoopP ai beta childAB rest b alpha (max s best) =
                npMaxLoop ai childNP rest b ⊥ := by
              rcases max_cases (max s best) (npMaxLoop ai childNP rest b ⊥)
                with ⟨he, _⟩ | ⟨he, _⟩
              · rw [he] at h1
                exact absurd har (not_lt.mpr (le_of_eq_of_le h1 hA))
              · rw [he] at h1
                exact h1
            rw [hrS, max_eq_right]
            apply le_of_lt
            apply lt_of_le_of_lt _ (hrS ▸ har)
            exact max_le (le_trans hvs hsa) hba
        · have has : alpha < s := not_le.mp hsa
          have hsv2 : s = v := hC3 has hsb
          have hmax : max alpha s = s := max_eq_right (le_of_lt has)
          rw [hmax] at ih1 ih2 ih3 ⊢
          rw [← hsv2]
          have hgeb : max s best ≤
              abMaxLoopP ai beta childAB rest b s (max s best) :=
            abMaxLoopP_ge_best ai beta childAB rest b s (max s best)
          have hsr : s ≤ abMaxLoopP ai beta childAB rest b s (max s best) :=
            le_trans (le_max_left s best) hgeb
          refine ⟨?_, ?_, ?_⟩
          · intro hra
            exact absurd (le_trans hsr hra) hsa
          · intro hbr
            exact ih2 hbr
          · intro har hrb
            by_cases hrs : abMaxLoopP ai beta childAB rest b s (max s best) ≤ s
            · have h1 := ih1 hrs
              have h3 : max s best ≤ npMaxLoop ai childNP rest b (max s best) :=
                npMaxLoop_init_le ai childNP rest b _
              exact le_antisymm
                (le_trans hrs (le_trans (le_max_left s best) h3)) h1
            · exact ih3 (not_le.mp hrs) hrb

/-- Fail-soft property of the minimizing loop, dual to
`abMaxLoopP_failSoft`. -/
theorem abMinLoopP_failSoft (opp : Mark) (alpha : EInt)
    (childAB : Board → EInt → EInt) (childNP : Board → EInt)
    (hchild : ∀ b1 b2, alpha < b2 →
      (childAB b1 b2 ≤ alpha → childNP b1 ≤ childAB b1 b2) ∧
      (b2 ≤ childAB b1 b2 → childAB b1 b2 ≤ childNP b1) ∧
      (alpha < childAB b1 b2 → childAB b1 b2 < b2 →
        childAB b1 b2 = childNP b1)) :
    ∀ (cells : List (Nat × Nat)) (b : Board) (beta best : EInt),
      beta ≤ best → alpha < beta →
      (abMinLoopP opp alpha childAB cells b beta best ≤ alpha →
        npMinLoop opp childNP cells b best ≤
          abMinLoopP opp alpha childAB cells b beta best) ∧
      (beta ≤ abMinLoopP opp alpha childAB cells b beta best →
        abMinLoopP opp alpha childAB cells b beta best ≤
          npMinLoop opp childNP cells b best) ∧
      (alpha < abMinLoopP opp alpha childAB cells b beta best →
        abMinLoopP opp alpha childAB cells b beta best < beta →
        abMinLoopP opp alpha childAB cells b beta best =
          npMinLoop opp childNP cells b best) := by
  intro cells
  induction cells with
  | nil =>
    intro b beta best hbb hab
    exact ⟨fun _ => le_refl best, fun _ => le_refl best, fun _ _ => rfl⟩
  | cons q rest ih =>
    intro b beta best hbb hab
    obtain ⟨i, j⟩ := q
    by_cases hc : cellAt b i j = Mark.empty
    case neg =>
      simp only [abMinLoopP, npMinLoop, hc, if_false]
      exact ih b beta best hbb hab
    case pos =>
      simp only [abMinLoopP, npMinLoop, hc, if_true]
      obtain ⟨hC1, hC2, hC3⟩ := hchild (setCell b i j opp) beta hab
      set s := childAB (setCell b i j opp) beta with hs
      set v := childNP (setCell b i j opp) with hv
      by_cases hp : min beta s ≤ alpha
      · rw [if_pos hp]
        have hsa : s ≤ alpha := by
          rcases min_le_iff.mp hp with h | h
          · exact absurd h (not_le.mpr hab)
          · exact h
        have hvs : v ≤ s := hC1 hsa
        have hsmall : min s best ≤ alpha :=
          le_trans (min_le_left s best) hsa
        refine ⟨?_, ?_, ?_⟩
        · intro _
          calc npMinLoop opp childNP rest b (min v best)
              ≤ min v best := npMinLoop_le_init opp childNP rest b _
            _ ≤ min s best := min_le_min hvs (le_refl best)
        · intro hbr
          exact absurd (le_trans hbr hsmall) (not_le.mpr hab)
        · intro har _
          exact absurd har (not_lt.mpr hsmall)
      · rw [if_neg hp]
        have halp : alpha < min beta s := not_le.mp hp
        have has : alpha < s := lt_of_lt_of_le halp (min_le_right beta s)
        have hbb1 : min beta s ≤ min s best :=
          le_min (min_le_right beta s) (le_trans (min_le_left beta s) hbb)
        obtain ⟨ih1, ih2, ih3⟩ := ih b (min beta s) (min s best) hbb1 halp
        by_cases hbs : beta ≤ s
        · have hsv : s ≤ v := hC2 hbs
          have hmin : min beta s = beta := min_eq_left hbs
          rw [hmin] at ih1 ih2 ih3 ⊢
          have hB : beta ≤ min s best := le_min hbs hbb
          have hd1 : npMinLoop opp childNP rest b (min s best) =
              min (min s best) (npMinLoop opp childNP rest b ⊤) := by
            calc npMinLoop opp childNP rest b (min s best)
                = npMinLoop opp childNP rest b (min (min s best) ⊤) := by
                  rw [min_eq_left le_top]
              _ = min (min s best) (npMinLoop opp childNP rest b ⊤) :=
                  npMinLoop_decomp opp childNP rest b _ ⊤
          have hd2 : npMinLoop opp childNP rest b (min v best) =
              min (min v best) (npMinLoop opp childNP rest b ⊤) := by
            calc npMinLoop opp childNP rest b (min v best)
                = npMinLoop opp childNP rest b (min (min v best) ⊤) := by
                  rw [min_eq_left le_top]
              _ = min (min v best) (npMinLoop opp childNP rest b ⊤) :=
                  npMinLoop_decomp opp childNP rest b _ ⊤
          refine ⟨?_, ?_, ?_⟩
          · intro hra
            have h1 := ih1 hra
            rw [hd1] at h1
            rw [hd2]
            have hbigr : abMinLoopP opp alpha childAB rest b beta
                (min s best) < min s best :=
              lt_of_le_of_lt hra (lt_of_lt_of_le hab hB)
            have hrS : npMinLoop opp childNP rest b ⊤ ≤
                abMinLoopP opp alpha childAB rest b beta (min s best) := by
              rcases min_cases (min s best) (npMinLoop opp childNP rest b ⊤)
                with ⟨he, _⟩ | ⟨he, _⟩
              · rw [he] at h1
                exact absurd hbigr (not_lt.mpr h1)
              · rw [he] at h1
                exact h1
            exact le_trans (min_le_right _ _) hrS
          · intro hbr
            have h1 := ih2 hbr
            rw [hd1] at h1
            rw [hd2]
            exact le_trans h1
              (min_le_min (min_le_min hsv (le_refl best)) (le_refl _))
          · intro har hrb
            have h1 := ih3 har hrb
            rw [hd1] at h1
            rw [hd2]
            have hrS : abMinLoopP opp alpha childAB rest b beta
                (min s best) = npMinLoop opp childNP rest b ⊤ := by
              rcases min_cases (min s best) (npMinLoop opp childNP rest b ⊤)
                with ⟨he, _⟩ | ⟨he, _⟩
              · rw [he] at h1
                exact absurd hrb (not_lt.mpr (le_of_le_of_eq hB h1.symm))
              · rw [he] at h1
                exact h1
            have hfin : npMinLoop opp childNP rest b ⊤ < min v best := by
              rw [← hrS]
              exact lt_of_lt_of_le hrb (le_min (le_trans hbs hsv) hbb)
            rw [hrS, min_eq_right (le_of_lt hfin)]
        · have hsb2 : s < beta := not_le.mp hbs
          have hsv2 : s = v := hC3 has hsb2
          have hmin : min beta s = s := min_eq_right (le_of_lt hsb2)
          rw [hmin] at ih1 ih2 ih3 ⊢
          rw [← hsv2]
          have hleb : abMinLoopP opp alpha childAB rest b s (min s best) ≤
              min s best :=
            abMinLoopP_le_best opp alpha childAB rest b s (min s best)
          have hrs : abMinLoopP opp alpha childAB rest b s (min s best) ≤ s :=
            le_trans hleb (min_le_left s best)
          refine ⟨?_, ?_, ?_⟩
          · intro hra
            exact ih1 hra
          · intro hbr
            exact absurd (lt_of_le_of_lt hrs hsb2) (not_lt.mpr hbr)
          · intro har hrb
            by_cases hsr : s ≤
                abMinLoopP opp alpha childAB rest b s (min s best)
            · have h1 := ih2 hsr
              have h3 : npMinLoop opp childNP rest b (min s best) ≤
                  min s best :=
                npMinLoop_le_init opp childNP rest b _
              exact le_antisymm h1
                (le_trans h3 (le_trans (min_le_left s best) hsr))
            · exact ih3 har (not_le.mp hsr)

/-- Fail-soft property of the full pruned search against the unpruned
search, at every node and every window. -/
theorem minimaxPAux_failSoft (cfg : Cfg) :
    ∀ (gas : Nat) (b : Board) (depth : Nat) (isMax : Bool)
      (alpha beta : EInt), alpha < beta →
      (minimaxPAux cfg gas b depth isMax alpha beta ≤ alpha →
        minimaxNPAux cfg gas b depth isMax ≤
          minimaxPAux cfg gas b depth isMax alpha beta) ∧
      (beta ≤ minimaxPAux cfg gas b depth isMax alpha beta →
        minimaxPAux cfg gas b depth isMax alpha beta ≤
          minimaxNPAux cfg gas b depth isMax) ∧
      (alpha < minimaxPAux cfg gas b depth isMax alpha beta →
        minimaxPAux cfg gas b depth isMax alpha beta < beta →
        minimaxPAux cfg gas b depth isMax alpha beta =
          minimaxNPAux cfg gas b depth isMax) := by
  intro gas
  induction gas with
  | zero =>
    intro b depth isMax alpha beta hab
    simp only [minimaxPAux, minimaxNPAux]
    split_ifs <;>
      exact ⟨fun _ => le_refl _, fun _ => le_refl _, fun _ _ => by trivial⟩
  | succ g ih =>
    intro b depth isMax alpha beta hab
    simp only [minimaxPAux, minimaxNPAux]
    split_ifs with h1 h2 h3 h4
    · exact ⟨fun _ => le_refl _, fun _ => le_refl _, fun _ _ => by trivial⟩
    · exact ⟨fun _ => le_refl _, fun _ => le_refl _, fun _ _ => by trivial⟩
    · exact ⟨fun _ => le_refl _, fun _ => le_refl _, fun _ _ => by trivial⟩
    · exact abMaxLoopP_failSoft cfg.ai beta _ _
        (fun b1 a1 ha1 => ih b1 (depth + 1) false a1 beta ha1)
        (allCells cfg.N) b alpha ⊥ bot_le hab
    · exact abMinLoopP_failSoft (oppOf cfg.ai) alpha _ _
        (fun b1 b2 hb2 => ih b1 (depth + 1) true alpha b2 hb2)
        (allCells cfg.N) b beta ⊤ le_top hab

/-- At the full window the pruned search is exact. -/
theorem minimaxPAux_eq_NP (cfg : Cfg) (gas : Nat) (b : Board) (depth : Nat)
    (isMax : Bool) :
    minimaxPAux cfg gas b depth isMax ⊥ ⊤ =
      minimaxNPAux cfg gas b depth isMax := by
  obtain ⟨f1, f2, f3⟩ :=
    minimaxPAux_failSoft cfg gas b depth isMax ⊥ ⊤ (by decide)
  obtain ⟨hnb, hnt⟩ := minimaxNPAux_finite cfg gas b depth isMax
  by_cases h1 : minimaxPAux cfg gas b depth isMax ⊥ ⊤ ≤ ⊥
  · exact absurd (le_bot_iff.mp (le_trans (f1 h1) h1)) hnb
  · by_cases h2 : ⊤ ≤ minimaxPAux cfg gas b depth isMax ⊥ ⊤
    · exact absurd (top_le_iff.mp (le_trans h2 (f2 h2))) hnt
    · exact f3 (not_le.mp h1) (not_le.mp h2)

/-- The root call `minimax(board, depth, isMax, -Infinity, Infinity,
maxDepth)` returns exactly the score of the same minimax without
pruning. -/
theorem minimax_full_window (cfg : Cfg) (b : Board) (depth : Nat)
    (isMax : Bool) (maxDepth : Nat) :
    (minimax cfg b depth isMax ⊥ ⊤ maxDepth).1 =
      minimaxNoPrune cfg b depth isMax maxDepth := by
  rw [minimax_eq_pure]
  exact minimaxPAux_eq_NP cfg (maxDepth - depth) b depth isMax

theorem fbLoopP_eq_NP (cfg : Cfg) (maxDepth : Nat) :
    ∀ (cells : List (Nat × Nat)) (b : Board) (bs : EInt)
      (bm : Option (Nat × Nat)),
      fbLoopP cfg maxDepth cells b bs bm =
        fbLoopNP cfg maxDepth cells b bs bm := by
  have hroot : ∀ b1 : Board, minimaxP cfg b1 0 false ⊥ ⊤ maxDepth =
      minimaxNoPrune cfg b1 0 false maxDepth := fun b1 =>
    minimaxPAux_eq_NP cfg (maxDepth - 0) b1 0 false
  intro cells
  induction cells with
  | nil => intro b bs bm; rfl
  | cons q rest ih =>
    intro b bs bm
    obtain ⟨i, j⟩ := q
    by_cases hc : cellAt b i j = Mark.empty
    · simp only [fbLoopP, fbLoopNP, hc, if_true, hroot]
      split
      · exact ih b _ _
      · exact ih b bs bm
    · simp only [fbLoopP, fbLoopNP, hc, if_false]
      exact ih b bs bm

/-- Claim C4.  For every board position (and any depth, ceiling and
configuration), minimax with alpha-beta pruning called with the full
window `(-Infinity, Infinity)` returns the same value as the same
depth-limited minimax without pruning, and `findBestMove` — whose root
calls all use the full window — selects exactly the move the unpruned
search would select: pruning never alters the returned value or the
chosen move. -/
theorem c4_theorem (cfg : Cfg) (b : Board) (depth : Nat) (isMax : Bool)
    (maxDepth : Nat) :
    (minimax cfg b depth isMax ⊥ ⊤ maxDepth).1 =
      minimaxNoPrune cfg b depth isMax maxDepth ∧
    (findBestMove cfg b).1 = findBestMoveNoPrune cfg b := by
  constructor
  · exact minimax_full_window cfg b depth isMax maxDepth
  · rw [findBestMove_eq_pure]
    exact fbLoopP_eq_NP cfg (maxDepthFor cfg.N) (allCells cfg.N) b ⊥ none

/-! ## Safety of the scanning loops -/

theorem readCellChecked_ok {N : Nat} {b : Board} {r c : Nat}
    (hwf : WF N b) (hr : r < N) (hc : c < N) :
    readCellChecked b (r : Int) (c : Int) = Except.ok (cellAt b r c) := by
  obtain ⟨hlen, hrows⟩ := hwf
  have hrb : r < b.length := hlen ▸ hr
  unfold readCellChecked
  rw [if_neg (by omega)]
  have h1 : ((r : Int)).toNat = r := Int.toNat_natCast r
  rw [h1, List.getElem?_eq_getElem hrb]
  have hrow : b[r].length = N := hrows b[r] (List.getElem_mem hrb)
  have hcb : c < b[r].length := hrow ▸ hc
  dsimp only
  rw [if_neg (by omega)]
  have h2 : ((c : Int)).toNat = c := Int.toNat_natCast c
  rw [h2, List.getElem?_eq_getElem hcb]
  simp only [cellAt, rowAt, List.getD_eq_getElem?_getD,
    List.getElem?_eq_getElem hrb, Option.getD_some]
  rw [List.getElem?_eq_getElem hcb]
  rfl

theorem checkSequenceChecked_ok {N L : Nat} {b : Board} {r c : Nat}
    {dr dc : Int} (hwf : WF N b) (hr : r < N) (hc : c < N) :
    checkSequenceChecked N L b (r : Int) (c : Int) dr dc =
      Except.ok (checkSequence N L b r c dr dc) := by
  unfold checkSequenceChecked checkSequence
  rw [readCellChecked_ok hwf hr hc]
  show (if cellAt b r c = Mark.empty then pure none else _) = _
  dsimp only
  split_ifs <;> rfl

theorem scanChecked_ok {N L : Nat} {b : Board} (hwf : WF N b) :
    ∀ (cs : List (Nat × Nat × Int × Int)),
      (∀ q ∈ cs, q.1 < N ∧ q.2.1 < N) →
      scanChecked N L b (cs.map (fun q =>
        ((q.1 : Int), (q.2.1 : Int), q.2.2.1, q.2.2.2))) =
        Except.ok (cs.findSome? (fun q =>
          checkSequence N L b q.1 q.2.1 q.2.2.1 q.2.2.2)) := by
  intro cs
  induction cs with
  | nil => intro _; rfl
  | cons q rest ih =>
    intro hin
    obtain ⟨hq1, hq2⟩ := hin q (List.mem_cons_self _ _)
    simp only [List.map_cons, scanChecked, List.findSome?_cons]
    rw [checkSequenceChecked_ok hwf hq1 hq2]
    cases hres : checkSequence N L b q.1 q.2.1 q.2.2.1 q.2.2.2 with
    | some w => rfl
    | none =>
      show scanChecked N L b _ = _
      exact ih (fun p hp => hin p (List.mem_cons_of_mem _ hp))

theorem intRange_zero_sub_one (N : Nat) :
    intRange 0 ((N : Int) - 1) = (List.range N).map (fun (k : Nat) => (k : Int)) := by
  unfold intRange
  have h1 : ((N : Int) - 1 + 1 - 0).toNat = N := by omega
  rw [h1]
  apply List.map_congr_left
  intro a _
  omega

theorem intRange_zero_sub_L (N L : Nat) :
    intRange 0 ((N : Int) - (L : Int)) =
      (List.range (N + 1 - L)).map (fun (k : Nat) => (k : Int)) := by
  unfold intRange
  have h1 : ((N : Int) - (L : Int) + 1 - 0).toNat = N + 1 - L := by omega
  rw [h1]
  apply List.map_congr_left
  intro a _
  omega

theorem intRange_anti (N L : Nat) (hL : 1 ≤ L) :
    intRange ((L : Int) - 1) ((N : Int) - 1) =
      ((List.range N).drop (L - 1)).map (fun (k : Nat) => (k : Int)) := by
  unfold intRange
  apply List.ext_getElem
  · simp only [List.length_map, List.length_range, List.length_drop]
    omega
  · intro n h1 h2
    simp only [List.getElem_map, List.getElem_range, List.getElem_drop]
    omega

theorem candidatesChecked_eq (N L : Nat) (hL : 1 ≤ L) :
    candidatesChecked N L = (candidates N L).map (fun q =>
      ((q.1 : Int), (q.2.1 : Int), q.2.2.1, q.2.2.2)) := by
  unfold candidatesChecked candidates rowCandidates colCandidates
    diagCandidates antiCandidates
  rw [intRange_zero_sub_one, intRange_zero_sub_L, intRange_anti N L hL]
  simp only [List.map_append, List.map_flatMap, List.flatMap_map,
    List.map_map, Function.comp]
  rfl

theorem candidates_nil_of_lt {N L : Nat} (h : N < L) :
    candidates N L = [] := by
  have h0 : N + 1 - L = 0 := by omega
  simp [candidates, rowCandidates, colCandidates, diagCandidates,
    antiCandidates, h0]

/-- Claim C10, counterexample.  With `winLength = 0` (a value the claim's
"every win-length value" includes), both win detectors do read out of
bounds: on a 1×1 board the row scan's origin loop runs `j` up to
`boardSize - winLength = 1` and reads `board[0][1]` — an out-of-range
column of a valid row, the first out-of-bounds access either scan
makes (`Fault.colOOB`, the undefined-read kind). -/
theorem c10_counterexample :
    checkWinnerForMinimaxChecked 1 0 [[Mark.empty]] =
        Except.error Fault.colOOB ∧
      checkWinnerChecked 1 0 [[Mark.empty]] =
        Except.error Fault.colOOB := ⟨rfl, rfl⟩

/-- Claim C10, amended.  For every board size `N ≥ 1` and every win
length `winLength ≥ 1` — including `winLength > N` — both win detectors
read only in-bounds cells and return normally (the instrumented scan
faults on no access and agrees with the total model): the origin loops
are bounded by `size - winLength`, and `checkSequence` re-checks bounds
before each scanned cell.  When `winLength > N` no origin is enumerated
and no win is reported.  (For `winLength = 0` the origin loops do read
out of bounds, see the counterexample.) -/
theorem c10_theorem (N L : Nat) (b : Board) (_hN : 1 ≤ N) (hL : 1 ≤ L)
    (hwf : WF N b) :
    checkWinnerForMinimaxChecked N L b =
        Except.ok (checkWinnerForMinimax N L b) ∧
      checkWinnerChecked N L b = Except.ok (checkWinner N L b) ∧
      (N < L → checkWinnerForMinimax N L b = none ∧
        checkWinner N L b = none) := by
  have hok : scanChecked N L b (candidatesChecked N L) =
      Except.ok (checkWinnerRes N L b) := by
    rw [candidatesChecked_eq N L hL]
    exact scanChecked_ok hwf (candidates N L) (fun q hq => by
      obtain ⟨r, c, dr, dc⟩ := q
      have h2 := candidates_origin_bounds hL hq
      exact ⟨h2.1, h2.2.1⟩)
  refine ⟨?_, ?_, ?_⟩
  · unfold checkWinnerForMinimaxChecked
    rw [hok, checkWinnerForMinimax_eq]
    unfold checkWinner
    rfl
  · unfold checkWinnerChecked
    rw [hok]
    unfold checkWinner
    rfl
  · intro hNL
    rw [checkWinnerForMinimax_eq]
    unfold checkWinner checkWinnerRes
    rw [candidates_nil_of_lt hNL]
    exact ⟨rfl, rfl⟩

/-- Witness for `c10_theorem` on a concrete 3×3 board. -/
theorem c10_witness :
    checkWinnerForMinimaxChecked 3 3 boardNoRun =
        Except.ok (checkWinnerForMinimax 3 3 boardNoRun) ∧
      checkWinnerChecked 3 3 boardNoRun =
        Except.ok (checkWinner 3 3 boardNoRun) ∧
      (3 < 3 → checkWinnerForMinimax 3 3 boardNoRun = none ∧
        checkWinner 3 3 boardNoRun = none) :=
  c10_theorem 3 3 boardNoRun (by decide) (by decide) ⟨rfl, by decide⟩

/-! ## The computing player never loses the 3×3 game (claim C5)

Infrastructure: cell-level description of `setCell`, counting empty
cells, a sign equivalence between the unpruned minimax score and the
depth-free game value `WvAux`, an argmax description of `findBestMove`,
soundness of the certificate checker `stratOk`, and a session invariant
carried through `playout`. -/

theorem rowAt_length_of_wf {N : Nat} {b : Board} (hwf : WF N b) {i : Nat}
    (hi : i < N) : (rowAt b i).length = N := by
  obtain ⟨hlen, hrows⟩ := hwf
  have hib : i < b.length := hlen ▸ hi
  simp only [rowAt, List.getD_eq_getElem?_getD, List.getElem?_eq_getElem hib,
    Option.getD_some]
  exact hrows _ (List.getElem_mem hib)

theorem cellAt_setCell_self_of_wf {N : Nat} {b : Board} {i j : Nat} {m : Mark}
    (hwf : WF N b) (hi : i < N) (hj : j < N) :
    cellAt (setCell b i j m) i j = m := by
  have hib : i < b.length := hwf.1 ▸ hi
  have hjb : j < (rowAt b i).length := (rowAt_length_of_wf hwf hi) ▸ hj
  unfold cellAt
  rw [rowAt_setCell_self hib, List.getD_eq_getElem?_getD,
    List.getElem?_set_self (by simpa using hjb)]
  rfl

theorem cellAt_setCell_ne {b : Board} {i j i' j' : Nat} {m : Mark}
    (h : (i', j') ≠ (i, j)) :
    cellAt (setCell b i j m) i' j' = cellAt b i' j' := by
  by_cases hii : i' = i
  · subst hii
    have hjj : j' ≠ j := fun hjj => h (by rw [hjj])
    rcases Nat.lt_or_ge i' b.length with hi | hi
    · unfold cellAt
      rw [rowAt_setCell_self hi, List.getD_eq_getElem?_getD,
        List.getElem?_set_ne (Ne.symm hjj), ← List.getD_eq_getElem?_getD]
    · have : setCell b i' j m = b := List.set_eq_of_length_le hi
      rw [this]
  · have hrow : rowAt (setCell b i j m) i' = rowAt b i' := by
      unfold setCell rowAt
      rw [List.getD_eq_getElem?_getD, List.getElem?_set_ne (Ne.symm hii),
        ← List.getD_eq_getElem?_getD]
    unfold cellAt
    rw [hrow]

theorem WF_setCell {N : Nat} {b : Board} {i j : Nat} {m : Mark}
    (hwf : WF N b) (hi : i < N) : WF N (setCell b i j m) := by
  refine ⟨by rw [length_setCell]; exact hwf.1, ?_⟩
  intro row hrow
  rcases List.mem_or_eq_of_mem_set hrow with h | h
  · exact hwf.2 row h
  · subst h
    rw [List.length_set]
    exact rowAt_length_of_wf hwf hi

theorem length_allCells (N : Nat) : (allCells N).length = N * N := by
  simp only [allCells, List.length_flatMap, Function.comp, List.length_map,
    List.length_range]
  have h : (List.map (List.length ∘ fun i =>
      List.map (fun j => (i, j)) (List.range N)) (List.range N)) =
      List.replicate N N := by
    rw [List.eq_replicate_iff]
    simp
  rw [h, List.sum_replicate, smul_eq_mul]

theorem emptiesCount_le_sq (N : Nat) (b : Board) :
    emptiesCount N b ≤ N * N := by
  unfold emptiesCount emptyCellsList
  calc ((allCells N).filter _).length ≤ (allCells N).length :=
        List.length_filter_le _ _
    _ = N * N := length_allCells N

theorem emptiesCount_pos_of_empty {N : Nat} {b : Board} {i j : Nat}
    (hi : i < N) (hj : j < N) (hcell : cellAt b i j = Mark.empty) :
    1 ≤ emptiesCount N b := by
  unfold emptiesCount emptyCellsList
  rw [Nat.succ_le_iff, List.length_pos]
  intro hnil
  have : (i, j) ∈ (allCells N).filter
      (fun q => decide (cellAt b q.1 q.2 = Mark.empty)) := by
    rw [List.mem_filter]
    exact ⟨mem_allCells.mpr ⟨hi, hj⟩, by simpa using hcell⟩
  rw [hnil] at this
  exact absurd this (List.not_mem_nil _)

theorem not_full_of_empty {N : Nat} {b : Board} {i j : Nat}
    (hi : i < N) (hj : j < N) (hcell : cellAt b i j = Mark.empty) :
    isBoardFullForMinimax N b = false := by
  by_contra h
  rw [Bool.not_eq_false] at h
  unfold isBoardFullForMinimax isBoardFull at h
  rw [List.all_eq_true] at h
  have h1 := h i (List.mem_range.mpr hi)
  rw [List.all_eq_true] at h1
  have h2 := h1 j (List.mem_range.mpr hj)
  rw [decide_eq_true_eq] at h2
  exact h2 hcell

theorem emptiesCount_setCell_lt {N : Nat} {b : Board} {i j : Nat} {m : Mark}
    (hwf : WF N b) (hi : i < N) (hj : j < N)
    (hcell : cellAt b i j = Mark.empty) (hm : m ≠ Mark.empty) :
    emptiesCount N (setCell b i j m) < emptiesCount N b := by
  unfold emptiesCount emptyCellsList
  rw [← List.countP_eq_length_filter, ← List.countP_eq_length_filter]
  obtain ⟨s, t, hst⟩ := List.append_of_mem (mem_allCells.mpr ⟨hi, hj⟩)
  set p := fun q : Nat × Nat => decide (cellAt b q.1 q.2 = Mark.empty) with hp
  set p' := fun q : Nat × Nat =>
    decide (cellAt (setCell b i j m) q.1 q.2 = Mark.empty) with hp'
  have hximp : ∀ x : Nat × Nat, p' x = true → p x = true := by
    intro x hx
    by_cases hq : x = (i, j)
    · subst hq
      exfalso
      simp only [hp', decide_eq_true_eq] at hx
      rw [cellAt_setCell_self_of_wf hwf hi hj] at hx
      exact hm hx
    · simp only [hp', decide_eq_true_eq] at hx
      rw [cellAt_setCell_ne (by simpa using hq)] at hx
      simp only [hp, decide_eq_true_eq]
      exact hx
  have hp'ij : p' (i, j) = false := by
    simp only [hp', decide_eq_false_iff_not]
    rw [cellAt_setCell_self_of_wf hwf hi hj]
    exact hm
  have hpij : p (i, j) = true := by
    simp only [hp, decide_eq_true_eq]
    exact hcell
  have h1 := List.countP_mono_left (p := p') (q := p) (l := s)
    (fun x _ => hximp x)
  have h2 := List.countP_mono_left (p := p') (q := p) (l := t)
    (fun x _ => hximp x)
  rw [hst, List.countP_append, List.countP_append, List.countP_cons,
    List.countP_cons, hp'ij, hpij]
  simp only [if_true, if_false, Bool.false_eq_true]
  omega

theorem toE_lt_toE {a b : Int} : toE a < toE b ↔ a < b := by
  simp only [toE]
  rw [WithBot.coe_lt_coe, WithTop.coe_lt_coe]

theorem bot_lt_toE (n : Int) : (⊥ : EInt) < toE n :=
  bot_lt_iff_ne_bot.mpr (toE_ne_bot n)

theorem toE_lt_top (n : Int) : toE n < (⊤ : EInt) :=
  lt_top_iff_ne_top.mpr (toE_ne_top n)

/-- A lower bound propagates through the minimizing fold: if the initial
best and every visited child are at least `x`, so is the result. -/
theorem npMinLoop_ge (opp : Mark) (child : Board → EInt) (x : EInt) :
    ∀ (cells : List (Nat × Nat)) (b : Board) (best : EInt),
      x ≤ best →
      (∀ q ∈ cells, cellAt b q.1 q.2 = Mark.empty →
        x ≤ child (setCell b q.1 q.2 opp)) →
      x ≤ npMinLoop opp child cells b best := by
  intro cells
  induction cells with
  | nil => intro b best hb _; exact hb
  | cons q rest ih =>
    intro b best hb hcells
    obtain ⟨i, j⟩ := q
    by_cases hc : cellAt b i j = Mark.empty
    · simp only [npMinLoop, hc, if_true]
      refine ih b _ (le_min ?_ hb) ?_
      · exact hcells (i, j) (List.mem_cons_self _ _) hc
      · intro p hp hpc
        exact hcells p (List.mem_cons_of_mem _ hp) hpc
    · simp only [npMinLoop, hc, if_false]
      refine ih b best hb ?_
      intro p hp hpc
      exact hcells p (List.mem_cons_of_mem _ hp) hpc

/-- Positivity transfers between two maximizing folds whose children
transfer positivity pointwise. -/
theorem npMaxLoop_pos_mono (ai : Mark) (cA cB : Board → EInt)
    (cells : List (Nat × Nat)) (b : Board)
    (hsign : ∀ q ∈ cells, cellAt b q.1 q.2 = Mark.empty →
      toE 0 < cA (setCell b q.1 q.2 ai) → toE 0 < cB (setCell b q.1 q.2 ai))
    (hpos : toE 0 < npMaxLoop ai cA cells b ⊥) :
    toE 0 < npMaxLoop ai cB cells b ⊥ := by
  rcases npMaxLoop_cases ai cA cells b ⊥ with h | ⟨q, hq, hcell, he⟩
  · rw [h] at hpos
    exact absurd hpos (by simp)
  · rw [he] at hpos
    have hB := hsign q hq hcell hpos
    exact lt_of_lt_of_le hB (npMaxLoop_ge_elem ai cB cells b ⊥ q hq hcell)

/-- Negativity transfers between two maximizing folds whose children
transfer negativity pointwise. -/
theorem npMaxLoop_neg_mono (ai : Mark) (cA cB : Board → EInt)
    (cells : List (Nat × Nat)) (b : Board)
    (hsign : ∀ q ∈ cells, cellAt b q.1 q.2 = Mark.empty →
      cA (setCell b q.1 q.2 ai) < toE 0 → cB (setCell b q.1 q.2 ai) < toE 0)
    (hneg : npMaxLoop ai cA cells b ⊥ < toE 0) :
    npMaxLoop ai cB cells b ⊥ < toE 0 := by
  rcases npMaxLoop_cases ai cB cells b ⊥ with h | ⟨q, hq, hcell, he⟩
  · rw [h]
    exact bot_lt_toE 0
  · rw [he]
    refine hsign q hq hcell ?_
    exact lt_of_le_of_lt (npMaxLoop_ge_elem ai cA cells b ⊥ q hq hcell) hneg

/-- Positivity transfers between two minimizing folds whose children
transfer positivity pointwise. -/
theorem npMinLoop_pos_mono (opp : Mark) (cA cB : Board → EInt)
    (cells : List (Nat × Nat)) (b : Board)
    (hsign : ∀ q ∈ cells, cellAt b q.1 q.2 = Mark.empty →
      toE 0 < cA (setCell b q.1 q.2 opp) → toE 0 < cB (setCell b q.1 q.2 opp))
    (hpos : toE 0 < npMinLoop opp cA cells b ⊤) :
    toE 0 < npMinLoop opp cB cells b ⊤ := by
  rcases npMinLoop_cases opp cB cells b ⊤ with h | ⟨q, hq, hcell, he⟩
  · rw [h]
    exact toE_lt_top 0
  · rw [he]
    refine hsign q hq hcell ?_
    exact lt_of_lt_of_le hpos (npMinLoop_le_elem opp cA cells b ⊤ q hq hcell)

/-- Negativity transfers between two minimizing folds whose children
transfer negativity pointwise. -/
theorem npMinLoop_neg_mono (opp : Mark) (cA cB : Board → EInt)
    (cells : List (Nat × Nat)) (b : Board)
    (hsign : ∀ q ∈ cells, cellAt b q.1 q.2 = Mark.empty →
      cA (setCell b q.1 q.2 opp) < toE 0 → cB (setCell b q.1 q.2 opp) < toE 0)
    (hneg : npMinLoop opp cA cells b ⊤ < toE 0) :
    npMinLoop opp cB cells b ⊤ < toE 0 := by
  rcases npMinLoop_cases opp cA cells b ⊤ with h | ⟨q, hq, hcell, he⟩
  · rw [h] at hneg
    exact absurd hneg (by simp)
  · rw [he] at hneg
    have hB := hsign q hq hcell hneg
    exact lt_of_le_of_lt (npMinLoop_le_elem opp cB cells b ⊤ q hq hcell) hB

theorem oppOf_ne_empty (m : Mark) : oppOf m ≠ Mark.empty := by
  cases m <;> decide

/-- One-step characterization of `minimaxNPAux` with the gas variable. -/
theorem minimaxNPAux_eq (cfg : Cfg) (gas : Nat) (b : Board) (depth : Nat)
    (isMax : Bool) :
    minimaxNPAux cfg gas b depth isMax =
      (if checkWinnerForMinimax cfg.N cfg.L b = some cfg.ai then
        toE (1000 - (depth : Int))
      else if checkWinnerForMinimax cfg.N cfg.L b = some (oppOf cfg.ai) then
        toE ((depth : Int) - 1000)
      else if isBoardFullForMinimax cfg.N b then toE 0
      else
        match gas with
        | 0 => toE (evaluateBoard cfg b)
        | g + 1 =>
          if isMax then
            npMaxLoop cfg.ai
              (fun b1 => minimaxNPAux cfg g b1 (depth + 1) false)
              (allCells cfg.N) b ⊥
          else
            npMinLoop (oppOf cfg.ai)
              (fun b1 => minimaxNPAux cfg g b1 (depth + 1) true)
              (allCells cfg.N) b ⊤) := by
  cases gas <;> rfl

/-- One-step characterization of `WvAux` with the gas variable. -/
theorem WvAux_eq (cfg : Cfg) (gas : Nat) (b : Board) (isMax : Bool) :
    WvAux cfg gas b isMax =
      (if checkWinnerForMinimax cfg.N cfg.L b = some cfg.ai then toE 1
      else if checkWinnerForMinimax cfg.N cfg.L b = some (oppOf cfg.ai) then
        toE (-1)
      else if isBoardFullForMinimax cfg.N b then toE 0
      else
        match gas with
        | 0 => toE 0
        | g + 1 =>
          if isMax then
            npMaxLoop cfg.ai (fun b1 => WvAux cfg g b1 false)
              (allCells cfg.N) b ⊥
          else
            npMinLoop (oppOf cfg.ai) (fun b1 => WvAux cfg g b1 true)
              (allCells cfg.N) b ⊤) := by
  cases gas <;> rfl

/-- Sign equivalence between the engine's unpruned minimax score and the
depth-free game value: at any position whose empty-cell count is within
both gas budgets (and whose depth keeps the win scores positive), the
minimax score is positive / negative exactly when the game value is. -/
theorem minimaxNP_Wv_sign (cfg : Cfg) (hai : cfg.ai ≠ Mark.empty) :
    ∀ (e : Nat) (b : Board) (gas gas' depth : Nat) (isMax : Bool),
      WF cfg.N b →
      emptiesCount cfg.N b ≤ e →
      emptiesCount cfg.N b ≤ gas →
      emptiesCount cfg.N b ≤ gas' →
      depth + e < 1000 →
      ((toE 0 < minimaxNPAux cfg gas b depth isMax ↔
          toE 0 < WvAux cfg gas' b isMax) ∧
       (minimaxNPAux cfg gas b depth isMax < toE 0 ↔
          WvAux cfg gas' b isMax < toE 0)) := by
  intro e
  induction e with
  | zero =>
    intro b gas gas' depth isMax hwf he hg hg' hd
    rw [minimaxNPAux_eq, WvAux_eq]
    split_ifs with h1 h2 h3
    · exact ⟨by rw [toE_lt_toE, toE_lt_toE]; omega,
        by rw [toE_lt_toE, toE_lt_toE]; omega⟩
    · exact ⟨by rw [toE_lt_toE, toE_lt_toE]; omega,
        by rw [toE_lt_toE, toE_lt_toE]; omega⟩
    · exact ⟨Iff.rfl, Iff.rfl⟩
    all_goals
      obtain ⟨q0, hq0, hcell0⟩ := exists_empty_of_not_full h3
    all_goals
      obtain ⟨i0, j0⟩ := q0
    all_goals
      obtain ⟨hi0, hj0⟩ := mem_allCells.mp hq0
    all_goals
      have := emptiesCount_pos_of_empty hi0 hj0 hcell0
    all_goals omega
  | succ e0 ih =>
    intro b gas gas' depth isMax hwf he hg hg' hd
    have hchild : ¬ isBoardFullForMinimax cfg.N b = true →
        ∀ g g2, emptiesCount cfg.N b ≤ g + 1 →
        emptiesCount cfg.N b ≤ g2 + 1 →
        ∀ (m : Mark), m ≠ Mark.empty →
        ∀ q ∈ allCells cfg.N, cellAt b q.1 q.2 = Mark.empty →
        ∀ (im : Bool),
        ((toE 0 < minimaxNPAux cfg g (setCell b q.1 q.2 m) (depth + 1) im ↔
            toE 0 < WvAux cfg g2 (setCell b q.1 q.2 m) im) ∧
         (minimaxNPAux cfg g (setCell b q.1 q.2 m) (depth + 1) im < toE 0 ↔
            WvAux cfg g2 (setCell b q.1 q.2 m) im < toE 0)) := by
      intro _ g g2 hgg hgg2 m hm q hq hcell im
      obtain ⟨i, j⟩ := q
      obtain ⟨hi, hj⟩ := mem_allCells.mp hq
      have hlt := emptiesCount_setCell_lt hwf hi hj hcell hm
      exact ih (setCell b i j m) g g2 (depth + 1) im (WF_setCell hwf hi)
        (by omega) (by omega) (by omega) (by omega)
    rw [minimaxNPAux_eq, WvAux_eq]
    split_ifs with h1 h2 h3 h4
    · exact ⟨by rw [toE_lt_toE, toE_lt_toE]; omega,
        by rw [toE_lt_toE, toE_lt_toE]; omega⟩
    · exact ⟨by rw [toE_lt_toE, toE_lt_toE]; omega,
        by rw [toE_lt_toE, toE_lt_toE]; omega⟩
    · exact ⟨Iff.rfl, Iff.rfl⟩
    · -- maximizing layer
      obtain ⟨q0, hq0, hcell0⟩ := exists_empty_of_not_full h3
      obtain ⟨i0, j0⟩ := q0
      obtain ⟨hi0, hj0⟩ := mem_allCells.mp hq0
      have hemp : 1 ≤ emptiesCount cfg.N b :=
        emptiesCount_pos_of_empty hi0 hj0 hcell0
      cases gas with
      | zero => omega
      | succ g =>
        cases gas' with
        | zero => omega
        | succ g' =>
          have hc2 := hchild h3 g g' hg hg'
          refine ⟨⟨?_, ?_⟩, ?_, ?_⟩
          · exact npMaxLoop_pos_mono cfg.ai
              (fun b1 => minimaxNPAux cfg g b1 (depth + 1) false)
              (fun b1 => WvAux cfg g' b1 false) (allCells cfg.N) b
              (fun q hq hc => ((hc2 cfg.ai hai q hq hc false).1).mp)
          · exact npMaxLoop_pos_mono cfg.ai
              (fun b1 => WvAux cfg g' b1 false)
              (fun b1 => minimaxNPAux cfg g b1 (depth + 1) false)
              (allCells cfg.N) b
              (fun q hq hc => ((hc2 cfg.ai hai q hq hc false).1).mpr)
          · exact npMaxLoop_neg_mono cfg.ai
              (fun b1 => minimaxNPAux cfg g b1 (depth + 1) false)
              (fun b1 => WvAux cfg g' b1 false) (allCells cfg.N) b
              (fun q hq hc => ((hc2 cfg.ai hai q hq hc false).2).mp)
          · exact npMaxLoop_neg_mono cfg.ai
              (fun b1 => WvAux cfg g' b1 false)
              (fun b1 => minimaxNPAux cfg g b1 (depth + 1) false)
              (allCells cfg.N) b
              (fun q hq hc => ((hc2 cfg.ai hai q hq hc false).2).mpr)
    · -- minimizing layer
      obtain ⟨q0, hq0, hcell0⟩ := exists_empty_of_not_full h3
      obtain ⟨i0, j0⟩ := q0
      obtain ⟨hi0, hj0⟩ := mem_allCells.mp hq0
      have hemp : 1 ≤ emptiesCount cfg.N b :=
        emptiesCount_pos_of_empty hi0 hj0 hcell0
      cases gas with
      | zero => omega
      | succ g =>
        cases gas' with
        | zero => omega
        | succ g' =>
          have hc2 := hchild h3 g g' hg hg'
          refine ⟨⟨?_, ?_⟩, ?_, ?_⟩
          · exact npMinLoop_pos_mono (oppOf cfg.ai)
              (fun b1 => minimaxNPAux cfg g b1 (depth + 1) true)
              (fun b1 => WvAux cfg g' b1 true) (allCells cfg.N) b
              (fun q hq hc =>
                ((hc2 (oppOf cfg.ai) (oppOf_ne_empty _) q hq hc true).1).mp)
          · exact npMinLoop_pos_mono (oppOf cfg.ai)
              (fun b1 => WvAux cfg g' b1 true)
              (fun b1 => minimaxNPAux cfg g b1 (depth + 1) true)
              (allCells cfg.N) b
              (fun q hq hc =>
                ((hc2 (oppOf cfg.ai) (oppOf_ne_empty _) q hq hc true).1).mpr)
          · exact npMinLoop_neg_mono (oppOf cfg.ai)
              (fun b1 => minimaxNPAux cfg g b1 (depth + 1) true)
              (fun b1 => WvAux cfg g' b1 true) (allCells cfg.N) b
              (fun q hq hc =>
                ((hc2 (oppOf cfg.ai) (oppOf_ne_empty _) q hq hc true).2).mp)
          · exact npMinLoop_neg_mono (oppOf cfg.ai)
              (fun b1 => WvAux cfg g' b1 true)
              (fun b1 => minimaxNPAux cfg g b1 (depth + 1) true)
              (allCells cfg.N) b
              (fun q hq hc =>
                ((hc2 (oppOf cfg.ai) (oppOf_ne_empty _) q hq hc true).2).mpr)

/-- The selection loop of `findBestMove` either keeps its incoming best
move (when no visited empty cell strictly beats the incoming best score)
or returns some visited empty cell whose root score is maximal among the
visited empty cells and strictly above the incoming best score. -/
theorem fbLoopP_argmax (cfg : Cfg) (maxDepth : Nat) :
    ∀ (cells : List (Nat × Nat)) (b : Board) (bs : EInt)
      (bm : Option (Nat × Nat)),
      (fbLoopP cfg maxDepth cells b bs bm = bm ∧
        ∀ q ∈ cells, cellAt b q.1 q.2 = Mark.empty →
          minimaxP cfg (setCell b q.1 q.2 cfg.ai) 0 false ⊥ ⊤ maxDepth ≤ bs) ∨
      (∃ m ∈ cells, cellAt b m.1 m.2 = Mark.empty ∧
        fbLoopP cfg maxDepth cells b bs bm = some m ∧
        bs < minimaxP cfg (setCell b m.1 m.2 cfg.ai) 0 false ⊥ ⊤ maxDepth ∧
        ∀ q ∈ cells, cellAt b q.1 q.2 = Mark.empty →
          minimaxP cfg (setCell b q.1 q.2 cfg.ai) 0 false ⊥ ⊤ maxDepth ≤
            minimaxP cfg (setCell b m.1 m.2 cfg.ai) 0 false ⊥ ⊤ maxDepth) := by
  intro cells
  induction cells with
  | nil =>
    intro b bs bm
    left
    exact ⟨rfl, fun q hq => absurd hq (List.not_mem_nil q)⟩
  | cons q0 rest ih =>
    intro b bs bm
    obtain ⟨i, j⟩ := q0
    by_cases hc : cellAt b i j = Mark.empty
    · simp only [fbLoopP, hc, if_true]
      by_cases hlt : bs < minimaxP cfg (setCell b i j cfg.ai) 0 false ⊥ ⊤ maxDepth
      · rw [if_pos hlt]
        rcases ih b (minimaxP cfg (setCell b i j cfg.ai) 0 false ⊥ ⊤ maxDepth)
            (some (i, j)) with ⟨heq, hall⟩ | ⟨m, hmem, hmc, heq, hgt, hall⟩
        · right
          refine ⟨(i, j), List.mem_cons_self _ _, hc, heq, hlt, ?_⟩
          intro q hq hqc
          rcases List.mem_cons.mp hq with h | h
          · subst h
            exact le_refl _
          · exact hall q h hqc
        · right
          refine ⟨m, List.mem_cons_of_mem _ hmem, hmc, heq,
            lt_trans hlt hgt, ?_⟩
          intro q hq hqc
          rcases List.mem_cons.mp hq with h | h
          · subst h
            exact le_of_lt hgt
          · exact hall q h hqc
      · rw [if_neg hlt]
        rcases ih b bs bm with ⟨heq, hall⟩ | ⟨m, hmem, hmc, heq, hgt, hall⟩
        · left
          refine ⟨heq, ?_⟩
          intro q hq hqc
          rcases List.mem_cons.mp hq with h | h
          · subst h
            exact not_lt.mp hlt
          · exact hall q h hqc
        · right
          refine ⟨m, List.mem_cons_of_mem _ hmem, hmc, heq, hgt, ?_⟩
          intro q hq hqc
          rcases List.mem_cons.mp hq with h | h
          · subst h
            exact le_trans (not_lt.mp hlt) (le_of_lt hgt)
          · exact hall q h hqc
    · simp only [fbLoopP, hc, if_false]
      rcases ih b bs bm with ⟨heq, hall⟩ | ⟨m, hmem, hmc, heq, hgt, hall⟩
      · left
        refine ⟨heq, ?_⟩
        intro q hq hqc
        rcases List.mem_cons.mp hq with h | h
        · subst h
          exact absurd hqc hc
        · exact hall q h hqc
      · right
        refine ⟨m, List.mem_cons_of_mem _ hmem, hmc, heq, hgt, ?_⟩
        intro q hq hqc
        rcases List.mem_cons.mp hq with h | h
        · subst h
          exact absurd hqc hc
        · exact hall q h hqc

/-- On a board with at least one empty cell, `findBestMove` returns an
empty cell whose root minimax score (equivalently, unpruned score) is
maximal among all empty cells. -/
theorem findBestMove_argmax (cfg : Cfg) (b : Board)
    (hnf : ¬ isBoardFullForMinimax cfg.N b = true) :
    ∃ m, (findBestMove cfg b).1 = some m ∧ m ∈ allCells cfg.N ∧
      cellAt b m.1 m.2 = Mark.empty ∧
      ∀ q ∈ allCells cfg.N, cellAt b q.1 q.2 = Mark.empty →
        minimaxNoPrune cfg (setCell b q.1 q.2 cfg.ai) 0 false
            (maxDepthFor cfg.N) ≤
          minimaxNoPrune cfg (setCell b m.1 m.2 cfg.ai) 0 false
            (maxDepthFor cfg.N) := by
  have hroot : ∀ b1 : Board,
      minimaxP cfg b1 0 false ⊥ ⊤ (maxDepthFor cfg.N) =
        minimaxNoPrune cfg b1 0 false (maxDepthFor cfg.N) := fun b1 =>
    minimaxPAux_eq_NP cfg (maxDepthFor cfg.N - 0) b1 0 false
  rw [findBestMove_eq_pure]
  rcases fbLoopP_argmax cfg (maxDepthFor cfg.N) (allCells cfg.N) b ⊥ none
    with ⟨_, hall⟩ | ⟨m, hmem, hmc, heq, _, hall⟩
  · exfalso
    obtain ⟨q, hq, hcell⟩ := exists_empty_of_not_full hnf
    have hle := hall q hq hcell
    rw [hroot] at hle
    exact (minimaxNPAux_finite cfg _ _ 0 false).1 (le_bot_iff.mp hle)
  · refine ⟨m, heq, hmem, hmc, ?_⟩
    intro q hq hqc
    have := hall q hq hqc
    rw [hroot, hroot] at this
    exact this

theorem hasLine3_intro {b : Board} {m : Mark} (l : List (Nat × Nat))
    (hl : l ∈ lines3) (hcells : ∀ q ∈ l, cellAt b q.1 q.2 = m) :
    hasLine3 b m = true := by
  unfold hasLine3
  rw [List.any_eq_true]
  refine ⟨l, hl, ?_⟩
  rw [List.all_eq_true]
  intro q hq
  exact decide_eq_true_eq.mpr (hcells q hq)

/-- A populated 3-run on the 3×3 board is one of the eight lines. -/
theorem hasLine3_of_runExists {b : Board} {m : Mark}
    (h : RunExists 3 3 b m) : hasLine3 b m = true := by
  obtain ⟨hm, _, d, hd, r, hr, c, hc, hall⟩ := h
  simp only [dirs, List.mem_cons, List.not_mem_nil, or_false] at hd
  rcases hd with rfl | rfl | rfl | rfl
  · -- right
    dsimp only at hall
    obtain rfl : c = 0 := by
      have h2 := (hall 2 (by omega)).2.2.2.1
      omega
    interval_cases r
    · refine hasLine3_intro [(0, 0), (0, 1), (0, 2)] (by decide) ?_
      intro q hq
      simp only [List.mem_cons, List.not_mem_nil, or_false] at hq
      rcases hq with rfl | rfl | rfl
      · exact (hall 0 (by omega)).2.2.2.2
      · exact (hall 1 (by omega)).2.2.2.2
      · exact (hall 2 (by omega)).2.2.2.2
    · refine hasLine3_intro [(1, 0), (1, 1), (1, 2)] (by decide) ?_
      intro q hq
      simp only [List.mem_cons, List.not_mem_nil, or_false] at hq
      rcases hq with rfl | rfl | rfl
      · exact (hall 0 (by omega)).2.2.2.2
      · exact (hall 1 (by omega)).2.2.2.2
      · exact (hall 2 (by omega)).2.2.2.2
    · refine hasLine3_intro [(2, 0), (2, 1), (2, 2)] (by decide) ?_
      intro q hq
      simp only [List.mem_cons, List.not_mem_nil, or_false] at hq
      rcases hq with rfl | rfl | rfl
      · exact (hall 0 (by omega)).2.2.2.2
      · exact (hall 1 (by omega)).2.2.2.2
      · exact (hall 2 (by omega)).2.2.2.2
  · -- down
    dsimp only at hall
    obtain rfl : r = 0 := by
      have h2 := (hall 2 (by omega)).2.1
      omega
    interval_cases c
    · refine hasLine3_intro [(0, 0), (1, 0), (2, 0)] (by decide) ?_
      intro q hq
      simp only [List.mem_cons, List.not_mem_nil, or_false] at hq
      rcases hq with rfl | rfl | rfl
      · exact (hall 0 (by omega)).2.2.2.2
      · exact (hall 1 (by omega)).2.2.2.2
      · exact (hall 2 (by omega)).2.2.2.2
    · refine hasLine3_intro [(0, 1), (1, 1), (2, 1)] (by decide) ?_
      intro q hq
      simp only [List.mem_cons, List.not_mem_nil, or_false] at hq
      rcases hq with rfl | rfl | rfl
      · exact (hall 0 (by omega)).2.2.2.2
      · exact (hall 1 (by omega)).2.2.2.2
      · exact (hall 2 (by omega)).2.2.2.2
    · refine hasLine3_intro [(0, 2), (1, 2), (2, 2)] (by decide) ?_
      intro q hq
      simp only [List.mem_cons, List.not_mem_nil, or_false] at hq
      rcases hq with rfl | rfl | rfl
      · exact (hall 0 (by omega)).2.2.2.2
      · exact (hall 1 (by omega)).2.2.2.2
      · exact (hall 2 (by omega)).2.2.2.2
  · -- down-right
    dsimp only at hall
    obtain rfl : r = 0 := by
      have h2 := (hall 2 (by omega)).2.1
      omega
    obtain rfl : c = 0 := by
      have h2 := (hall 2 (by omega)).2.2.2.1
      omega
    refine hasLine3_intro [(0, 0), (1, 1), (2, 2)] (by decide) ?_
    intro q hq
    simp only [List.mem_cons, List.not_mem_nil, or_false] at hq
    rcases hq with rfl | rfl | rfl
    · exact (hall 0 (by omega)).2.2.2.2
    · exact (hall 1 (by omega)).2.2.2.2
    · exact (hall 2 (by omega)).2.2.2.2
  · -- down-left
    dsimp only at hall
    obtain rfl : r = 0 := by
      have h2 := (hall 2 (by omega)).2.1
      omega
    obtain rfl : c = 2 := by
      have h2 := (hall 2 (by omega)).2.2.1
      have h3 := hc
      omega
    refine hasLine3_intro [(0, 2), (1, 1), (2, 0)] (by decide) ?_
    intro q hq
    simp only [List.mem_cons, List.not_mem_nil, or_false] at hq
    rcases hq with rfl | rfl | rfl
    · exact (hall 0 (by omega)).2.2.2.2
    · exact (hall 1 (by omega)).2.2.2.2
    · exact (hall 2 (by omega)).2.2.2.2

/-- Each of the eight lines, fully populated, is a run. -/
theorem runExists_of_hasLine3 {b : Board} {m : Mark}
    (hm : m ≠ Mark.empty) (h : hasLine3 b m = true) :
    RunExists 3 3 b m := by
  unfold hasLine3 at h
  rw [List.any_eq_true] at h
  obtain ⟨l, hl, hall⟩ := h
  rw [List.all_eq_true] at hall
  have hcells : ∀ q ∈ l, cellAt b q.1 q.2 = m := by
    intro q hq
    exact decide_eq_true_eq.mp (hall q hq)
  clear hall
  simp only [lines3, List.mem_cons, List.not_mem_nil, or_false] at hl
  rcases hl with rfl | rfl | rfl | rfl | rfl | rfl | rfl | rfl
  · exact ⟨hm, by omega, (0, 1), by decide, 0, by omega, 0, by omega, by
      intro k hk
      interval_cases k
      · exact ⟨by decide, by decide, by decide, by decide,
          hcells (0, 0) (by simp)⟩
      · exact ⟨by decide, by decide, by decide, by decide,
          hcells (0, 1) (by simp)⟩
      · exact ⟨by decide, by decide, by decide, by decide,
          hcells (0, 2) (by simp)⟩⟩
  · exact ⟨hm, by omega, (0, 1), by decide, 1, by omega, 0, by omega, by
      intro k hk
      interval_cases k
      · exact ⟨by decide, by decide, by decide, by decide,
          hcells (1, 0) (by simp)⟩
      · exact ⟨by decide, by decide, by decide, by decide,
          hcells (1, 1) (by simp)⟩
      · exact ⟨by decide, by decide, by decide, by decide,
          hcells (1, 2) (by simp)⟩⟩
  · exact ⟨hm, by omega, (0, 1), by decide, 2, by omega, 0, by omega, by
      intro k hk
      interval_cases k
      · exact ⟨by decide, by decide, by decide, by decide,
          hcells (2, 0) (by simp)⟩
      · exact ⟨by decide, by decide, by decide, by decide,
          hcells (2, 1) (by simp)⟩
      · exact ⟨by decide, by decide, by decide, by decide,
          hcells (2, 2) (by simp)⟩⟩
  · exact ⟨hm, by omega, (1, 0), by decide, 0, by omega, 0, by omega, by
      intro k hk
      interval_cases k
      · exact ⟨by decide, by decide, by decide, by decide,
          hcells (0, 0) (by simp)⟩
      · exact ⟨by decide, by decide, by decide, by decide,
          hcells (1, 0) (by simp)⟩
      · exact ⟨by decide, by decide, by decide, by decide,
          hcells (2, 0) (by simp)⟩⟩
  · exact ⟨hm, by omega, (1, 0), by decide, 0, by omega, 1, by omega, by
      intro k hk
      interval_cases k
      · exact ⟨by decide, by decide, by decide, by decide,
          hcells (0, 1) (by simp)⟩
      · exact ⟨by decide, by decide, by decide, by decide,
          hcells (1, 1) (by simp)⟩
      · exact ⟨by decide, by decide, by decide, by decide,
          hcells (2, 1) (by simp)⟩⟩
  · exact ⟨hm, by omega, (1, 0), by decide, 0, by omega, 2, by omega, by
      intro k hk
      interval_cases k
      · exact ⟨by decide, by decide, by decide, by decide,
          hcells (0, 2) (by simp)⟩
      · exact ⟨by decide, by decide, by decide, by decide,
          hcells (1, 2) (by simp)⟩
      · exact ⟨by decide, by decide, by decide, by decide,
          hcells (2, 2) (by simp)⟩⟩
  · exact ⟨hm, by omega, (1, 1), by decide, 0, by omega, 0, by omega, by
      intro k hk
      interval_cases k
      · exact ⟨by decide, by decide, by decide, by decide,
          hcells (0, 0) (by simp)⟩
      · exact ⟨by decide, by decide, by decide, by decide,
          hcells (1, 1) (by simp)⟩
      · exact ⟨by decide, by decide, by decide, by decide,
          hcells (2, 2) (by simp)⟩⟩
  · exact ⟨hm, by omega, (1, -1), by decide, 0, by omega, 2, by omega, by
      intro k hk
      interval_cases k
      · exact ⟨by decide, by decide, by decide, by decide,
          hcells (0, 2) (by simp)⟩
      · exact ⟨by decide, by decide, by decide, by decide,
          hcells (1, 1) (by simp)⟩
      · exact ⟨by decide, by decide, by decide, by decide,
          hcells (2, 0) (by simp)⟩⟩

/-- Placing a mark cannot create a run for the other mark: any run of a
different mark in the updated board avoids the placed cell, so it was
already present. -/
theorem runExists_setCell_other {N L : Nat} {b : Board} {i j : Nat}
    {m m' : Mark} (hwf : WF N b) (hi : i < N) (hj : j < N)
    (hne : m' ≠ m)
    (h : RunExists N L (setCell b i j m) m') : RunExists N L b m' := by
  obtain ⟨hm, hL, d, hd, r, hr, c, hc, hall⟩ := h
  refine ⟨hm, hL, d, hd, r, hr, c, hc, ?_⟩
  intro k hk
  obtain ⟨h1, h2, h3, h4, h5⟩ := hall k hk
  refine ⟨h1, h2, h3, h4, ?_⟩
  by_cases hq : ((((r : Int) + d.1 * (k : Int)).toNat,
      ((c : Int) + d.2 * (k : Int)).toNat) : Nat × Nat) = (i, j)
  · exfalso
    rw [Prod.mk.injEq] at hq
    obtain ⟨hq1, hq2⟩ := hq
    rw [hq1, hq2] at h5
    rw [cellAt_setCell_self_of_wf hwf hi hj] at h5
    exact hne h5.symm
  · rw [cellAt_setCell_ne hq] at h5
    exact h5

/-- If the board had no winner, a winner reported right after placing a
mark can only be the placed mark. -/
theorem winner_after_place {N L : Nat} {b : Board} {i j : Nat} {m w : Mark}
    (hwf : WF N b) (hL : 1 ≤ L) (hLN : L ≤ N) (hi : i < N) (hj : j < N)
    (hnone : checkWinnerForMinimax N L b = none)
    (h : checkWinnerForMinimax N L (setCell b i j m) = some w) : w = m := by
  rw [checkWinnerForMinimax_eq] at h
  unfold checkWinner at h
  cases hres : checkWinnerRes N L (setCell b i j m) with
  | none =>
    rw [hres] at h
    exact absurd h (by simp)
  | some p =>
    obtain ⟨w2, cells⟩ := p
    rw [hres] at h
    have hw2 : w2 = w := by simpa using h
    subst hw2
    have hrun := (run_of_checkWinnerRes hL hres).1
    by_contra hne
    have hrunb := runExists_setCell_other hwf hi hj hne hrun
    obtain ⟨p2, hres2⟩ := checkWinnerRes_isSome_of_run hLN hrunb
    rw [checkWinnerForMinimax_eq] at hnone
    unfold checkWinner at hnone
    rw [hres2] at hnone
    exact absurd hnone (by simp)

/-- No line for either player means the 3×3 detectors report no win. -/
theorem cwm_none_of_noline {b : Board}
    (hX : hasLine3 b Mark.X = false) (hO : hasLine3 b Mark.O = false) :
    checkWinnerForMinimax 3 3 b = none := by
  rw [checkWinnerForMinimax_eq]
  unfold checkWinner
  cases hres : checkWinnerRes 3 3 b with
  | none => rfl
  | some p =>
    exfalso
    obtain ⟨w, cells⟩ := p
    have hrun := (run_of_checkWinnerRes (by omega) hres).1
    have hw := hrun.1
    cases w
    · exact hw rfl
    · rw [hasLine3_of_runExists hrun] at hX
      exact absurd hX (by decide)
    · rw [hasLine3_of_runExists hrun] at hO
      exact absurd hO (by decide)

/-- An O line with no X line means the 3×3 detector reports an O win. -/
theorem cwm_O_of_lines {b : Board}
    (hX : hasLine3 b Mark.X = false) (hO : hasLine3 b Mark.O = true) :
    checkWinnerForMinimax 3 3 b = some Mark.O := by
  obtain ⟨p, hres⟩ := checkWinnerRes_isSome_of_run (by omega)
    (runExists_of_hasLine3 (by decide) hO)
  obtain ⟨w, cells⟩ := p
  have hrun := (run_of_checkWinnerRes (by omega) hres).1
  have hw : w = Mark.O := by
    cases w
    · exact absurd rfl hrun.1
    · rw [hasLine3_of_runExists hrun] at hX
      exact absurd hX (by decide)
    · rfl
  subst hw
  rw [checkWinnerForMinimax_eq]
  unfold checkWinner
  rw [hres]
  rfl

theorem cfg3_N : cfg3.N = 3 := rfl

theorem cfg3_L : cfg3.L = 3 := rfl

theorem cfg3_ai : cfg3.ai = Mark.O := rfl

theorem oppOf_O : oppOf Mark.O = Mark.X := rfl

theorem toE_le_toE {a b : Int} : toE a ≤ toE b ↔ a ≤ b := by
  simp only [toE]
  rw [WithBot.coe_le_coe, WithTop.coe_le_coe]

/-- Soundness of the certificate checker: an accepted certificate at an
X-to-move position with no winner bounds the game value from below — with
the given strategy O never loses from there. -/
theorem stratOk_sound :
    ∀ (fuel : Nat) (t : STree) (b : Board),
      WF 3 b →
      checkWinnerForMinimax 3 3 b = none →
      stratOk fuel t b = true →
      ∀ gas, emptiesCount 3 b ≤ gas →
      toE 0 ≤ WvAux cfg3 gas b false := by
  intro fuel
  induction fuel with
  | zero =>
    intro t b _ _ hok
    exact absurd hok (by simp [stratOk])
  | succ f ih =>
    intro t b hwf hnone hok gas hgas
    obtain ⟨children⟩ := t
    rw [WvAux_eq]
    simp only [cfg3_N, cfg3_L, cfg3_ai, oppOf_O]
    rw [if_neg (by rw [hnone]; simp), if_neg (by rw [hnone]; simp)]
    by_cases hfull : isBoardFullForMinimax 3 b = true
    · rw [if_pos hfull]
    · rw [if_neg hfull]
      have hemp : 1 ≤ emptiesCount 3 b := by
        obtain ⟨q0, hq0, hcell0⟩ := exists_empty_of_not_full hfull
        obtain ⟨i0, j0⟩ := q0
        obtain ⟨hi0, hj0⟩ := mem_allCells.mp hq0
        exact emptiesCount_pos_of_empty hi0 hj0 hcell0
      cases gas with
      | zero => omega
      | succ g =>
        refine npMinLoop_ge Mark.X (fun b1 => WvAux cfg3 g b1 true) (toE 0)
          (allCells 3) b ⊤ (le_of_lt (toE_lt_top 0)) ?_
        intro q hq hcell
        obtain ⟨qi, qj⟩ := q
        obtain ⟨hqi, hqj⟩ := mem_allCells.mp hq
        show toE 0 ≤ WvAux cfg3 g (setCell b (qi, qj).1 (qi, qj).2 Mark.X) true
        simp only [stratOk, List.all_eq_true] at hok
        have hbr := hok (qi, qj) hq
        rw [if_pos hcell] at hbr
        have hwf1 : WF 3 (setCell b (qi, qj).1 (qi, qj).2 Mark.X) :=
          WF_setCell hwf hqi
        by_cases hl1 : (hasLine3 (setCell b (qi, qj).1 (qi, qj).2 Mark.X)
            Mark.X || hasLine3 (setCell b (qi, qj).1 (qi, qj).2 Mark.X)
            Mark.O) = true
        · rw [if_pos hl1] at hbr
          exact absurd hbr (by decide)
        · rw [if_neg hl1] at hbr
          simp only [Bool.or_eq_true, not_or, Bool.not_eq_true] at hl1
          obtain ⟨hX1, hO1⟩ := hl1
          have hnone1 : checkWinnerForMinimax 3 3
              (setCell b (qi, qj).1 (qi, qj).2 Mark.X) = none :=
            cwm_none_of_noline hX1 hO1
          rw [WvAux_eq]
          simp only [cfg3_N, cfg3_L, cfg3_ai, oppOf_O]
          rw [if_neg (by rw [hnone1]; simp), if_neg (by rw [hnone1]; simp)]
          by_cases hfull1 : isBoardFullForMinimax 3
              (setCell b (qi, qj).1 (qi, qj).2 Mark.X) = true
          · rw [if_pos hfull1]
          · rw [if_neg hfull1]
            have hfb1 : ¬ isBoardFull 3
                (setCell b (qi, qj).1 (qi, qj).2 Mark.X) = true := hfull1
            rw [if_neg hfb1] at hbr
            have hemp1 : 1 ≤ emptiesCount 3
                (setCell b (qi, qj).1 (qi, qj).2 Mark.X) := by
              obtain ⟨p0, hp0, hpc0⟩ := exists_empty_of_not_full hfull1
              obtain ⟨pi, pj⟩ := p0
              obtain ⟨hpi, hpj⟩ := mem_allCells.mp hp0
              exact emptiesCount_pos_of_empty hpi hpj hpc0
            have hdec1 : emptiesCount 3
                (setCell b (qi, qj).1 (qi, qj).2 Mark.X) <
                emptiesCount 3 b :=
              emptiesCount_setCell_lt hwf hqi hqj hcell (by decide)
            cases hfind : children.find? (fun e => decide (e.1 = (qi, qj)))
              with
            | none =>
              rw [hfind] at hbr
              simp at hbr
            | some e =>
              rw [hfind] at hbr
              dsimp only at hbr
              by_cases hoc : e.2.1.1 < 3 ∧ e.2.1.2 < 3 ∧
                  cellAt (setCell b (qi, qj).1 (qi, qj).2 Mark.X)
                    e.2.1.1 e.2.1.2 = Mark.empty
              · rw [if_pos hoc] at hbr
                obtain ⟨hoi, hoj, hocell⟩ := hoc
                cases g with
                | zero => omega
                | succ g2 =>
                  refine le_trans ?_ (npMaxLoop_ge_elem Mark.O
                    (fun bb => WvAux cfg3 g2 bb false) (allCells 3)
                    (setCell b (qi, qj).1 (qi, qj).2 Mark.X) ⊥
                    (e.2.1.1, e.2.1.2) (mem_allCells.mpr ⟨hoi, hoj⟩) hocell)
                  show toE 0 ≤ WvAux cfg3 g2
                    (setCell (setCell b (qi, qj).1 (qi, qj).2 Mark.X)
                      e.2.1.1 e.2.1.2 Mark.O) false
                  have hwf2 : WF 3
                      (setCell (setCell b (qi, qj).1 (qi, qj).2 Mark.X)
                        e.2.1.1 e.2.1.2 Mark.O) :=
                    WF_setCell hwf1 hoi
                  have hdec2 : emptiesCount 3
                      (setCell (setCell b (qi, qj).1 (qi, qj).2 Mark.X)
                        e.2.1.1 e.2.1.2 Mark.O) <
                      emptiesCount 3
                        (setCell b (qi, qj).1 (qi, qj).2 Mark.X) :=
                    emptiesCount_setCell_lt hwf1 hoi hoj hocell (by decide)
                  by_cases hx2 : hasLine3
                      (setCell (setCell b (qi, qj).1 (qi, qj).2 Mark.X)
                        e.2.1.1 e.2.1.2 Mark.O) Mark.X = true
                  · rw [if_pos hx2] at hbr
                    exact absurd hbr (by decide)
                  · rw [if_neg hx2] at hbr
                    rw [Bool.not_eq_true] at hx2
                    by_cases ho2 : hasLine3
                        (setCell (setCell b (qi, qj).1 (qi, qj).2 Mark.X)
                          e.2.1.1 e.2.1.2 Mark.O) Mark.O = true
                    · rw [WvAux_eq]
                      simp only [cfg3_N, cfg3_L, cfg3_ai, oppOf_O]
                      rw [if_pos (cwm_O_of_lines hx2 ho2)]
                      exact toE_le_toE.mpr (by omega)
                    · rw [if_neg ho2] at hbr
                      rw [Bool.not_eq_true] at ho2
                      have hnone2 : checkWinnerForMinimax 3 3
                          (setCell (setCell b (qi, qj).1 (qi, qj).2 Mark.X)
                            e.2.1.1 e.2.1.2 Mark.O) = none :=
                        cwm_none_of_noline hx2 ho2
                      by_cases hf2 : isBoardFull 3
                          (setCell (setCell b (qi, qj).1 (qi, qj).2 Mark.X)
                            e.2.1.1 e.2.1.2 Mark.O) = true
                      · have hfm2 : isBoardFullForMinimax 3
                            (setCell (setCell b (qi, qj).1 (qi, qj).2 Mark.X)
                              e.2.1.1 e.2.1.2 Mark.O) = true := hf2
                        rw [WvAux_eq]
                        simp only [cfg3_N, cfg3_L, cfg3_ai, oppOf_O]
                        rw [if_neg (by rw [hnone2]; simp),
                          if_neg (by rw [hnone2]; simp), if_pos hfm2]
                      · rw [if_neg hf2] at hbr
                        exact ih e.2.2
                          (setCell (setCell b (qi, qj).1 (qi, qj).2 Mark.X)
                            e.2.1.1 e.2.1.2 Mark.O)
                          hwf2 hnone2 hbr g2 (by omega)
              · rw [if_neg hoc] at hbr
                exact absurd hbr (by decide)

set_option maxHeartbeats 8000000 in
theorem stratOkData_ok :
    stratOk 6 stratOkData (List.replicate 3 (List.replicate 3 Mark.empty)) =
      true := by decide

/-- `minimaxNP_Wv_sign` specialised to the 3×3 session. -/
theorem sign3 (b : Board) (gas gas' : Nat) (hwf : WF 3 b)
    (hg : emptiesCount 3 b ≤ gas) (hg' : emptiesCount 3 b ≤ gas')
    (h9 : emptiesCount 3 b ≤ 9) :
    ((toE 0 < minimaxNPAux cfg3 gas b 0 false ↔
        toE 0 < WvAux cfg3 gas' b false) ∧
     (minimaxNPAux cfg3 gas b 0 false < toE 0 ↔
        WvAux cfg3 gas' b false < toE 0)) :=
  minimaxNP_Wv_sign cfg3 (by decide) 9 b gas gas' 0 false hwf h9 hg hg'
    (by omega)

/-- The winner / tie / switch tail after an O placement restores the
invariant whenever any winner must be O and the continuing position is
safe. -/
theorem checkGameEnd_Inv_O (s4 : GState)
    (hbs : s4.boardSize = 3) (hwl : s4.winLength = 3)
    (hmode : s4.gameMode = GMode.ai) (hap : s4.aiPlayer = Mark.O)
    (hcur : s4.currentPlayer = Mark.O)
    (hwf : WF 3 s4.gameBoard)
    (hwinO : ∀ w, checkWinner 3 3 s4.gameBoard = some w → w = Mark.O)
    (hWv : checkWinner 3 3 s4.gameBoard = none →
      ¬ isBoardFull 3 s4.gameBoard = true →
      toE 0 ≤ WvAux cfg3 9 s4.gameBoard false) :
    Inv (checkGameEnd s4) := by
  unfold checkGameEnd
  rw [hbs, hwl]
  cases hw : checkWinner 3 3 s4.gameBoard with
  | some w =>
    unfold endGame
    refine ⟨hbs, hwl, hmode, hap, hwf, ?_, ?_⟩
    · show checkWinner 3 3 s4.gameBoard ≠ some Mark.X
      rw [hw, hwinO w hw]
      simp
    · intro habs
      have habs2 : (false : Bool) = true := habs
      exact absurd habs2 (by decide)
  | none =>
    by_cases hfm : isBoardFull 3 s4.gameBoard = true
    · rw [if_pos hfm]
      unfold endGame
      refine ⟨hbs, hwl, hmode, hap, hwf, ?_, ?_⟩
      · show checkWinner 3 3 s4.gameBoard ≠ some Mark.X
        rw [hw]
        simp
      · intro habs
        have habs2 : (false : Bool) = true := habs
        exact absurd habs2 (by decide)
    · rw [if_neg hfm]
      unfold switchPlayer
      refine ⟨hbs, hwl, hmode, hap, hwf, ?_, ?_⟩
      · show checkWinner 3 3 s4.gameBoard ≠ some Mark.X
        rw [hw]
        simp
      · intro _
        refine ⟨?_, hw, hWv hw hfm⟩
        show (if s4.currentPlayer = Mark.X then Mark.O else Mark.X) = Mark.X
        rw [hcur]
        decide

/-- The computer's reply from a safe position (no winner, not full, O to
move, game value at least 0 one ply below the root budget) restores the
invariant. -/
theorem makeAIMove_Inv (s : GState)
    (hbs : s.boardSize = 3) (hwl : s.winLength = 3)
    (hmode : s.gameMode = GMode.ai) (hap : s.aiPlayer = Mark.O)
    (hwf : WF 3 s.gameBoard) (hcur : s.currentPlayer = Mark.O)
    (hact : s.gameActive = true)
    (hwin : checkWinner 3 3 s.gameBoard = none)
    (hnf : ¬ isBoardFullForMinimax 3 s.gameBoard = true)
    (hb8 : emptiesCount 3 s.gameBoard ≤ 8)
    (hWv : toE 0 ≤ WvAux cfg3 8 s.gameBoard true) :
    Inv (makeAIMove s 0) := by
  have hcfg : cfgOf s = cfg3 := by
    unfold cfgOf cfg3
    rw [hbs, hwl, hap]
  have hcwm : checkWinnerForMinimax 3 3 s.gameBoard = none := by
    rw [checkWinnerForMinimax_eq]
    exact hwin
  have hemp : 1 ≤ emptiesCount 3 s.gameBoard := by
    obtain ⟨q0, hq0, hc0⟩ := exists_empty_of_not_full hnf
    obtain ⟨i0, j0⟩ := q0
    obtain ⟨hi0, hj0⟩ := mem_allCells.mp hq0
    exact emptiesCount_pos_of_empty hi0 hj0 hc0
  rw [WvAux_eq] at hWv
  simp only [cfg3_N, cfg3_L, cfg3_ai, oppOf_O] at hWv
  rw [if_neg (by rw [hcwm]; simp), if_neg (by rw [hcwm]; simp),
    if_neg hnf] at hWv
  have hWv2 : toE 0 ≤ npMaxLoop Mark.O (fun bb => WvAux cfg3 7 bb false)
      (allCells 3) s.gameBoard ⊥ := hWv
  rcases npMaxLoop_cases Mark.O (fun bb => WvAux cfg3 7 bb false)
      (allCells 3) s.gameBoard ⊥ with hcase | ⟨q, hqmem, hqcell, hqeq⟩
  · rw [hcase] at hWv2
    exact absurd (le_bot_iff.mp hWv2) (toE_ne_bot 0)
  · rw [hqeq] at hWv2
    obtain ⟨qi, qj⟩ := q
    obtain ⟨hqi, hqj⟩ := mem_allCells.mp hqmem
    have hWv2q : toE 0 ≤ WvAux cfg3 7
        (setCell s.gameBoard qi qj Mark.O) false := hWv2
    have hwfq : WF 3 (setCell s.gameBoard qi qj Mark.O) :=
      WF_setCell hwf hqi
    have hdecq : emptiesCount 3 (setCell s.gameBoard qi qj Mark.O) <
        emptiesCount 3 s.gameBoard :=
      emptiesCount_setCell_lt hwf hqi hqj hqcell (by decide)
    have hNPq : toE 0 ≤ minimaxNPAux cfg3 9
        (setCell s.gameBoard qi qj Mark.O) 0 false := by
      rcases sign3 (setCell s.gameBoard qi qj Mark.O) 9 7 hwfq
          (by omega) (by omega) (by omega) with ⟨_, hneg⟩
      exact not_lt.mp (fun hlt => absurd (hneg.mp hlt) (not_lt.mpr hWv2q))
    have hnf3 : ¬ isBoardFullForMinimax cfg3.N s.gameBoard = true := hnf
    obtain ⟨mv, hmv_eq, hmv_mem, hmv_cell, hmv_max⟩ :=
      findBestMove_argmax cfg3 s.gameBoard hnf3
    obtain ⟨mi, mj⟩ := mv
    obtain ⟨hmi, hmj⟩ := mem_allCells.mp hmv_mem
    have hscore := hmv_max (qi, qj) hqmem hqcell
    have hscore2 : minimaxNPAux cfg3 9
        (setCell s.gameBoard qi qj Mark.O) 0 false ≤
        minimaxNPAux cfg3 9 (setCell s.gameBoard mi mj Mark.O) 0 false :=
      hscore
    have hNPmv : toE 0 ≤ minimaxNPAux cfg3 9
        (setCell s.gameBoard mi mj Mark.O) 0 false :=
      le_trans hNPq hscore2
    have hwfm : WF 3 (setCell s.gameBoard mi mj Mark.O) :=
      WF_setCell hwf hmi
    have hmc : cellAt s.gameBoard mi mj = Mark.empty := hmv_cell
    have hdecm : emptiesCount 3 (setCell s.gameBoard mi mj Mark.O) <
        emptiesCount 3 s.gameBoard :=
      emptiesCount_setCell_lt hwf hmi hmj hmc (by decide)
    have hWvm : toE 0 ≤ WvAux cfg3 9
        (setCell s.gameBoard mi mj Mark.O) false := by
      rcases sign3 (setCell s.gameBoard mi mj Mark.O) 9 9 hwfm
          (by omega) (by omega) (by omega) with ⟨_, hneg⟩
      exact not_lt.mp (fun hlt => absurd (hneg.mpr hlt) (not_lt.mpr hNPmv))
    have hwinm : ∀ w, checkWinner 3 3 (setCell s.gameBoard mi mj Mark.O) =
        some w → w = Mark.O := by
      intro w hw
      refine winner_after_place hwf (by omega) (by omega) hmi hmj hcwm ?_
      rw [checkWinnerForMinimax_eq]
      exact hw
    have hboard : (makeMove s mi mj).gameBoard =
        setCell s.gameBoard mi mj Mark.O := by
      unfold makeMove
      dsimp only
      rw [hcur]
    unfold makeAIMove
    rw [hact, if_neg (by decide), hbs, if_neg (by decide), hcfg, hmv_eq]
    dsimp only
    apply checkGameEnd_Inv_O
    · exact hbs
    · exact hwl
    · exact hmode
    · exact hap
    · exact hcur
    · rw [hboard]
      exact hwfm
    · rw [hboard]
      exact hwinm
    · rw [hboard]
      intro _ _
      exact hWvm

/-- One full interaction step — a human click and, when due, the deferred
computer reply — preserves the invariant. -/
theorem clickStep_Inv (s : GState) (r c : Nat) (h : Inv s) :
    Inv (clickStep s r c 0) := by
  obtain ⟨hbs, hwl, hmode, hap, hwf, hnX, hrun⟩ := h
  unfold clickStep handleCellClick
  by_cases hact : s.gameActive = false
  · rw [if_pos hact]
    dsimp only
    have hma : moveAccepted s r c = false := by
      unfold moveAccepted
      rw [hact]
      rfl
    rw [hma, if_neg (by decide)]
    exact ⟨hbs, hwl, hmode, hap, hwf, hnX, hrun⟩
  · have hact' : s.gameActive = true := by
      cases hgb : s.gameActive with
      | false => exact absurd hgb hact
      | true => rfl
    obtain ⟨hcur, hwin, hWv⟩ := hrun hact'
    rw [if_neg hact]
    cases hrow : s.gameBoard[r]? with
    | none =>
      dsimp only
      exact ⟨hbs, hwl, hmode, hap, hwf, hnX, hrun⟩
    | some row =>
      dsimp only
      cases hcellq : row[c]? with
      | none =>
        dsimp only
        have hma : moveAccepted s r c = false := by
          simp [moveAccepted, hrow, hcellq]
        rw [hma, if_neg (by decide)]
        exact ⟨hbs, hwl, hmode, hap, hwf, hnX, hrun⟩
      | some m =>
        dsimp only
        by_cases hm : m ≠ Mark.empty
        · rw [if_pos hm]
          dsimp only
          have hma : moveAccepted s r c = false := by
            simp [moveAccepted, hrow, hcellq, hm]
          rw [hma, if_neg (by decide)]
          exact ⟨hbs, hwl, hmode, hap, hwf, hnX, hrun⟩
        · rw [if_neg hm]
          push_neg at hm
          subst hm
          dsimp only
          have hma : moveAccepted s r c = true := by
            simp [moveAccepted, hrow, hcellq, hact']
          rw [hma, if_pos rfl]
          have hr3 : r < 3 := by
            have h1 := (List.getElem?_eq_some.mp hrow).1
            rw [hwf.1] at h1
            exact h1
          have hrowlen : row.length = 3 := by
            obtain ⟨hlt, hget⟩ := List.getElem?_eq_some.mp hrow
            have hmem : row ∈ s.gameBoard := by
              rw [← hget]
              exact List.getElem_mem hlt
            exact hwf.2 row hmem
          have hc3 : c < 3 := by
            have h1 := (List.getElem?_eq_some.mp hcellq).1
            rw [hrowlen] at h1
            exact h1
          have hcell : cellAt s.gameBoard r c = Mark.empty := by
            have h1 : List.getD s.gameBoard r [] = row := by
              rw [List.getD_eq_getElem?_getD, hrow]
              rfl
            unfold cellAt rowAt
            rw [h1, List.getD_eq_getElem?_getD, hcellq]
            rfl
          have hcwm : checkWinnerForMinimax 3 3 s.gameBoard = none := by
            rw [checkWinnerForMinimax_eq]
            exact hwin
          have hnfull : ¬ isBoardFullForMinimax 3 s.gameBoard = true := by
            intro hcontra
            rw [not_full_of_empty hr3 hc3 hcell] at hcontra
            exact absurd hcontra (by decide)
          have hemp9 : emptiesCount 3 s.gameBoard ≤ 9 := by
            have := emptiesCount_le_sq 3 s.gameBoard
            omega
          rw [WvAux_eq] at hWv
          simp only [cfg3_N, cfg3_L, cfg3_ai, oppOf_O] at hWv
          rw [if_neg (by rw [hcwm]; simp), if_neg (by rw [hcwm]; simp),
            if_neg hnfull] at hWv
          have hWv2 : toE 0 ≤ npMinLoop Mark.X
              (fun bb => WvAux cfg3 8 bb true) (allCells 3)
              s.gameBoard ⊤ := hWv
          have hb1Wv : toE 0 ≤ WvAux cfg3 8
              (setCell s.gameBoard r c Mark.X) true := by
            refine le_trans hWv2 ?_
            exact npMinLoop_le_elem Mark.X
              (fun bb => WvAux cfg3 8 bb true) (allCells 3) s.gameBoard ⊤
              (r, c) (mem_allCells.mpr ⟨hr3, hc3⟩) hcell
          have hwf1 : WF 3 (setCell s.gameBoard r c Mark.X) :=
            WF_setCell hwf hr3
          have hdec1 : emptiesCount 3 (setCell s.gameBoard r c Mark.X) <
              emptiesCount 3 s.gameBoard :=
            emptiesCount_setCell_lt hwf hr3 hc3 hcell (by decide)
          have hw1 : checkWinner 3 3 (setCell s.gameBoard r c Mark.X) =
              none := by
            cases hcw1 : checkWinner 3 3 (setCell s.gameBoard r c Mark.X)
              with
            | none => rfl
            | some w =>
              exfalso
              have hcwm1 : checkWinnerForMinimax 3 3
                  (setCell s.gameBoard r c Mark.X) = some w := by
                rw [checkWinnerForMinimax_eq]
                exact hcw1
              have hwX : w = Mark.X :=
                winner_after_place hwf (by omega) (by omega) hr3 hc3 hcwm
                  hcwm1
              subst hwX
              rw [WvAux_eq] at hb1Wv
              simp only [cfg3_N, cfg3_L, cfg3_ai, oppOf_O] at hb1Wv
              rw [if_neg (by rw [hcwm1]; simp), if_pos hcwm1] at hb1Wv
              exact absurd (toE_le_toE.mp hb1Wv) (by omega)
          by_cases hfull1 : isBoardFull 3 (setCell s.gameBoard r c Mark.X) =
              true
          · have hcge : checkGameEnd (makeMove s r c) =
                endGame (makeMove s r c) := by
              unfold checkGameEnd
              rw [show (makeMove s r c).boardSize = s.boardSize from rfl,
                show (makeMove s r c).winLength = s.winLength from rfl,
                show (makeMove s r c).gameBoard =
                  setCell s.gameBoard r c s.currentPlayer from rfl,
                hcur, hbs, hwl, hw1, if_pos hfull1]
            rw [hcge]
            rw [if_neg (fun hcond =>
              absurd (show (false : Bool) = true from hcond.2.2)
                (by decide))]
            refine ⟨hbs, hwl, hmode, hap, ?_, ?_, ?_⟩
            · show WF 3 (setCell s.gameBoard r c s.currentPlayer)
              rw [hcur]
              exact hwf1
            · show checkWinner 3 3
                (setCell s.gameBoard r c s.currentPlayer) ≠ some Mark.X
              rw [hcur, hw1]
              simp
            · intro habs
              exact absurd (show (false : Bool) = true from habs) (by decide)
          · have hcge : checkGameEnd (makeMove s r c) =
                switchPlayer (makeMove s r c) := by
              unfold checkGameEnd
              rw [show (makeMove s r c).boardSize = s.boardSize from rfl,
                show (makeMove s r c).winLength = s.winLength from rfl,
                show (makeMove s r c).gameBoard =
                  setCell s.gameBoard r c s.currentPlayer from rfl,
                hcur, hbs, hwl, hw1, if_neg hfull1]
            rw [hcge]
            have hcond : (switchPlayer (makeMove s r c)).gameMode =
                GMode.ai ∧
                (switchPlayer (makeMove s r c)).currentPlayer =
                  (switchPlayer (makeMove s r c)).aiPlayer ∧
                (switchPlayer (makeMove s r c)).gameActive = true := by
              refine ⟨hmode, ?_, hact'⟩
              show (if s.currentPlayer = Mark.X then Mark.O else Mark.X) =
                s.aiPlayer
              rw [hcur, if_pos rfl, hap]
            rw [if_pos hcond]
            apply makeAIMove_Inv
            · exact hbs
            · exact hwl
            · exact hmode
            · exact hap
            · show WF 3 (setCell s.gameBoard r c s.currentPlayer)
              rw [hcur]
              exact hwf1
            · show (if s.currentPlayer = Mark.X then Mark.O else Mark.X) =
                Mark.O
              rw [hcur, if_pos rfl]
            · exact hact'
            · show checkWinner 3 3
                (setCell s.gameBoard r c s.currentPlayer) = none
              rw [hcur]
              exact hw1
            · show ¬ isBoardFullForMinimax 3
                (setCell s.gameBoard r c s.currentPlayer) = true
              rw [hcur]
              exact hfull1
            · show emptiesCount 3
                (setCell s.gameBoard r c s.currentPlayer) ≤ 8
              rw [hcur]
              omega
            · show toE 0 ≤ WvAux cfg3 8
                (setCell s.gameBoard r c s.currentPlayer) true
              rw [hcur]
              exact hb1Wv

/-- A winner reported by the scan is never the empty mark. -/
theorem checkWinner_ne_empty {N L : Nat} {b : Board} {w : Mark}
    (hL : 1 ≤ L) (h : checkWinner N L b = some w) : w ≠ Mark.empty := by
  unfold checkWinner at h
  cases hres : checkWinnerRes N L b with
  | none =>
    rw [hres] at h
    exact absurd h (by simp)
  | some p =>
    obtain ⟨w2, cells⟩ := p
    rw [hres] at h
    have hw2 : w2 = w := by simpa using h
    subst hw2
    exact ((run_of_checkWinnerRes hL hres).1).1

/-- The invariant holds at a fresh 3×3 session against the computer: the
certificate `stratOkData` bounds the empty board's game value. -/
theorem Inv_init : Inv (initGame 3 GMode.ai) := by
  refine ⟨rfl, rfl, rfl, rfl, ⟨rfl, by decide⟩, by decide, ?_⟩
  intro _
  refine ⟨rfl, by decide, ?_⟩
  show toE 0 ≤ WvAux cfg3 9
    (List.replicate 3 (List.replicate 3 Mark.empty)) false
  exact stratOk_sound 6 stratOkData
    (List.replicate 3 (List.replicate 3 Mark.empty)) ⟨rfl, by decide⟩
    (by decide) stratOkData_ok 9 (by decide)

/-- The invariant is preserved along every interaction sequence. -/
theorem Inv_playout (ms : List (Nat × Nat)) :
    ∀ s, Inv s → Inv (playout s ms) := by
  induction ms with
  | nil =>
    intro s h
    exact h
  | cons m rest ih =>
    intro s h
    exact ih _ (clickStep_Inv s m.1 m.2 h)

/-- Claim C5.  On the 3×3 session against the computer (run-length 3,
the human opponent X moving first, the computer playing O through
`findBestMove` — whose depth ceiling for size 3 is 9, an unrestricted
search), every interaction sequence leads only to states whose result is
no win (ongoing or drawn) or a win for the computing player: the
opponent never completes a line, so the computing player never loses.
Clicks after the game has ended, on occupied cells or out of range are
rejected exactly as in the source, so the quantification covers every
sequence of legal opponent moves. -/
theorem c5_theorem (ms : List (Nat × Nat)) :
    checkWinner 3 3 (playout (initGame 3 GMode.ai) ms).gameBoard = none ∨
    checkWinner 3 3 (playout (initGame 3 GMode.ai) ms).gameBoard =
      some Mark.O := by
  obtain ⟨_, _, _, _, _, hnX, _⟩ :=
    Inv_playout ms (initGame 3 GMode.ai) Inv_init
  cases hw : checkWinner 3 3 (playout (initGame 3 GMode.ai) ms).gameBoard
    with
  | none => exact Or.inl rfl
  | some w =>
    right
    have hne := checkWinner_ne_empty (by omega) hw
    cases w
    · exact absurd rfl hne
    · exact absurd hw hnX
    · rfl

end TicTacToe
